import Mathlib

/-!
# SMP scheduler core (`cpukit/score/include/rtems/score/schedulersmpimpl.h`)

A shallow embedding of the SMP scheduler implementation header.  Pointers to
thread control blocks and to per-processor control blocks are modelled by their
identity: `Thread` and `Cpu` are arbitrary types with decidable equality.  The
memory reachable from the scheduler context is an explicit `State` record that
every operation transforms.  Assertions and the use of a `NULL` thread pointer
make an operation end in a `Fault`.
-/

namespace SchedulerSMP

/-- The four states of a scheduler node (`Scheduler_SMP_Node_state`). -/
inductive Scheduler_SMP_Node_state
  | SCHEDULER_SMP_NODE_BLOCKED
  | SCHEDULER_SMP_NODE_SCHEDULED
  | SCHEDULER_SMP_NODE_READY
  | SCHEDULER_SMP_NODE_IN_THE_AIR
  deriving DecidableEq, Repr

open Scheduler_SMP_Node_state

/-- Identity of a scheduler instance (`Scheduler_Context *`). -/
abbrev Scheduler_Context := Nat

/-- The ways an operation can end without returning. -/
inductive Fault
  | assertion_failed
  | null_dereference
  deriving DecidableEq, Repr

/-- The effects of the core that are observable from outside, in program
order: stores to the per-processor records and to the threads, fences,
inter-processor interrupts, and the calls through the function pointers of the
concrete scheduler. -/
inductive Event (Thread Cpu : Type)
  | node_change_state (thread : Thread)
      (old_state new_state : Scheduler_SMP_Node_state)
  | node_store_state (thread : Thread) (new_state : Scheduler_SMP_Node_state)
  | store_heir (cpu : Cpu) (heir : Thread)
  | atomic_fence
  | store_dispatch_necessary (cpu : Cpu)
  | send_interrupt (cpu : Cpu)
  | thread_set_cpu (thread : Thread) (cpu : Cpu)
  | chain_append_scheduled (thread : Thread)
  | call_get_highest_ready
  | call_extract (thread : Thread)
  | call_insert_ready (thread : Thread)
  | call_insert_scheduled (thread : Thread)
  | call_move_from_ready_to_scheduled (thread : Thread)
  | call_move_from_scheduled_to_ready (thread : Thread)
  deriving DecidableEq

/-- The fields of `Per_CPU_Control` the scheduler reads and writes. -/
structure Per_CPU_Control (Thread : Type) where
  heir : Thread
  dispatch_necessary : Bool
  scheduler_context : Scheduler_Context

/-- The memory the scheduler core works on.

* `state t` is `_Scheduler_SMP_Node_get( t )->state`;
* `cpu t` is `_Thread_Get_CPU( t )`;
* `is_executing t` is `_Thread_Is_executing_on_a_processor( t )`;
* `debug_real_cpu t` is `t->debug_real_cpu`;
* `per_cpu p` is the per-processor control block `p`;
* `Scheduled` is the chain `self->Scheduled`, head first;
* `Ready` is the content of the ready set kept by the concrete scheduler;
* `Base` is `&self->Base`, `cpu_self` is `_Per_CPU_Get()`, `isr_level` is
  `_ISR_Get_level()`;
* `trace` is the list of effects so far, oldest first. -/
structure State (Thread Cpu : Type) where
  state : Thread → Scheduler_SMP_Node_state
  cpu : Thread → Cpu
  is_executing : Thread → Bool
  debug_real_cpu : Thread → Cpu
  per_cpu : Cpu → Per_CPU_Control Thread
  Scheduled : List Thread
  Ready : List Thread
  Base : Scheduler_Context
  cpu_self : Cpu
  isr_level : Nat
  trace : List (Event Thread Cpu)

/-- The function pointers a concrete scheduler hands to the core
(`Chain_Node_order`, `Scheduler_SMP_Get_highest_ready`,
`Scheduler_SMP_Extract`, `Scheduler_SMP_Insert`, `Scheduler_SMP_Move`). -/
structure Plugins (Thread Cpu : Type) where
  order : Thread → Thread → Bool
  get_highest_ready : State Thread Cpu → Option Thread
  extract : State Thread Cpu → Thread → State Thread Cpu
  insert_ready : State Thread Cpu → Thread → State Thread Cpu
  insert_scheduled : State Thread Cpu → Thread → State Thread Cpu
  move_from_ready_to_scheduled : State Thread Cpu → Thread → State Thread Cpu
  move_from_scheduled_to_ready : State Thread Cpu → Thread → State Thread Cpu

section Core

variable {Thread Cpu : Type} [DecidableEq Thread] [DecidableEq Cpu]

/-- Modelled from the spec: the table `_Scheduler_SMP_Node_valid_state_changes`
is only declared `extern` in the header; its content is the table of permitted
transitions of section 4.1, which is also the state graph drawn in the header
documentation. -/
def _Scheduler_SMP_Node_valid_state_changes :
    Scheduler_SMP_Node_state → Scheduler_SMP_Node_state → Bool
  | SCHEDULER_SMP_NODE_BLOCKED, SCHEDULER_SMP_NODE_SCHEDULED => true
  | SCHEDULER_SMP_NODE_BLOCKED, SCHEDULER_SMP_NODE_READY => true
  | SCHEDULER_SMP_NODE_SCHEDULED, SCHEDULER_SMP_NODE_READY => true
  | SCHEDULER_SMP_NODE_SCHEDULED, SCHEDULER_SMP_NODE_IN_THE_AIR => true
  | SCHEDULER_SMP_NODE_READY, SCHEDULER_SMP_NODE_BLOCKED => true
  | SCHEDULER_SMP_NODE_READY, SCHEDULER_SMP_NODE_SCHEDULED => true
  | SCHEDULER_SMP_NODE_IN_THE_AIR, SCHEDULER_SMP_NODE_BLOCKED => true
  | SCHEDULER_SMP_NODE_IN_THE_AIR, SCHEDULER_SMP_NODE_SCHEDULED => true
  | SCHEDULER_SMP_NODE_IN_THE_AIR, SCHEDULER_SMP_NODE_READY => true
  | _, _ => false

/-- Modelled from the spec: the macro `_Assert` comes from
`rtems/score/assert.h`, which is not part of the sources.  Section 7 makes a
failed assertion abort the system; the macro expands to nothing unless the
build option `RTEMS_DEBUG` is set, so the option is a parameter. -/
def _Assert (RTEMS_DEBUG : Bool) (e : Bool) : Except Fault Unit :=
  if RTEMS_DEBUG && !e then .error Fault.assertion_failed else .ok ()

/-- Appends one effect to the trace. -/
def State.emit (s : State Thread Cpu) (e : Event Thread Cpu) :
    State Thread Cpu :=
  { s with trace := s.trace ++ [e] }

/-- The store `_Thread_Set_CPU( thread, cpu )`. -/
def _Thread_Set_CPU (s : State Thread Cpu) (thread : Thread) (cpu : Cpu) :
    State Thread Cpu :=
  { s with
    cpu := Function.update s.cpu thread cpu
    trace := s.trace ++ [Event.thread_set_cpu thread cpu] }

/-- The store `node->state = new_state` of `_Scheduler_SMP_Node_change_state`. -/
def Node_state_changed (s : State Thread Cpu) (node : Thread)
    (new_state : Scheduler_SMP_Node_state) : State Thread Cpu :=
  { s with
    state := Function.update s.state node new_state
    trace := s.trace ++ [Event.node_change_state node (s.state node) new_state] }

/-- Checks the transition against the table, then stores the new state. -/
def _Scheduler_SMP_Node_change_state (RTEMS_DEBUG : Bool)
    (s : State Thread Cpu) (node : Thread)
    (new_state : Scheduler_SMP_Node_state) : Except Fault (State Thread Cpu) := do
  _Assert RTEMS_DEBUG
    (_Scheduler_SMP_Node_valid_state_changes (s.state node) new_state)
  pure (Node_state_changed s node new_state)

/-- Whether the processor belongs to this scheduler instance. -/
def _Scheduler_SMP_Is_processor_owned_by_us (s : State Thread Cpu) (cpu : Cpu) :
    Bool :=
  (s.per_cpu cpu).scheduler_context == s.Base

/-- Stores the heir, fences, then sets the dispatch necessary indicator and
sends the inter-processor interrupt if the indicator was not set. -/
def _Scheduler_SMP_Update_heir (s : State Thread Cpu)
    (cpu_self cpu_for_heir : Cpu) (heir : Thread) : State Thread Cpu :=
  let s1 : State Thread Cpu :=
    { s with
      per_cpu := Function.update s.per_cpu cpu_for_heir
        { s.per_cpu cpu_for_heir with heir := heir }
      trace := s.trace ++ [Event.store_heir cpu_for_heir heir] }
  let s2 : State Thread Cpu :=
    { s1 with trace := s1.trace ++ [Event.atomic_fence] }
  if !(s2.per_cpu cpu_for_heir).dispatch_necessary then
    let s3 : State Thread Cpu :=
      { s2 with
        per_cpu := Function.update s2.per_cpu cpu_for_heir
          { s2.per_cpu cpu_for_heir with dispatch_necessary := true }
        trace := s2.trace ++ [Event.store_dispatch_necessary cpu_for_heir] }
    if cpu_for_heir != cpu_self then
      { s3 with trace := s3.trace ++ [Event.send_interrupt cpu_for_heir] }
    else
      s3
  else
    s2

/-- The last statement of `_Scheduler_SMP_Allocate_processor`: the thread
`heir` that has to move takes over the processor of the victim. -/
def Allocate_processor_victim (s : State Thread Cpu) (cpu_self cpu_of_victim : Cpu)
    (heir victim : Thread) : State Thread Cpu :=
  if heir != victim then
    _Scheduler_SMP_Update_heir (_Thread_Set_CPU s heir cpu_of_victim)
      cpu_self cpu_of_victim heir
  else
    s

/-- Gives `scheduled` a processor at the expense of `victim`. -/
def _Scheduler_SMP_Allocate_processor (RTEMS_DEBUG : Bool)
    (s : State Thread Cpu) (scheduled victim : Thread) :
    Except Fault (State Thread Cpu) := do
  let cpu_of_scheduled := s.cpu scheduled
  let cpu_of_victim := s.cpu victim
  let cpu_self := s.cpu_self
  let s1 ← _Scheduler_SMP_Node_change_state RTEMS_DEBUG s scheduled
    SCHEDULER_SMP_NODE_SCHEDULED
  _Assert RTEMS_DEBUG (s1.isr_level != 0)
  if s1.is_executing scheduled then
    if _Scheduler_SMP_Is_processor_owned_by_us s1 cpu_of_scheduled then
      let heir := (s1.per_cpu cpu_of_scheduled).heir
      let s2 := _Scheduler_SMP_Update_heir s1 cpu_self cpu_of_scheduled scheduled
      pure (Allocate_processor_victim s2 cpu_self cpu_of_victim heir victim)
    else do
      _Assert RTEMS_DEBUG
        ((s1.per_cpu (s1.debug_real_cpu scheduled)).heir != scheduled)
      pure (Allocate_processor_victim s1 cpu_self cpu_of_victim scheduled victim)
  else
    pure (Allocate_processor_victim s1 cpu_self cpu_of_victim scheduled victim)

/-- The state `_Scheduler_SMP_Allocate_processor` returns with when no
assertion stops it. -/
def Allocate_processor_state (s : State Thread Cpu) (scheduled victim : Thread) :
    State Thread Cpu :=
  let s1 := Node_state_changed s scheduled SCHEDULER_SMP_NODE_SCHEDULED
  if s.is_executing scheduled = true ∧
      _Scheduler_SMP_Is_processor_owned_by_us s (s.cpu scheduled) = true then
    Allocate_processor_victim
      (_Scheduler_SMP_Update_heir s1 s.cpu_self (s.cpu scheduled) scheduled)
      s.cpu_self (s.cpu victim) (s.per_cpu (s.cpu scheduled)).heir victim
  else
    Allocate_processor_victim s1 s.cpu_self (s.cpu victim) scheduled victim

/-- The record a processor carries once it was handed the heir `h`. -/
def Heir_record (s : State Thread Cpu) (c : Cpu) (h : Thread) :
    Per_CPU_Control Thread :=
  { heir := h, dispatch_necessary := true,
    scheduler_context := (s.per_cpu c).scheduler_context }

/-- The state `m` with the two sets replaced and further effects recorded:
what the function pointers of a concrete scheduler that obeys the ready-set
contract make of `m`. -/
def With_sets (m : State Thread Cpu) (S R : List Thread)
    (es : List (Event Thread Cpu)) : State Thread Cpu :=
  { m with Scheduled := S, Ready := R, trace := m.trace ++ es }

/-- The last node of the scheduled chain, `NULL` if the chain is empty. -/
def _Scheduler_SMP_Get_lowest_scheduled (s : State Thread Cpu) : Option Thread :=
  s.Scheduled.getLast?

/-- Enqueues a thread according to the order function.  The two conditions
`highest_ready != NULL && !order( thread, highest_ready )` and
`lowest_scheduled != NULL && order( thread, lowest_scheduled )` are the
`Option.filter` of the pointer by the order test. -/
def _Scheduler_SMP_Enqueue_ordered (RTEMS_DEBUG : Bool) (P : Plugins Thread Cpu)
    (s : State Thread Cpu) (thread : Thread) : Except Fault (State Thread Cpu) :=
  if s.state thread = SCHEDULER_SMP_NODE_IN_THE_AIR then
    let highest_ready := P.get_highest_ready s
    let s0 := s.emit Event.call_get_highest_ready
    match highest_ready.filter (fun h => !P.order thread h) with
    | some highest_ready => do
      let s1 ← _Scheduler_SMP_Node_change_state RTEMS_DEBUG s0 thread
        SCHEDULER_SMP_NODE_READY
      let s2 ← _Scheduler_SMP_Allocate_processor RTEMS_DEBUG s1 highest_ready
        thread
      let s3 := P.insert_ready (s2.emit (Event.call_insert_ready thread)) thread
      pure (P.move_from_ready_to_scheduled
        (s3.emit (Event.call_move_from_ready_to_scheduled highest_ready))
        highest_ready)
    | none => do
      let s1 ← _Scheduler_SMP_Node_change_state RTEMS_DEBUG s0 thread
        SCHEDULER_SMP_NODE_SCHEDULED
      pure (P.insert_scheduled (s1.emit (Event.call_insert_scheduled thread))
        thread)
  else
    let lowest_scheduled := _Scheduler_SMP_Get_lowest_scheduled s
    match lowest_scheduled.filter (fun l => P.order thread l) with
    | some lowest_scheduled => do
      let s1 ← _Scheduler_SMP_Node_change_state RTEMS_DEBUG s lowest_scheduled
        SCHEDULER_SMP_NODE_READY
      let s2 ← _Scheduler_SMP_Allocate_processor RTEMS_DEBUG s1 thread
        lowest_scheduled
      let s3 :=
        P.insert_scheduled (s2.emit (Event.call_insert_scheduled thread)) thread
      pure (P.move_from_scheduled_to_ready
        (s3.emit (Event.call_move_from_scheduled_to_ready lowest_scheduled))
        lowest_scheduled)
    | none => do
      let s1 ← _Scheduler_SMP_Node_change_state RTEMS_DEBUG s thread
        SCHEDULER_SMP_NODE_READY
      pure (P.insert_ready (s1.emit (Event.call_insert_ready thread)) thread)

/-- Gives the processor of the victim to the highest ready thread.  The result
of `get_highest_ready` is handed on as it is; the first statement of
`_Scheduler_SMP_Allocate_processor` reads through it. -/
def _Scheduler_SMP_Schedule_highest_ready (RTEMS_DEBUG : Bool)
    (P : Plugins Thread Cpu) (s : State Thread Cpu) (victim : Thread) :
    Except Fault (State Thread Cpu) :=
  let highest_ready := P.get_highest_ready s
  let s0 := s.emit Event.call_get_highest_ready
  match highest_ready with
  | none => .error Fault.null_dereference
  | some highest_ready => do
    let s1 ← _Scheduler_SMP_Allocate_processor RTEMS_DEBUG s0 highest_ready
      victim
    pure (P.move_from_ready_to_scheduled
      (s1.emit (Event.call_move_from_ready_to_scheduled highest_ready))
      highest_ready)

/-- Finalizes a scheduling operation. -/
def _Scheduler_SMP_Schedule (RTEMS_DEBUG : Bool) (P : Plugins Thread Cpu)
    (s : State Thread Cpu) (thread : Thread) : Except Fault (State Thread Cpu) :=
  if s.state thread = SCHEDULER_SMP_NODE_IN_THE_AIR then do
    let s1 ← _Scheduler_SMP_Node_change_state RTEMS_DEBUG s thread
      SCHEDULER_SMP_NODE_BLOCKED
    _Scheduler_SMP_Schedule_highest_ready RTEMS_DEBUG P s1 thread
  else
    pure s

/-- Extracts a thread from the set of scheduled or ready nodes. -/
def _Scheduler_SMP_Extract (P : Plugins Thread Cpu) (s : State Thread Cpu)
    (thread : Thread) : State Thread Cpu :=
  P.extract (s.emit (Event.call_extract thread)) thread

/-- Extracts the thread, then finalizes the scheduling operation. -/
def _Scheduler_SMP_Block (RTEMS_DEBUG : Bool) (P : Plugins Thread Cpu)
    (s : State Thread Cpu) (thread : Thread) : Except Fault (State Thread Cpu) :=
  let s1 := P.extract (s.emit (Event.call_extract thread)) thread
  _Scheduler_SMP_Schedule RTEMS_DEBUG P s1 thread

/-- Modelled from the spec: `_Chain_Insert_ordered_unprotected` comes from
`rtems/score/chainimpl.h`, which is not part of the sources.  The node is put
in front of the first node it is ordered before, at the end if there is none
(section 4.4: insertion in priority order). -/
def _Chain_Insert_ordered_unprotected (order : Thread → Thread → Bool)
    (to_insert : Thread) : List Thread → List Thread
  | [] => [to_insert]
  | next :: rest =>
    if order to_insert next then to_insert :: next :: rest
    else next :: _Chain_Insert_ordered_unprotected order to_insert rest

/-- Modelled from the spec: the order functions come from
`rtems/score/schedulersimpleimpl.h`, which is not part of the sources.  The
LIFO order places a thread before the threads of equal priority. -/
def _Scheduler_simple_Insert_priority_lifo_order (priority : Thread → Nat)
    (to_insert next : Thread) : Bool :=
  decide (priority to_insert ≤ priority next)

/-- Modelled from the spec: the FIFO order is the strict priority order, a
lower number being a higher priority (`rtems/score/schedulersimpleimpl.h` is
not part of the sources). -/
def _Scheduler_simple_Insert_priority_fifo_order (priority : Thread → Nat)
    (to_insert next : Thread) : Bool :=
  decide (priority to_insert < priority next)

/-- Inserts the thread into the scheduled chain in LIFO order. -/
def _Scheduler_SMP_Insert_scheduled_lifo (priority : Thread → Nat)
    (s : State Thread Cpu) (thread : Thread) : State Thread Cpu :=
  { s with
    Scheduled := _Chain_Insert_ordered_unprotected
      (_Scheduler_simple_Insert_priority_lifo_order priority) thread s.Scheduled }

/-- Inserts the thread into the scheduled chain in FIFO order. -/
def _Scheduler_SMP_Insert_scheduled_fifo (priority : Thread → Nat)
    (s : State Thread Cpu) (thread : Thread) : State Thread Cpu :=
  { s with
    Scheduled := _Chain_Insert_ordered_unprotected
      (_Scheduler_simple_Insert_priority_fifo_order priority) thread s.Scheduled }

/-- Starts an idle thread on its processor. -/
def _Scheduler_SMP_Start_idle (s : State Thread Cpu) (thread : Thread)
    (cpu : Cpu) : State Thread Cpu :=
  let s1 : State Thread Cpu :=
    { s with
      state := Function.update s.state thread SCHEDULER_SMP_NODE_SCHEDULED
      trace := s.trace ++
        [Event.node_store_state thread SCHEDULER_SMP_NODE_SCHEDULED] }
  let s2 := _Thread_Set_CPU s1 thread cpu
  { s2 with
    Scheduled := s2.Scheduled ++ [thread]
    trace := s2.trace ++ [Event.chain_append_scheduled thread] }

/-! ## The ready-set contract and a concrete scheduler -/

/-- Modelled from the spec: the node state an `extract` of the concrete
scheduler leaves behind (section 4.3): SCHEDULED becomes IN_THE_AIR and READY
becomes BLOCKED; the section names no other transition, so a node in another
state keeps it. -/
def Extract_state : Scheduler_SMP_Node_state → Scheduler_SMP_Node_state
  | SCHEDULER_SMP_NODE_SCHEDULED => SCHEDULER_SMP_NODE_IN_THE_AIR
  | SCHEDULER_SMP_NODE_READY => SCHEDULER_SMP_NODE_BLOCKED
  | st => st

/-- The state `s` with the node state an `extract` leaves for `thread`. -/
def Extracted (s : State Thread Cpu) (thread : Thread) : State Thread Cpu :=
  { s with state := Function.update s.state thread (Extract_state (s.state thread)) }

/-- Modelled from the spec: the ready-set contract of section 4.4 and the
`extract` contract of section 4.3, for the function pointers of a concrete
scheduler, none of which is part of the sources.  An insertion adds the thread
to its set, a move takes it out of one set and adds it to the other, `extract`
takes it out of both sets and leaves the node state of section 4.3;
`get_highest_ready` looks at the ready set only and returns one of its
members, `NULL` exactly for the empty set.  Nothing else is touched. -/
structure Ready_set_contract (P : Plugins Thread Cpu) : Prop where
  get_highest_ready_congr : ∀ s s2 : State Thread Cpu, s.Ready = s2.Ready →
    P.get_highest_ready s = P.get_highest_ready s2
  get_highest_ready_none : ∀ s : State Thread Cpu,
    P.get_highest_ready s = none ↔ s.Ready = []
  get_highest_ready_mem : ∀ (s : State Thread Cpu) (h : Thread),
    P.get_highest_ready s = some h → h ∈ s.Ready
  insert_ready : ∀ (s : State Thread Cpu) (t : Thread),
    ∃ R : List Thread, R.Perm (t :: s.Ready) ∧
      P.insert_ready s t = { s with Ready := R }
  insert_scheduled : ∀ (s : State Thread Cpu) (t : Thread),
    ∃ S : List Thread, S.Perm (t :: s.Scheduled) ∧
      P.insert_scheduled s t = { s with Scheduled := S }
  move_from_ready_to_scheduled : ∀ (s : State Thread Cpu) (t : Thread),
    ∃ S R : List Thread, S.Perm (t :: s.Scheduled) ∧ R.Perm (s.Ready.erase t) ∧
      P.move_from_ready_to_scheduled s t = { s with Scheduled := S, Ready := R }
  move_from_scheduled_to_ready : ∀ (s : State Thread Cpu) (t : Thread),
    ∃ S R : List Thread, S.Perm (s.Scheduled.erase t) ∧ R.Perm (t :: s.Ready) ∧
      P.move_from_scheduled_to_ready s t = { s with Scheduled := S, Ready := R }
  extract : ∀ (s : State Thread Cpu) (t : Thread),
    ∃ S R : List Thread, S.Perm (s.Scheduled.erase t) ∧ R.Perm (s.Ready.erase t) ∧
      P.extract s t =
        { s with
          state := Function.update s.state t (Extract_state (s.state t))
          Scheduled := S
          Ready := R }

/-- What the claims assume of the order function and of `get_highest_ready`
with respect to a priority map: the order function is a priority comparator and
`get_highest_ready` returns a ready thread of numerically smallest priority. -/
structure Priority_plugins (priority : Thread → Nat) (P : Plugins Thread Cpu) :
    Prop where
  order_of_lt : ∀ a b, priority a < priority b → P.order a b = true
  le_of_order : ∀ a b, P.order a b = true → priority a ≤ priority b
  highest : ∀ (s : State Thread Cpu) (H : Thread), P.get_highest_ready s = some H →
    ∀ y ∈ s.Ready, priority H ≤ priority y

/-- Modelled from the spec: the highest ready thread of section 4.4, the
first thread of the ready set among those of the numerically smallest
priority, `NULL` for the empty set. -/
def Highest_ready (priority : Thread → Nat) : List Thread → Option Thread
  | [] => none
  | t :: rest =>
    match Highest_ready priority rest with
    | none => some t
    | some b => if priority b < priority t then some b else some t

/-- Modelled from the spec: a concrete scheduler for the function pointers
of section 4.4, over a priority map.  The ready set is a plain list searched
for its highest thread; the scheduled chain is kept in FIFO priority order by
`_Scheduler_SMP_Insert_scheduled_fifo`. -/
def Simple_plugins (priority : Thread → Nat) : Plugins Thread Cpu where
  order := _Scheduler_simple_Insert_priority_fifo_order priority
  get_highest_ready := fun s => Highest_ready priority s.Ready
  extract := fun s t =>
    { s with
      state := Function.update s.state t (Extract_state (s.state t))
      Scheduled := s.Scheduled.erase t
      Ready := s.Ready.erase t }
  insert_ready := fun s t => { s with Ready := t :: s.Ready }
  insert_scheduled := _Scheduler_SMP_Insert_scheduled_fifo priority
  move_from_ready_to_scheduled := fun s t =>
    _Scheduler_SMP_Insert_scheduled_fifo priority
      { s with Ready := s.Ready.erase t } t
  move_from_scheduled_to_ready := fun s t =>
    { s with Scheduled := s.Scheduled.erase t, Ready := t :: s.Ready }

/-! ## The invariants of section 3 -/

/-- Placement invariant I2 / P2: the state of every node matches its set
membership, and no thread is in a set twice. -/
def Placement_invariant (s : State Thread Cpu) : Prop :=
  s.Scheduled.Nodup ∧ s.Ready.Nodup ∧ ∀ t : Thread,
    (s.state t = SCHEDULER_SMP_NODE_SCHEDULED ↔
      t ∈ s.Scheduled ∧ t ∉ s.Ready) ∧
    (s.state t = SCHEDULER_SMP_NODE_READY ↔ t ∈ s.Ready ∧ t ∉ s.Scheduled) ∧
    (s.state t = SCHEDULER_SMP_NODE_BLOCKED → t ∉ s.Scheduled ∧ t ∉ s.Ready) ∧
    (s.state t = SCHEDULER_SMP_NODE_IN_THE_AIR →
      t ∉ s.Scheduled ∧ t ∉ s.Ready)

/-- Heir invariant I3: the heir of every processor of the instance is a thread
whose node is SCHEDULED. -/
def Heir_invariant (s : State Thread Cpu) : Prop :=
  ∀ p : Cpu, _Scheduler_SMP_Is_processor_owned_by_us s p = true →
    s.state (s.per_cpu p).heir = SCHEDULER_SMP_NODE_SCHEDULED

/-- Heir distinctness I4: no two processors of the instance name the same
heir. -/
def Heir_distinct (s : State Thread Cpu) : Prop :=
  ∀ p q : Cpu, _Scheduler_SMP_Is_processor_owned_by_us s p = true →
    _Scheduler_SMP_Is_processor_owned_by_us s q = true →
    (s.per_cpu p).heir = (s.per_cpu q).heir → p = q

/-- The current-CPU field of every heir names the processor whose heir it
is. -/
def Heir_cpu (s : State Thread Cpu) : Prop :=
  ∀ p : Cpu, _Scheduler_SMP_Is_processor_owned_by_us s p = true →
    s.cpu (s.per_cpu p).heir = p

/-- The heir of every processor of the instance holds a processor slot: its
node is SCHEDULED or, between an extract and the enqueue or schedule that
follows it, IN_THE_AIR. -/
def Heir_seated (s : State Thread Cpu) : Prop :=
  ∀ p : Cpu, _Scheduler_SMP_Is_processor_owned_by_us s p = true →
    s.state (s.per_cpu p).heir = SCHEDULER_SMP_NODE_SCHEDULED ∨
    s.state (s.per_cpu p).heir = SCHEDULER_SMP_NODE_IN_THE_AIR

/-- Scheduler invariant I5: no thread of the ready set has a numerically
smaller priority than a thread of the scheduled set. -/
def Scheduler_invariant (priority : Thread → Nat) (s : State Thread Cpu) :
    Prop :=
  ∀ x ∈ s.Scheduled, ∀ y ∈ s.Ready, priority x ≤ priority y

/-- The conditions the assertions of `_Scheduler_SMP_Allocate_processor` test
in a build with `RTEMS_DEBUG`, for the thread that gets the processor:
interrupts are disabled, and a thread executing on a processor of
another instance is not the heir of its real processor. -/
def Allocate_assertions (RTEMS_DEBUG : Bool) (s : State Thread Cpu)
    (scheduled : Thread) : Prop :=
  RTEMS_DEBUG = true →
    s.isr_level ≠ 0 ∧
    (s.is_executing scheduled = true →
      _Scheduler_SMP_Is_processor_owned_by_us s (s.cpu scheduled) = false →
      (s.per_cpu (s.debug_real_cpu scheduled)).heir ≠ scheduled)

/-! ## The effects of the operations -/

/-- The effects of one `_Scheduler_SMP_Update_heir`, in program order, given
the dispatch necessary indicator of the processor at the call. -/
def Update_heir_events (dispatch_necessary : Bool) (cpu_self cpu_for_heir : Cpu)
    (heir : Thread) : List (Event Thread Cpu) :=
  [Event.store_heir cpu_for_heir heir, Event.atomic_fence] ++
    (if dispatch_necessary then []
     else Event.store_dispatch_necessary cpu_for_heir ::
       (if cpu_for_heir = cpu_self then [] else [Event.send_interrupt cpu_for_heir]))

/-- The effects of one `_Scheduler_SMP_Allocate_processor` that returns, in
program order. -/
def Allocate_events (m : State Thread Cpu) (scheduled victim : Thread) :
    List (Event Thread Cpu) :=
  Event.node_change_state scheduled (m.state scheduled) SCHEDULER_SMP_NODE_SCHEDULED ::
    (if m.is_executing scheduled = true ∧
        _Scheduler_SMP_Is_processor_owned_by_us m (m.cpu scheduled) = true then
      Update_heir_events (m.per_cpu (m.cpu scheduled)).dispatch_necessary m.cpu_self
          (m.cpu scheduled) scheduled ++
        (if (m.per_cpu (m.cpu scheduled)).heir = victim then []
         else Event.thread_set_cpu (m.per_cpu (m.cpu scheduled)).heir (m.cpu victim) ::
           Update_heir_events
             (if m.cpu victim = m.cpu scheduled then true
              else (m.per_cpu (m.cpu victim)).dispatch_necessary)
             m.cpu_self (m.cpu victim) (m.per_cpu (m.cpu scheduled)).heir)
    else if scheduled = victim then []
    else Event.thread_set_cpu scheduled (m.cpu victim) ::
      Update_heir_events (m.per_cpu (m.cpu victim)).dispatch_necessary m.cpu_self
        (m.cpu victim) scheduled)

/-- The effects of one `_Scheduler_SMP_Enqueue_ordered` that returns, in
program order. -/
def Enqueue_events (P : Plugins Thread Cpu) (s : State Thread Cpu) (t : Thread) :
    List (Event Thread Cpu) :=
  if s.state t = SCHEDULER_SMP_NODE_IN_THE_AIR then
    match (P.get_highest_ready s).filter (fun h => !P.order t h) with
    | some H =>
      [Event.call_get_highest_ready,
        Event.node_change_state t (s.state t) SCHEDULER_SMP_NODE_READY] ++
      Allocate_events
        (Node_state_changed (s.emit Event.call_get_highest_ready) t
          SCHEDULER_SMP_NODE_READY) H t ++
      [Event.call_insert_ready t, Event.call_move_from_ready_to_scheduled H]
    | none =>
      [Event.call_get_highest_ready,
        Event.node_change_state t (s.state t) SCHEDULER_SMP_NODE_SCHEDULED,
        Event.call_insert_scheduled t]
  else
    match (_Scheduler_SMP_Get_lowest_scheduled s).filter (fun l => P.order t l) with
    | some L =>
      [Event.node_change_state L (s.state L) SCHEDULER_SMP_NODE_READY] ++
      Allocate_events (Node_state_changed s L SCHEDULER_SMP_NODE_READY) t L ++
      [Event.call_insert_scheduled t, Event.call_move_from_scheduled_to_ready L]
    | none =>
      [Event.node_change_state t (s.state t) SCHEDULER_SMP_NODE_READY,
        Event.call_insert_ready t]

/-- The effects of one `_Scheduler_SMP_Schedule` that returns, in program
order. -/
def Schedule_events (P : Plugins Thread Cpu) (s : State Thread Cpu) (t : Thread) :
    List (Event Thread Cpu) :=
  if s.state t = SCHEDULER_SMP_NODE_IN_THE_AIR then
    match P.get_highest_ready (Node_state_changed s t SCHEDULER_SMP_NODE_BLOCKED) with
    | some H =>
      [Event.node_change_state t (s.state t) SCHEDULER_SMP_NODE_BLOCKED,
        Event.call_get_highest_ready] ++
      Allocate_events
        ((Node_state_changed s t SCHEDULER_SMP_NODE_BLOCKED).emit
          Event.call_get_highest_ready) H t ++
      [Event.call_move_from_ready_to_scheduled H]
    | none => []
  else []

/-- The processors that are sent an inter-processor interrupt by a sequence
of effects, in order. -/
def Interrupts : List (Event Thread Cpu) → List Cpu
  | [] => []
  | Event.send_interrupt p :: es => p :: Interrupts es
  | _ :: es => Interrupts es

/-- In a sequence of effects the heir is written before the dispatch flag:
every store to a dispatch necessary indicator comes right after the store to
the heir of the same processor and the fence, and every inter-processor
interrupt comes right after the store to the indicator of its processor. -/
def Heir_before_dispatch (es : List (Event Thread Cpu)) : Prop :=
  (∀ pre post p, es = pre ++ Event.store_dispatch_necessary p :: post →
    ∃ pre2 h, pre = pre2 ++ [Event.store_heir p h, Event.atomic_fence]) ∧
  (∀ pre post p, es = pre ++ Event.send_interrupt p :: post →
    ∃ pre2, pre = pre2 ++ [Event.store_dispatch_necessary p])

/-- The bound on the inter-processor interrupts of a sequence of effects
that starts in state `s`: no processor is interrupted twice, at most two
processors are interrupted, the calling processor is not, and a processor whose
dispatch necessary indicator was set in `s` is not. -/
def Interrupt_bound (s : State Thread Cpu) (es : List (Event Thread Cpu)) : Prop :=
  (Interrupts es).Nodup ∧ (Interrupts es).length ≤ 2 ∧
  s.cpu_self ∉ Interrupts es ∧
  ∀ p ∈ Interrupts es, (s.per_cpu p).dispatch_necessary = false

/-- The node states after the logged node-state changes of a sequence of
effects were made, in order, starting from the node states `st`; `none` if a
logged change does not start from the state the node is in. -/
def Replay_changes :
    List (Event Thread Cpu) → (Thread → Scheduler_SMP_Node_state) →
      Option (Thread → Scheduler_SMP_Node_state)
  | [], st => some st
  | Event.node_change_state x o n :: es, st =>
    if st x = o then Replay_changes es (Function.update st x n) else none
  | _ :: es, st => Replay_changes es st

/-- The effects `es` change the node states from `st` to `st2` through the
guarded primitive only: none of them is a direct store to a node state, the
logged node-state changes, made in order, turn `st` into `st2`, and in a
build with `RTEMS_DEBUG` each of them is in the table of permitted
transitions. -/
def Guarded_changes (RTEMS_DEBUG : Bool)
    (st st2 : Thread → Scheduler_SMP_Node_state) (es : List (Event Thread Cpu)) :
    Prop :=
  (∀ x n, Event.node_store_state x n ∉ es) ∧
  Replay_changes es st = some st2 ∧
  (RTEMS_DEBUG = true → ∀ x o n, Event.node_change_state x o n ∈ es →
    _Scheduler_SMP_Node_valid_state_changes o n = true)

/-- The number of nodes in the state IN_THE_AIR. -/
def In_the_air_count [Fintype Thread] (s : State Thread Cpu) : Nat :=
  (Finset.univ.filter
    (fun x => s.state x = SCHEDULER_SMP_NODE_IN_THE_AIR)).card

/-- The processor slots in use: the length of the scheduled chain plus the
number of nodes in the state IN_THE_AIR. -/
def Slots [Fintype Thread] (s : State Thread Cpu) : Nat :=
  s.Scheduled.length + In_the_air_count s

/-- The calls of `_Scheduler_SMP_Start_idle` for a list of idle threads and
their processors, in order. -/
def Start_idles (s : State Thread Cpu) : List (Thread × Cpu) → State Thread Cpu
  | [] => s
  | (thread, cpu) :: rest => Start_idles (_Scheduler_SMP_Start_idle s thread cpu) rest

/-- The states reachable from `s0` by operations that return: the enqueue of
a thread whose node is BLOCKED or IN_THE_AIR, extract, schedule and block. -/
inductive Reachable (RTEMS_DEBUG : Bool) (P : Plugins Thread Cpu)
    (s0 : State Thread Cpu) : State Thread Cpu → Prop
  | start : Reachable RTEMS_DEBUG P s0 s0
  | enqueue (s s2 : State Thread Cpu) (t : Thread) :
    Reachable RTEMS_DEBUG P s0 s →
    (s.state t = SCHEDULER_SMP_NODE_BLOCKED ∨
      s.state t = SCHEDULER_SMP_NODE_IN_THE_AIR) →
    _Scheduler_SMP_Enqueue_ordered RTEMS_DEBUG P s t = .ok s2 →
    Reachable RTEMS_DEBUG P s0 s2
  | extract (s : State Thread Cpu) (t : Thread) :
    Reachable RTEMS_DEBUG P s0 s →
    Reachable RTEMS_DEBUG P s0 (_Scheduler_SMP_Extract P s t)
  | schedule (s s2 : State Thread Cpu) (t : Thread) :
    Reachable RTEMS_DEBUG P s0 s →
    _Scheduler_SMP_Schedule RTEMS_DEBUG P s t = .ok s2 →
    Reachable RTEMS_DEBUG P s0 s2
  | block (s s2 : State Thread Cpu) (t : Thread) :
    Reachable RTEMS_DEBUG P s0 s →
    _Scheduler_SMP_Block RTEMS_DEBUG P s t = .ok s2 →
    Reachable RTEMS_DEBUG P s0 s2

/-- The heir invariant I3 during an operation on the thread `t`: the heir of
every processor of the instance is a thread whose node is SCHEDULED, except
that `t` itself may be an heir whose node is IN_THE_AIR, which is what an
extract of `t` leaves behind.  The heir invariant implies it for every `t`. -/
def Heir_invariant_during (s : State Thread Cpu) (t : Thread) : Prop :=
  ∀ p : Cpu, _Scheduler_SMP_Is_processor_owned_by_us s p = true →
    s.state (s.per_cpu p).heir = SCHEDULER_SMP_NODE_SCHEDULED ∨
    ((s.per_cpu p).heir = t ∧ s.state t = SCHEDULER_SMP_NODE_IN_THE_AIR)

end Core

/-! ## A system of two processors -/

/-- The priorities of the example of the header documentation: threads
`0`, `1`, `2` are A, B, C with priorities 1, 2, 3, threads `3` and `4` are the
idle threads I and J with priority 5; threads `5` and `6` are two further
threads D and E of priorities 0 and 4. -/
def Example_priority : Fin 7 → Nat
  | 0 => 1
  | 1 => 2
  | 2 => 3
  | 3 => 5
  | 4 => 5
  | 5 => 0
  | 6 => 4

/-- The example after A, C and B were enqueued: A and B are scheduled and the
heirs of the processors 0 and 1, C and the idle threads are ready, D and E are
blocked.  The idle threads are still executing. -/
def Example_state : State (Fin 7) (Fin 2) where
  state := fun t =>
    if t = 0 ∨ t = 1 then SCHEDULER_SMP_NODE_SCHEDULED
    else if t = 5 ∨ t = 6 then SCHEDULER_SMP_NODE_BLOCKED
    else SCHEDULER_SMP_NODE_READY
  cpu := fun t => if t = 0 ∨ t = 3 then 0 else 1
  is_executing := fun t => decide (t = 3 ∨ t = 4)
  debug_real_cpu := fun t => if t = 0 ∨ t = 3 then 0 else 1
  per_cpu := fun p =>
    { heir := if p = 0 then 0 else 1, dispatch_necessary := false,
      scheduler_context := 0 }
  Scheduled := [0, 1]
  Ready := [2, 3, 4]
  Base := 0
  cpu_self := 0
  isr_level := 1
  trace := []

/-- The priorities of the example after the priority of A was changed to 4. -/
def Example_priority_lowered : Fin 7 → Nat :=
  fun t => if t = 0 then 4 else Example_priority t

/-- The example after `_Scheduler_SMP_Extract` of A: A is in the air and
still the heir of processor 0. -/
def Example_state_in_the_air : State (Fin 7) (Fin 2) :=
  _Scheduler_SMP_Extract (Simple_plugins Example_priority) Example_state 0

/-- A state with an empty ready set: B is scheduled, A is in the air, every
other thread is blocked. -/
def Example_state_no_ready : State (Fin 7) (Fin 2) :=
  { Example_state with
    state := fun t =>
      if t = 0 then SCHEDULER_SMP_NODE_IN_THE_AIR
      else if t = 1 then SCHEDULER_SMP_NODE_SCHEDULED
      else SCHEDULER_SMP_NODE_BLOCKED
    Scheduled := [1]
    Ready := [] }

/-- The example with current-CPU fields that do not match the heirs: the
field of every thread names processor 0, also that of B, the heir of
processor 1. -/
def Example_state_cpu_mismatch : State (Fin 7) (Fin 2) :=
  { Example_state with cpu := fun _ => 0 }

/-- The example after the idle threads were started and A was enqueued: A
and the idle thread I are scheduled, I being the heir of processor 0 and A of
processor 1; the idle thread J, of the priority of I, is ready. -/
def Example_state_tie : State (Fin 7) (Fin 2) where
  state := fun t =>
    if t = 0 ∨ t = 3 then SCHEDULER_SMP_NODE_SCHEDULED
    else if t = 4 then SCHEDULER_SMP_NODE_READY
    else SCHEDULER_SMP_NODE_BLOCKED
  cpu := fun t => if t = 3 then 0 else 1
  is_executing := fun _ => false
  debug_real_cpu := fun t => if t = 3 then 0 else 1
  per_cpu := fun p =>
    { heir := if p = 0 then 3 else 0, dispatch_necessary := false,
      scheduler_context := 0 }
  Scheduled := [0, 3]
  Ready := [4]
  Base := 0
  cpu_self := 0
  isr_level := 1
  trace := []

/-- The example before the idle threads are started: every node is BLOCKED,
both sets are empty, the idle threads I and J are the heirs of the processors 0
and 1 and execute there. -/
def Example_initial : State (Fin 7) (Fin 2) where
  state := fun _ => SCHEDULER_SMP_NODE_BLOCKED
  cpu := fun _ => 0
  is_executing := fun t => decide (t = 3 ∨ t = 4)
  debug_real_cpu := fun t => if t = 4 then 1 else 0
  per_cpu := fun p =>
    { heir := if p = 0 then 3 else 4, dispatch_necessary := false,
      scheduler_context := 0 }
  Scheduled := []
  Ready := []
  Base := 0
  cpu_self := 0
  isr_level := 1
  trace := []

/-- The example after `_Scheduler_SMP_Start_idle` of I on processor 0 and of
J on processor 1. -/
def Example_started : State (Fin 7) (Fin 2) :=
  _Scheduler_SMP_Start_idle (_Scheduler_SMP_Start_idle Example_initial 3 0) 4 1

/-- The example after the enqueue of A, of C and of B, in this order. -/
def Example_S3 (RTEMS_DEBUG : Bool) : Except Fault (State (Fin 7) (Fin 2)) := do
  let s1 ← _Scheduler_SMP_Enqueue_ordered RTEMS_DEBUG
    (Simple_plugins Example_priority) Example_started 0
  let s2 ← _Scheduler_SMP_Enqueue_ordered RTEMS_DEBUG
    (Simple_plugins Example_priority) s1 2
  _Scheduler_SMP_Enqueue_ordered RTEMS_DEBUG (Simple_plugins Example_priority) s2 1

/-- The example after the following extract of A. -/
def Example_S4 (RTEMS_DEBUG : Bool) : Except Fault (State (Fin 7) (Fin 2)) := do
  let s3 ← Example_S3 RTEMS_DEBUG
  pure (_Scheduler_SMP_Extract (Simple_plugins Example_priority) s3 0)

/-- The example after the priority of A was changed to 4 and A was enqueued. -/
def Example_S5 (RTEMS_DEBUG : Bool) : Except Fault (State (Fin 7) (Fin 2)) := do
  let s4 ← Example_S4 RTEMS_DEBUG
  _Scheduler_SMP_Enqueue_ordered RTEMS_DEBUG
    (Simple_plugins Example_priority_lowered) s4 0

/-- The example after the schedule of A that follows its extract. -/
def Example_S6 (RTEMS_DEBUG : Bool) : Except Fault (State (Fin 7) (Fin 2)) := do
  let s4 ← Example_S4 RTEMS_DEBUG
  _Scheduler_SMP_Schedule RTEMS_DEBUG (Simple_plugins Example_priority) s4 0

/-- The state `Example_state_tie` with the ready idle thread J executing on
processor 1, its current CPU. -/
def Example_state_tie_executing : State (Fin 7) (Fin 2) :=
  { Example_state_tie with is_executing := fun t => decide (t = 4) }

end SchedulerSMP

namespace SchedulerSMP

open Scheduler_SMP_Node_state

set_option linter.unusedSectionVars false

section Lemmas

variable {Thread Cpu : Type} [DecidableEq Thread] [DecidableEq Cpu]

/-! ## The primitives -/

@[simp] theorem Assert_false (e : Bool) : _Assert false e = .ok () := rfl

theorem Assert_true (e : Bool) :
    _Assert true e = if e then .ok () else .error Fault.assertion_failed := by
  cases e <;> rfl

@[simp] theorem change_state_false (s : State Thread Cpu) (t : Thread)
    (n : Scheduler_SMP_Node_state) :
    _Scheduler_SMP_Node_change_state false s t n = .ok (Node_state_changed s t n) :=
  rfl

theorem change_state_ok (dbg : Bool) (s : State Thread Cpu) (t : Thread)
    (n : Scheduler_SMP_Node_state)
    (h : dbg = true → _Scheduler_SMP_Node_valid_state_changes (s.state t) n = true) :
    _Scheduler_SMP_Node_change_state dbg s t n = .ok (Node_state_changed s t n) := by
  cases dbg
  · rfl
  · simp [_Scheduler_SMP_Node_change_state, Assert_true, h rfl]

theorem change_state_inv (dbg : Bool) (s s2 : State Thread Cpu) (t : Thread)
    (n : Scheduler_SMP_Node_state)
    (h : _Scheduler_SMP_Node_change_state dbg s t n = .ok s2) :
    s2 = Node_state_changed s t n ∧
      (dbg = true → _Scheduler_SMP_Node_valid_state_changes (s.state t) n = true) := by
  cases dbg
  · simp at h; simp [h]
  · by_cases hv : _Scheduler_SMP_Node_valid_state_changes (s.state t) n = true
    · rw [change_state_ok true s t n (fun _ => hv)] at h
      simp at h; simp [h, hv]
    · simp [_Scheduler_SMP_Node_change_state, Assert_true, hv] at h

/-- What `_Scheduler_SMP_Update_heir` leaves in the processor record. -/
theorem Update_heir_eq (s : State Thread Cpu) (cself c : Cpu) (h : Thread) :
    _Scheduler_SMP_Update_heir s cself c h =
      { s with
        per_cpu := Function.update s.per_cpu c
          { heir := h, dispatch_necessary := true,
            scheduler_context := (s.per_cpu c).scheduler_context }
        trace := (_Scheduler_SMP_Update_heir s cself c h).trace } := by
  unfold _Scheduler_SMP_Update_heir
  simp only [Function.update_same, Function.update_idem]
  split_ifs with h1 h2 <;> simp_all

theorem Update_heir_per_cpu (s : State Thread Cpu) (cself c : Cpu) (h : Thread) :
    (_Scheduler_SMP_Update_heir s cself c h).per_cpu =
      Function.update s.per_cpu c (Heir_record s c h) := by
  rw [Update_heir_eq]; rfl

theorem Update_heir_frame (s : State Thread Cpu) (cself c : Cpu) (h : Thread) :
    (_Scheduler_SMP_Update_heir s cself c h).state = s.state ∧
    (_Scheduler_SMP_Update_heir s cself c h).cpu = s.cpu ∧
    (_Scheduler_SMP_Update_heir s cself c h).is_executing = s.is_executing ∧
    (_Scheduler_SMP_Update_heir s cself c h).debug_real_cpu = s.debug_real_cpu ∧
    (_Scheduler_SMP_Update_heir s cself c h).Scheduled = s.Scheduled ∧
    (_Scheduler_SMP_Update_heir s cself c h).Ready = s.Ready ∧
    (_Scheduler_SMP_Update_heir s cself c h).Base = s.Base ∧
    (_Scheduler_SMP_Update_heir s cself c h).cpu_self = s.cpu_self ∧
    (_Scheduler_SMP_Update_heir s cself c h).isr_level = s.isr_level := by
  rw [Update_heir_eq]; simp

/-- The per-processor records after `_Scheduler_SMP_Allocate_processor`. -/
theorem Allocate_state_per_cpu (s : State Thread Cpu) (sch v : Thread) :
    (Allocate_processor_state s sch v).per_cpu =
      if s.is_executing sch = true ∧
          _Scheduler_SMP_Is_processor_owned_by_us s (s.cpu sch) = true then
        if (s.per_cpu (s.cpu sch)).heir = v then
          Function.update s.per_cpu (s.cpu sch) (Heir_record s (s.cpu sch) sch)
        else
          Function.update
            (Function.update s.per_cpu (s.cpu sch) (Heir_record s (s.cpu sch) sch))
            (s.cpu v)
            { heir := (s.per_cpu (s.cpu sch)).heir, dispatch_necessary := true,
              scheduler_context :=
                (Function.update s.per_cpu (s.cpu sch)
                  (Heir_record s (s.cpu sch) sch) (s.cpu v)).scheduler_context }
      else if sch = v then s.per_cpu
      else Function.update s.per_cpu (s.cpu v) (Heir_record s (s.cpu v) sch) := by
  unfold Allocate_processor_state Allocate_processor_victim
  split_ifs <;>
    simp_all [Update_heir_per_cpu, Node_state_changed, _Thread_Set_CPU, Heir_record]

/-- The current-CPU fields after `_Scheduler_SMP_Allocate_processor`. -/
theorem Allocate_state_cpu (s : State Thread Cpu) (sch v : Thread) :
    (Allocate_processor_state s sch v).cpu =
      if s.is_executing sch = true ∧
          _Scheduler_SMP_Is_processor_owned_by_us s (s.cpu sch) = true then
        if (s.per_cpu (s.cpu sch)).heir = v then s.cpu
        else Function.update s.cpu (s.per_cpu (s.cpu sch)).heir (s.cpu v)
      else if sch = v then s.cpu
      else Function.update s.cpu sch (s.cpu v) := by
  unfold Allocate_processor_state Allocate_processor_victim
  split_ifs <;>
    simp_all [Update_heir_frame, Node_state_changed, _Thread_Set_CPU]

/-- The fields `_Scheduler_SMP_Allocate_processor` changes besides the
processor records, the current-CPU fields and the trace: the node state of
`scheduled`. -/
theorem Allocate_state_frame (s : State Thread Cpu) (sch v : Thread) :
    (Allocate_processor_state s sch v).state =
      Function.update s.state sch SCHEDULER_SMP_NODE_SCHEDULED ∧
    (Allocate_processor_state s sch v).is_executing = s.is_executing ∧
    (Allocate_processor_state s sch v).debug_real_cpu = s.debug_real_cpu ∧
    (Allocate_processor_state s sch v).Scheduled = s.Scheduled ∧
    (Allocate_processor_state s sch v).Ready = s.Ready ∧
    (Allocate_processor_state s sch v).Base = s.Base ∧
    (Allocate_processor_state s sch v).cpu_self = s.cpu_self ∧
    (Allocate_processor_state s sch v).isr_level = s.isr_level := by
  unfold Allocate_processor_state Allocate_processor_victim
  split_ifs <;>
    simp [Update_heir_frame, Node_state_changed, _Thread_Set_CPU]

@[simp] theorem Allocate_false (s : State Thread Cpu) (sch v : Thread) :
    _Scheduler_SMP_Allocate_processor false s sch v =
      .ok (Allocate_processor_state s sch v) := by
  unfold _Scheduler_SMP_Allocate_processor Allocate_processor_state
  simp only [change_state_false, Assert_false, bind, Except.bind, pure, Except.pure]
  by_cases h1 : s.is_executing sch = true <;>
    by_cases h2 : _Scheduler_SMP_Is_processor_owned_by_us s (s.cpu sch) = true <;>
    simp [h1, h2, Node_state_changed, _Scheduler_SMP_Is_processor_owned_by_us] <;>
    simp_all [_Scheduler_SMP_Is_processor_owned_by_us]

theorem Allocate_true (s : State Thread Cpu) (sch v : Thread)
    (hv : _Scheduler_SMP_Node_valid_state_changes (s.state sch)
      SCHEDULER_SMP_NODE_SCHEDULED = true)
    (ha : Allocate_assertions true s sch) :
    _Scheduler_SMP_Allocate_processor true s sch v =
      .ok (Allocate_processor_state s sch v) := by
  obtain ⟨hi, hr⟩ := ha rfl
  rw [← Allocate_false]
  unfold _Scheduler_SMP_Allocate_processor
  rw [change_state_ok true s sch _ (fun _ => hv)]
  simp only [change_state_false, Assert_false, Assert_true, bind, Except.bind, pure,
    Except.pure]
  have hi2 : ((Node_state_changed s sch SCHEDULER_SMP_NODE_SCHEDULED).isr_level != 0)
      = true := by
    simpa [Node_state_changed] using hi
  rw [hi2]
  by_cases h1 : s.is_executing sch = true <;>
    by_cases h2 : _Scheduler_SMP_Is_processor_owned_by_us s (s.cpu sch) = true <;>
    simp [h1, h2, Node_state_changed, _Scheduler_SMP_Is_processor_owned_by_us] <;>
    simp_all [_Scheduler_SMP_Is_processor_owned_by_us]

/-- When `_Scheduler_SMP_Allocate_processor` returns. -/
theorem Allocate_ok (dbg : Bool) (s : State Thread Cpu) (sch v : Thread)
    (hv : dbg = true → _Scheduler_SMP_Node_valid_state_changes (s.state sch)
      SCHEDULER_SMP_NODE_SCHEDULED = true)
    (ha : Allocate_assertions dbg s sch) :
    _Scheduler_SMP_Allocate_processor dbg s sch v =
      .ok (Allocate_processor_state s sch v) := by
  cases dbg
  · simp
  · exact Allocate_true s sch v (hv rfl) ha

/-- Assertions only stop `_Scheduler_SMP_Allocate_processor`: a call that
returns in a build with `RTEMS_DEBUG` returns the same state without it. -/
theorem Allocate_debug (s s2 : State Thread Cpu) (sch v : Thread)
    (h : _Scheduler_SMP_Allocate_processor true s sch v = .ok s2) :
    _Scheduler_SMP_Allocate_processor false s sch v = .ok s2 ∧
      _Scheduler_SMP_Node_valid_state_changes (s.state sch)
        SCHEDULER_SMP_NODE_SCHEDULED = true ∧
      Allocate_assertions true s sch := by
  unfold Allocate_assertions
  unfold _Scheduler_SMP_Allocate_processor at h ⊢
  by_cases hv : _Scheduler_SMP_Node_valid_state_changes (s.state sch)
      SCHEDULER_SMP_NODE_SCHEDULED = true <;>
    by_cases hi : s.isr_level = 0 <;>
    by_cases h1 : s.is_executing sch = true <;>
    by_cases h2 : _Scheduler_SMP_Is_processor_owned_by_us s (s.cpu sch) = true <;>
    by_cases h3 : (s.per_cpu (s.debug_real_cpu sch)).heir = sch <;>
    simp_all [_Scheduler_SMP_Node_change_state, _Assert, bind, Except.bind, pure,
      Except.pure, Node_state_changed, _Scheduler_SMP_Is_processor_owned_by_us]

/-- The state `_Scheduler_SMP_Allocate_processor` returns with. -/
theorem Allocate_inv (dbg : Bool) (s s2 : State Thread Cpu) (sch v : Thread)
    (h : _Scheduler_SMP_Allocate_processor dbg s sch v = .ok s2) :
    s2 = Allocate_processor_state s sch v := by
  cases dbg
  · simpa using h.symm
  · have h2 := (Allocate_debug s s2 sch v h).1
    simpa using h2.symm

/-! ## Sequencing -/

theorem bind_ok {α β : Type} (x : Except Fault α) (f : α → Except Fault β) (b : β) :
    (x >>= f) = .ok b ↔ ∃ a, x = .ok a ∧ f a = .ok b := by
  cases x <;> simp [bind, Except.bind]

theorem emit_eq (m : State Thread Cpu) (e : Event Thread Cpu) :
    m.emit e = With_sets m m.Scheduled m.Ready [e] := rfl

theorem With_sets_emit (m : State Thread Cpu) (S R : List Thread)
    (es : List (Event Thread Cpu)) (e : Event Thread Cpu) :
    (With_sets m S R es).emit e = With_sets m S R (es ++ [e]) := by
  simp [With_sets, State.emit]

theorem With_sets_With_sets (m : State Thread Cpu) (S R S2 R2 : List Thread)
    (es es2 : List (Event Thread Cpu)) :
    With_sets (With_sets m S R es) S2 R2 es2 = With_sets m S2 R2 (es ++ es2) := by
  simp [With_sets]

/-! ## The function pointers under the contract -/

theorem contract_insert_ready {P : Plugins Thread Cpu} (C : Ready_set_contract P)
    (x : State Thread Cpu) (e : Event Thread Cpu) (t : Thread) :
    ∃ R2 : List Thread, R2.Perm (t :: x.Ready) ∧
      P.insert_ready (x.emit e) t = With_sets x x.Scheduled R2 [e] := by
  obtain ⟨R2, hp, he⟩ := C.insert_ready (x.emit e) t
  exact ⟨R2, hp, by rw [he]; simp [With_sets, State.emit]⟩

theorem contract_insert_scheduled {P : Plugins Thread Cpu}
    (C : Ready_set_contract P) (x : State Thread Cpu) (e : Event Thread Cpu)
    (t : Thread) :
    ∃ S2 : List Thread, S2.Perm (t :: x.Scheduled) ∧
      P.insert_scheduled (x.emit e) t = With_sets x S2 x.Ready [e] := by
  obtain ⟨S2, hp, he⟩ := C.insert_scheduled (x.emit e) t
  exact ⟨S2, hp, by rw [he]; simp [With_sets, State.emit]⟩

theorem contract_move_from_ready_to_scheduled {P : Plugins Thread Cpu}
    (C : Ready_set_contract P) (x : State Thread Cpu) (e : Event Thread Cpu)
    (t : Thread) :
    ∃ S2 R2 : List Thread, S2.Perm (t :: x.Scheduled) ∧ R2.Perm (x.Ready.erase t) ∧
      P.move_from_ready_to_scheduled (x.emit e) t = With_sets x S2 R2 [e] := by
  obtain ⟨S2, R2, hp, hq, he⟩ := C.move_from_ready_to_scheduled (x.emit e) t
  exact ⟨S2, R2, hp, hq, by rw [he]; simp [With_sets, State.emit]⟩

theorem contract_move_from_scheduled_to_ready {P : Plugins Thread Cpu}
    (C : Ready_set_contract P) (x : State Thread Cpu) (e : Event Thread Cpu)
    (t : Thread) :
    ∃ S2 R2 : List Thread, S2.Perm (x.Scheduled.erase t) ∧ R2.Perm (t :: x.Ready) ∧
      P.move_from_scheduled_to_ready (x.emit e) t = With_sets x S2 R2 [e] := by
  obtain ⟨S2, R2, hp, hq, he⟩ := C.move_from_scheduled_to_ready (x.emit e) t
  exact ⟨S2, R2, hp, hq, by rw [he]; simp [With_sets, State.emit]⟩

/-! ## The branches of `_Scheduler_SMP_Enqueue_ordered` -/

/-- Case B, the thread displaces the lowest scheduled thread `L`. -/
theorem Enqueue_displace_eq (dbg : Bool) (P : Plugins Thread Cpu)
    (s : State Thread Cpu) (t L : Thread)
    (hst : s.state t ≠ SCHEDULER_SMP_NODE_IN_THE_AIR)
    (hL : s.Scheduled.getLast? = some L) (ho : P.order t L = true) :
    _Scheduler_SMP_Enqueue_ordered dbg P s t =
      (_Scheduler_SMP_Node_change_state dbg s L SCHEDULER_SMP_NODE_READY >>= fun s1 =>
        _Scheduler_SMP_Allocate_processor dbg s1 t L >>= fun s2 =>
          pure (P.move_from_scheduled_to_ready
            ((P.insert_scheduled (s2.emit (Event.call_insert_scheduled t)) t).emit
              (Event.call_move_from_scheduled_to_ready L)) L)) := by
  simp [_Scheduler_SMP_Enqueue_ordered, hst, _Scheduler_SMP_Get_lowest_scheduled, hL,
    Option.filter, ho]

/-- Case B, the thread joins the ready set. -/
theorem Enqueue_ready_eq (dbg : Bool) (P : Plugins Thread Cpu)
    (s : State Thread Cpu) (t : Thread)
    (hst : s.state t ≠ SCHEDULER_SMP_NODE_IN_THE_AIR)
    (hL : ∀ L, s.Scheduled.getLast? = some L → P.order t L = false) :
    _Scheduler_SMP_Enqueue_ordered dbg P s t =
      (_Scheduler_SMP_Node_change_state dbg s t SCHEDULER_SMP_NODE_READY >>= fun s1 =>
        pure (P.insert_ready (s1.emit (Event.call_insert_ready t)) t)) := by
  cases h : s.Scheduled.getLast? with
  | none =>
    simp [_Scheduler_SMP_Enqueue_ordered, hst, _Scheduler_SMP_Get_lowest_scheduled, h,
      Option.filter]
  | some L =>
    simp [_Scheduler_SMP_Enqueue_ordered, hst, _Scheduler_SMP_Get_lowest_scheduled, h,
      Option.filter, hL L h]

/-- Case A, the highest ready thread `H` takes the place of the thread. -/
theorem Enqueue_air_ready_eq (dbg : Bool) (P : Plugins Thread Cpu)
    (s : State Thread Cpu) (t H : Thread)
    (hst : s.state t = SCHEDULER_SMP_NODE_IN_THE_AIR)
    (hH : P.get_highest_ready s = some H) (ho : P.order t H = false) :
    _Scheduler_SMP_Enqueue_ordered dbg P s t =
      (_Scheduler_SMP_Node_change_state dbg (s.emit Event.call_get_highest_ready) t
          SCHEDULER_SMP_NODE_READY >>= fun s1 =>
        _Scheduler_SMP_Allocate_processor dbg s1 H t >>= fun s2 =>
          pure (P.move_from_ready_to_scheduled
            ((P.insert_ready (s2.emit (Event.call_insert_ready t)) t).emit
              (Event.call_move_from_ready_to_scheduled H)) H)) := by
  simp [_Scheduler_SMP_Enqueue_ordered, hst, hH, Option.filter, ho]

/-- Case A, the thread goes back to the scheduled set. -/
theorem Enqueue_air_scheduled_eq (dbg : Bool) (P : Plugins Thread Cpu)
    (s : State Thread Cpu) (t : Thread)
    (hst : s.state t = SCHEDULER_SMP_NODE_IN_THE_AIR)
    (hH : ∀ H, P.get_highest_ready s = some H → P.order t H = true) :
    _Scheduler_SMP_Enqueue_ordered dbg P s t =
      (_Scheduler_SMP_Node_change_state dbg (s.emit Event.call_get_highest_ready) t
          SCHEDULER_SMP_NODE_SCHEDULED >>= fun s1 =>
        pure (P.insert_scheduled (s1.emit (Event.call_insert_scheduled t)) t)) := by
  cases h : P.get_highest_ready s with
  | none => simp [_Scheduler_SMP_Enqueue_ordered, hst, h, Option.filter]
  | some H => simp [_Scheduler_SMP_Enqueue_ordered, hst, h, Option.filter, hH H h]

theorem Allocate_assertions_changed (dbg : Bool) (s : State Thread Cpu)
    (x t : Thread) (n : Scheduler_SMP_Node_state) :
    Allocate_assertions dbg (Node_state_changed s x n) t ↔
      Allocate_assertions dbg s t := by
  simp [Allocate_assertions, Node_state_changed,
    _Scheduler_SMP_Is_processor_owned_by_us]

theorem Allocate_assertions_emit (dbg : Bool) (s : State Thread Cpu)
    (t : Thread) (e : Event Thread Cpu) :
    Allocate_assertions dbg (s.emit e) t ↔ Allocate_assertions dbg s t := by
  simp [Allocate_assertions, State.emit, _Scheduler_SMP_Is_processor_owned_by_us]

theorem valid_to_scheduled_changed (s : State Thread Cpu) (t L : Thread)
    (n : Scheduler_SMP_Node_state)
    (hn : _Scheduler_SMP_Node_valid_state_changes n SCHEDULER_SMP_NODE_SCHEDULED = true)
    (h : _Scheduler_SMP_Node_valid_state_changes (s.state t)
      SCHEDULER_SMP_NODE_SCHEDULED = true) :
    _Scheduler_SMP_Node_valid_state_changes ((Node_state_changed s L n).state t)
      SCHEDULER_SMP_NODE_SCHEDULED = true := by
  by_cases htl : t = L
  · subst htl; simpa [Node_state_changed] using hn
  · simpa [Node_state_changed, Function.update_noteq htl] using h

/-- Case B, displacement: the state the operation returns with. -/
theorem Enqueue_displace_result {P : Plugins Thread Cpu} (C : Ready_set_contract P)
    (dbg : Bool) (s s2 : State Thread Cpu) (t L : Thread)
    (hst : s.state t ≠ SCHEDULER_SMP_NODE_IN_THE_AIR)
    (hL : s.Scheduled.getLast? = some L) (ho : P.order t L = true)
    (h : _Scheduler_SMP_Enqueue_ordered dbg P s t = .ok s2) :
    ∃ S R : List Thread, S.Perm ((t :: s.Scheduled).erase L) ∧
      R.Perm (L :: s.Ready) ∧
      s2 = With_sets
        (Allocate_processor_state (Node_state_changed s L SCHEDULER_SMP_NODE_READY) t L)
        S R [Event.call_insert_scheduled t, Event.call_move_from_scheduled_to_ready L] := by
  rw [Enqueue_displace_eq dbg P s t L hst hL ho, bind_ok] at h
  obtain ⟨s1, h1, h⟩ := h
  rw [bind_ok] at h
  obtain ⟨m, h2, h⟩ := h
  obtain rfl := (change_state_inv dbg s s1 L _ h1).1
  obtain rfl := Allocate_inv dbg _ m t L h2
  simp only [pure, Except.pure, Except.ok.injEq] at h
  obtain ⟨S1, hS1, e1⟩ := contract_insert_scheduled C
    (Allocate_processor_state (Node_state_changed s L SCHEDULER_SMP_NODE_READY) t L)
    (Event.call_insert_scheduled t) t
  rw [e1] at h
  obtain ⟨S2, R2, hS2, hR2, e2⟩ := contract_move_from_scheduled_to_ready C
    (With_sets
      (Allocate_processor_state (Node_state_changed s L SCHEDULER_SMP_NODE_READY) t L)
      S1 _ [Event.call_insert_scheduled t])
    (Event.call_move_from_scheduled_to_ready L) L
  rw [e2, With_sets_With_sets] at h
  refine ⟨S2, R2, ?_, ?_, h.symm⟩
  · refine hS2.trans (List.Perm.erase L ?_)
    simpa [Allocate_state_frame, Node_state_changed] using hS1
  · simpa [With_sets, Allocate_state_frame, Node_state_changed] using hR2

/-- Case B, displacement: the operation returns. -/
theorem Enqueue_displace_returns (dbg : Bool) (P : Plugins Thread Cpu)
    (s : State Thread Cpu) (t L : Thread)
    (hst : s.state t ≠ SCHEDULER_SMP_NODE_IN_THE_AIR)
    (hL : s.Scheduled.getLast? = some L) (ho : P.order t L = true)
    (hvL : dbg = true → _Scheduler_SMP_Node_valid_state_changes (s.state L)
      SCHEDULER_SMP_NODE_READY = true)
    (hvt : dbg = true → _Scheduler_SMP_Node_valid_state_changes (s.state t)
      SCHEDULER_SMP_NODE_SCHEDULED = true)
    (ha : Allocate_assertions dbg s t) :
    ∃ s2, _Scheduler_SMP_Enqueue_ordered dbg P s t = .ok s2 := by
  rw [Enqueue_displace_eq dbg P s t L hst hL ho, change_state_ok dbg s L _ hvL]
  simp only [bind, Except.bind]
  rw [Allocate_ok dbg _ t L (fun hd => valid_to_scheduled_changed s t L SCHEDULER_SMP_NODE_READY rfl (hvt hd))
    ((Allocate_assertions_changed dbg s L t _).2 ha)]
  exact ⟨_, rfl⟩

/-- Case B, no displacement: the state the operation returns with. -/
theorem Enqueue_ready_result {P : Plugins Thread Cpu} (C : Ready_set_contract P)
    (dbg : Bool) (s s2 : State Thread Cpu) (t : Thread)
    (hst : s.state t ≠ SCHEDULER_SMP_NODE_IN_THE_AIR)
    (hL : ∀ L, s.Scheduled.getLast? = some L → P.order t L = false)
    (h : _Scheduler_SMP_Enqueue_ordered dbg P s t = .ok s2) :
    ∃ R : List Thread, R.Perm (t :: s.Ready) ∧
      s2 = With_sets (Node_state_changed s t SCHEDULER_SMP_NODE_READY) s.Scheduled R
        [Event.call_insert_ready t] := by
  rw [Enqueue_ready_eq dbg P s t hst hL, bind_ok] at h
  obtain ⟨s1, h1, h⟩ := h
  obtain rfl := (change_state_inv dbg s s1 t _ h1).1
  simp only [pure, Except.pure, Except.ok.injEq] at h
  obtain ⟨R, hR, e1⟩ := contract_insert_ready C
    (Node_state_changed s t SCHEDULER_SMP_NODE_READY) (Event.call_insert_ready t) t
  rw [e1] at h
  exact ⟨R, by simpa [Node_state_changed] using hR, by rw [← h]; rfl⟩

/-- Case B, no displacement: the operation returns. -/
theorem Enqueue_ready_returns (dbg : Bool) (P : Plugins Thread Cpu)
    (s : State Thread Cpu) (t : Thread)
    (hst : s.state t ≠ SCHEDULER_SMP_NODE_IN_THE_AIR)
    (hL : ∀ L, s.Scheduled.getLast? = some L → P.order t L = false)
    (hvt : dbg = true → _Scheduler_SMP_Node_valid_state_changes (s.state t)
      SCHEDULER_SMP_NODE_READY = true) :
    ∃ s2, _Scheduler_SMP_Enqueue_ordered dbg P s t = .ok s2 := by
  rw [Enqueue_ready_eq dbg P s t hst hL, change_state_ok dbg s t _ hvt]
  exact ⟨_, rfl⟩

/-- Case A, the highest ready thread wins: the state the operation returns
with. -/
theorem Enqueue_air_ready_result {P : Plugins Thread Cpu} (C : Ready_set_contract P)
    (dbg : Bool) (s s2 : State Thread Cpu) (t H : Thread)
    (hst : s.state t = SCHEDULER_SMP_NODE_IN_THE_AIR)
    (hH : P.get_highest_ready s = some H) (ho : P.order t H = false)
    (h : _Scheduler_SMP_Enqueue_ordered dbg P s t = .ok s2) :
    ∃ S R : List Thread, S.Perm (H :: s.Scheduled) ∧
      R.Perm ((t :: s.Ready).erase H) ∧
      s2 = With_sets
        (Allocate_processor_state
          (Node_state_changed (s.emit Event.call_get_highest_ready) t
            SCHEDULER_SMP_NODE_READY) H t)
        S R [Event.call_insert_ready t, Event.call_move_from_ready_to_scheduled H] := by
  rw [Enqueue_air_ready_eq dbg P s t H hst hH ho, bind_ok] at h
  obtain ⟨s1, h1, h⟩ := h
  rw [bind_ok] at h
  obtain ⟨m, h2, h⟩ := h
  obtain rfl := (change_state_inv dbg _ s1 t _ h1).1
  obtain rfl := Allocate_inv dbg _ m H t h2
  simp only [pure, Except.pure, Except.ok.injEq] at h
  obtain ⟨R1, hR1, e1⟩ := contract_insert_ready C
    (Allocate_processor_state
      (Node_state_changed (s.emit Event.call_get_highest_ready) t
        SCHEDULER_SMP_NODE_READY) H t)
    (Event.call_insert_ready t) t
  rw [e1] at h
  obtain ⟨S2, R2, hS2, hR2, e2⟩ := contract_move_from_ready_to_scheduled C
    (With_sets
      (Allocate_processor_state
        (Node_state_changed (s.emit Event.call_get_highest_ready) t
          SCHEDULER_SMP_NODE_READY) H t)
      _ R1 [Event.call_insert_ready t])
    (Event.call_move_from_ready_to_scheduled H) H
  rw [e2, With_sets_With_sets] at h
  refine ⟨S2, R2, ?_, ?_, h.symm⟩
  · simpa [With_sets, Allocate_state_frame, Node_state_changed, State.emit] using hS2
  · refine hR2.trans (List.Perm.erase H ?_)
    simpa [Allocate_state_frame, Node_state_changed, State.emit] using hR1

/-- Case A, the highest ready thread wins: the operation returns. -/
theorem Enqueue_air_ready_returns (dbg : Bool) (P : Plugins Thread Cpu)
    (s : State Thread Cpu) (t H : Thread)
    (hst : s.state t = SCHEDULER_SMP_NODE_IN_THE_AIR)
    (hH : P.get_highest_ready s = some H) (ho : P.order t H = false)
    (hvH : dbg = true → _Scheduler_SMP_Node_valid_state_changes (s.state H)
      SCHEDULER_SMP_NODE_SCHEDULED = true)
    (ha : Allocate_assertions dbg s H) :
    ∃ s2, _Scheduler_SMP_Enqueue_ordered dbg P s t = .ok s2 := by
  rw [Enqueue_air_ready_eq dbg P s t H hst hH ho,
    change_state_ok dbg _ t _ (fun _ => by simp [State.emit, hst]; rfl)]
  simp only [bind, Except.bind]
  rw [Allocate_ok dbg _ H t
    (fun hd => valid_to_scheduled_changed _ H t SCHEDULER_SMP_NODE_READY rfl
      (by simpa [State.emit] using hvH hd))
    ((Allocate_assertions_changed dbg _ t H _).2
      ((Allocate_assertions_emit dbg s H _).2 ha))]
  exact ⟨_, rfl⟩

/-- Case A, the thread keeps its place: the state the operation returns with,
and it always returns. -/
theorem Enqueue_air_scheduled_result {P : Plugins Thread Cpu}
    (C : Ready_set_contract P) (dbg : Bool) (s : State Thread Cpu) (t : Thread)
    (hst : s.state t = SCHEDULER_SMP_NODE_IN_THE_AIR)
    (hH : ∀ H, P.get_highest_ready s = some H → P.order t H = true) :
    ∃ S : List Thread, S.Perm (t :: s.Scheduled) ∧
      _Scheduler_SMP_Enqueue_ordered dbg P s t = .ok
        (With_sets
          (Node_state_changed (s.emit Event.call_get_highest_ready) t
            SCHEDULER_SMP_NODE_SCHEDULED)
          S s.Ready [Event.call_insert_scheduled t]) := by
  rw [Enqueue_air_scheduled_eq dbg P s t hst hH,
    change_state_ok dbg _ t _ (fun _ => by simp [State.emit, hst]; rfl)]
  obtain ⟨S, hS, e1⟩ := contract_insert_scheduled C
    (Node_state_changed (s.emit Event.call_get_highest_ready) t
      SCHEDULER_SMP_NODE_SCHEDULED) (Event.call_insert_scheduled t) t
  refine ⟨S, by simpa [Node_state_changed, State.emit] using hS, ?_⟩
  simp only [bind, Except.bind, pure, Except.pure]
  rw [e1]; rfl

/-! ## `_Scheduler_SMP_Schedule`, `_Scheduler_SMP_Extract`, `_Scheduler_SMP_Block` -/

theorem Schedule_other (dbg : Bool) (P : Plugins Thread Cpu)
    (s : State Thread Cpu) (t : Thread)
    (hst : s.state t ≠ SCHEDULER_SMP_NODE_IN_THE_AIR) :
    _Scheduler_SMP_Schedule dbg P s t = .ok s := by
  simp [_Scheduler_SMP_Schedule, hst, pure, Except.pure]

theorem get_highest_ready_changed {P : Plugins Thread Cpu}
    (C : Ready_set_contract P) (s : State Thread Cpu) (t : Thread)
    (n : Scheduler_SMP_Node_state) :
    P.get_highest_ready (Node_state_changed s t n) = P.get_highest_ready s :=
  C.get_highest_ready_congr _ _ rfl

/-- The IN_THE_AIR branch with a highest ready thread `H`. -/
theorem Schedule_air_eq {P : Plugins Thread Cpu} (C : Ready_set_contract P)
    (dbg : Bool) (s : State Thread Cpu) (t H : Thread)
    (hst : s.state t = SCHEDULER_SMP_NODE_IN_THE_AIR)
    (hH : P.get_highest_ready s = some H) :
    _Scheduler_SMP_Schedule dbg P s t =
      (_Scheduler_SMP_Allocate_processor dbg
          ((Node_state_changed s t SCHEDULER_SMP_NODE_BLOCKED).emit
            Event.call_get_highest_ready) H t >>= fun s2 =>
        pure (P.move_from_ready_to_scheduled
          (s2.emit (Event.call_move_from_ready_to_scheduled H)) H)) := by
  unfold _Scheduler_SMP_Schedule
  rw [if_pos hst, change_state_ok dbg s t _ (fun _ => by rw [hst]; rfl)]
  simp only [bind, Except.bind, _Scheduler_SMP_Schedule_highest_ready,
    get_highest_ready_changed C, hH]

/-- The IN_THE_AIR branch with an empty ready set: the `NULL` pointer is
used. -/
theorem Schedule_air_null {P : Plugins Thread Cpu} (C : Ready_set_contract P)
    (dbg : Bool) (s : State Thread Cpu) (t : Thread)
    (hst : s.state t = SCHEDULER_SMP_NODE_IN_THE_AIR)
    (hH : P.get_highest_ready s = none) :
    _Scheduler_SMP_Schedule dbg P s t = .error Fault.null_dereference := by
  unfold _Scheduler_SMP_Schedule
  rw [if_pos hst, change_state_ok dbg s t _ (fun _ => by rw [hst]; rfl)]
  simp only [bind, Except.bind, _Scheduler_SMP_Schedule_highest_ready,
    get_highest_ready_changed C, hH]

/-- The IN_THE_AIR branch: the state the operation returns with. -/
theorem Schedule_air_result {P : Plugins Thread Cpu} (C : Ready_set_contract P)
    (dbg : Bool) (s s2 : State Thread Cpu) (t H : Thread)
    (hst : s.state t = SCHEDULER_SMP_NODE_IN_THE_AIR)
    (hH : P.get_highest_ready s = some H)
    (h : _Scheduler_SMP_Schedule dbg P s t = .ok s2) :
    ∃ S R : List Thread, S.Perm (H :: s.Scheduled) ∧ R.Perm (s.Ready.erase H) ∧
      s2 = With_sets
        (Allocate_processor_state
          ((Node_state_changed s t SCHEDULER_SMP_NODE_BLOCKED).emit
            Event.call_get_highest_ready) H t)
        S R [Event.call_move_from_ready_to_scheduled H] := by
  rw [Schedule_air_eq C dbg s t H hst hH, bind_ok] at h
  obtain ⟨m, h2, h⟩ := h
  obtain rfl := Allocate_inv dbg _ m H t h2
  simp only [pure, Except.pure, Except.ok.injEq] at h
  obtain ⟨S2, R2, hS2, hR2, e2⟩ := contract_move_from_ready_to_scheduled C
    (Allocate_processor_state
      ((Node_state_changed s t SCHEDULER_SMP_NODE_BLOCKED).emit
        Event.call_get_highest_ready) H t)
    (Event.call_move_from_ready_to_scheduled H) H
  rw [e2] at h
  refine ⟨S2, R2, ?_, ?_, h.symm⟩
  · simpa [Allocate_state_frame, Node_state_changed, State.emit] using hS2
  · simpa [Allocate_state_frame, Node_state_changed, State.emit] using hR2

/-- The IN_THE_AIR branch: the operation returns. -/
theorem Schedule_air_returns {P : Plugins Thread Cpu} (C : Ready_set_contract P)
    (dbg : Bool) (s : State Thread Cpu) (t H : Thread)
    (hst : s.state t = SCHEDULER_SMP_NODE_IN_THE_AIR)
    (hH : P.get_highest_ready s = some H)
    (hvH : dbg = true → _Scheduler_SMP_Node_valid_state_changes (s.state H)
      SCHEDULER_SMP_NODE_SCHEDULED = true)
    (ha : Allocate_assertions dbg s H) :
    ∃ s2, _Scheduler_SMP_Schedule dbg P s t = .ok s2 := by
  rw [Schedule_air_eq C dbg s t H hst hH]
  rw [Allocate_ok dbg _ H t
    (fun hd => by
      have := valid_to_scheduled_changed s H t SCHEDULER_SMP_NODE_BLOCKED rfl (hvH hd)
      simpa [State.emit] using this)
    ((Allocate_assertions_emit dbg _ H _).2
      ((Allocate_assertions_changed dbg s t H _).2 ha))]
  exact ⟨_, rfl⟩

theorem Block_eq (dbg : Bool) (P : Plugins Thread Cpu) (s : State Thread Cpu)
    (t : Thread) :
    _Scheduler_SMP_Block dbg P s t =
      _Scheduler_SMP_Schedule dbg P (_Scheduler_SMP_Extract P s t) t := rfl

/-- The state `s` with the node state an `extract` leaves for `t`. -/
theorem Extracted_eq (s : State Thread Cpu) (t : Thread) :
    (Extracted s t).state = Function.update s.state t (Extract_state (s.state t)) ∧
    (Extracted s t).cpu = s.cpu ∧ (Extracted s t).per_cpu = s.per_cpu ∧
    (Extracted s t).is_executing = s.is_executing ∧
    (Extracted s t).debug_real_cpu = s.debug_real_cpu ∧
    (Extracted s t).Scheduled = s.Scheduled ∧ (Extracted s t).Ready = s.Ready ∧
    (Extracted s t).Base = s.Base ∧ (Extracted s t).cpu_self = s.cpu_self ∧
    (Extracted s t).isr_level = s.isr_level ∧ (Extracted s t).trace = s.trace :=
  ⟨rfl, rfl, rfl, rfl, rfl, rfl, rfl, rfl, rfl, rfl, rfl⟩

/-- What `_Scheduler_SMP_Extract` returns under the contract. -/
theorem Extract_result {P : Plugins Thread Cpu} (C : Ready_set_contract P)
    (s : State Thread Cpu) (t : Thread) :
    ∃ S R : List Thread, S.Perm (s.Scheduled.erase t) ∧ R.Perm (s.Ready.erase t) ∧
      _Scheduler_SMP_Extract P s t =
        With_sets (Extracted s t) S R [Event.call_extract t] := by
  obtain ⟨S, R, hS, hR, he⟩ := C.extract (s.emit (Event.call_extract t)) t
  refine ⟨S, R, hS, hR, ?_⟩
  unfold _Scheduler_SMP_Extract
  rw [he]
  simp [With_sets, State.emit, Extracted]

theorem Extract_state_ne (st : Scheduler_SMP_Node_state) :
    Extract_state st ≠ SCHEDULER_SMP_NODE_SCHEDULED ∧
    Extract_state st ≠ SCHEDULER_SMP_NODE_READY := by
  cases st <;> exact ⟨by decide, by decide⟩

/-! ## The concrete scheduler obeys the contract -/

theorem Chain_Insert_ordered_perm (order : Thread → Thread → Bool) (t : Thread)
    (l : List Thread) :
    (_Chain_Insert_ordered_unprotected order t l).Perm (t :: l) := by
  induction l with
  | nil => exact List.Perm.refl _
  | cons a l ih =>
    unfold _Chain_Insert_ordered_unprotected
    split_ifs
    · exact List.Perm.refl _
    · exact (List.Perm.cons a ih).trans (List.Perm.swap t a l)

theorem Highest_ready_none (priority : Thread → Nat) (l : List Thread) :
    Highest_ready priority l = none ↔ l = [] := by
  cases l with
  | nil => simp [Highest_ready]
  | cons a l =>
    unfold Highest_ready
    cases Highest_ready priority l with
    | none => simp
    | some b => by_cases hb : priority b < priority a <;> simp [hb]

theorem Highest_ready_min (priority : Thread → Nat) (l : List Thread) (h : Thread)
    (hh : Highest_ready priority l = some h) :
    h ∈ l ∧ ∀ y ∈ l, priority h ≤ priority y := by
  induction l generalizing h with
  | nil => simp [Highest_ready] at hh
  | cons a l ih =>
    unfold Highest_ready at hh
    cases hr : Highest_ready priority l with
    | none =>
      rw [hr] at hh
      have hl : l = [] := (Highest_ready_none priority l).1 hr
      simp only [Option.some.injEq] at hh
      subst hh; subst hl
      simp
    | some b =>
      rw [hr] at hh
      obtain ⟨hb, hmin⟩ := ih b hr
      by_cases hlt : priority b < priority a
      · simp only [hlt, if_true, Option.some.injEq] at hh
        subst hh
        refine ⟨List.mem_cons_of_mem _ hb, ?_⟩
        intro y hy
        rcases List.mem_cons.1 hy with rfl | hy
        · exact Nat.le_of_lt hlt
        · exact hmin y hy
      · simp only [hlt, if_false, Option.some.injEq] at hh
        subst hh
        refine ⟨List.mem_cons_self _ _, ?_⟩
        intro y hy
        rcases List.mem_cons.1 hy with rfl | hy
        · exact Nat.le_refl _
        · exact Nat.le_trans (Nat.le_of_not_lt hlt) (hmin y hy)

/-- The concrete scheduler `Simple_plugins` obeys the ready-set contract. -/
theorem Simple_plugins_contract (priority : Thread → Nat) :
    Ready_set_contract (Simple_plugins priority : Plugins Thread Cpu) where
  get_highest_ready_congr := by
    intro s s2 h
    simp [Simple_plugins, h]
  get_highest_ready_none := by
    intro s
    exact Highest_ready_none priority s.Ready
  get_highest_ready_mem := by
    intro s h hh
    exact (Highest_ready_min priority s.Ready h hh).1
  insert_ready := by
    intro s t
    exact ⟨t :: s.Ready, List.Perm.refl _, rfl⟩
  insert_scheduled := by
    intro s t
    exact ⟨_, Chain_Insert_ordered_perm _ t s.Scheduled, rfl⟩
  move_from_ready_to_scheduled := by
    intro s t
    exact ⟨_, s.Ready.erase t, Chain_Insert_ordered_perm _ t s.Scheduled,
      List.Perm.refl _, rfl⟩
  move_from_scheduled_to_ready := by
    intro s t
    exact ⟨s.Scheduled.erase t, t :: s.Ready, List.Perm.refl _, List.Perm.refl _, rfl⟩
  extract := by
    intro s t
    exact ⟨s.Scheduled.erase t, s.Ready.erase t, List.Perm.refl _, List.Perm.refl _,
      rfl⟩

/-- The concrete scheduler `Simple_plugins` orders by priority. -/
theorem Simple_plugins_priority (priority : Thread → Nat) :
    Priority_plugins priority (Simple_plugins priority : Plugins Thread Cpu) where
  order_of_lt := by
    intro a b h
    simp [Simple_plugins, _Scheduler_simple_Insert_priority_fifo_order, h]
  le_of_order := by
    intro a b h
    have : priority a < priority b := by
      simpa [Simple_plugins, _Scheduler_simple_Insert_priority_fifo_order] using h
    exact Nat.le_of_lt this
  highest := by
    intro s H h
    exact (Highest_ready_min priority s.Ready H h).2

/-! ## The placement invariant -/

theorem Placement_scheduled {s : State Thread Cpu} (h : Placement_invariant s)
    (t : Thread) : t ∈ s.Scheduled ↔ s.state t = SCHEDULER_SMP_NODE_SCHEDULED := by
  obtain ⟨_, _, h⟩ := h
  obtain ⟨h1, h2, h3, h4⟩ := h t
  constructor
  · intro hm
    cases hs : s.state t with
    | SCHEDULER_SMP_NODE_BLOCKED => exact absurd hm (h3 hs).1
    | SCHEDULER_SMP_NODE_SCHEDULED => rfl
    | SCHEDULER_SMP_NODE_READY => exact absurd hm (h2.1 hs).2
    | SCHEDULER_SMP_NODE_IN_THE_AIR => exact absurd hm (h4 hs).1
  · intro hs
    exact (h1.1 hs).1

theorem Placement_ready {s : State Thread Cpu} (h : Placement_invariant s)
    (t : Thread) : t ∈ s.Ready ↔ s.state t = SCHEDULER_SMP_NODE_READY := by
  obtain ⟨_, _, h⟩ := h
  obtain ⟨h1, h2, h3, h4⟩ := h t
  constructor
  · intro hm
    cases hs : s.state t with
    | SCHEDULER_SMP_NODE_BLOCKED => exact absurd hm (h3 hs).2
    | SCHEDULER_SMP_NODE_SCHEDULED => exact absurd hm (h1.1 hs).2
    | SCHEDULER_SMP_NODE_READY => rfl
    | SCHEDULER_SMP_NODE_IN_THE_AIR => exact absurd hm (h4 hs).2
  · intro hs
    exact (h2.1 hs).1

/-- The placement invariant from its two membership laws. -/
theorem Placement_of_mem {s : State Thread Cpu}
    (hS : s.Scheduled.Nodup) (hR : s.Ready.Nodup)
    (h1 : ∀ t, t ∈ s.Scheduled ↔ s.state t = SCHEDULER_SMP_NODE_SCHEDULED)
    (h2 : ∀ t, t ∈ s.Ready ↔ s.state t = SCHEDULER_SMP_NODE_READY) :
    Placement_invariant s := by
  refine ⟨hS, hR, fun t => ⟨?_, ?_, ?_, ?_⟩⟩
  · constructor
    · intro hs
      exact ⟨(h1 t).2 hs, fun hm => (by rw [(h2 t).1 hm] at hs; cases hs)⟩
    · intro hm
      exact (h1 t).1 hm.1
  · constructor
    · intro hs
      exact ⟨(h2 t).2 hs, fun hm => (by rw [(h1 t).1 hm] at hs; cases hs)⟩
    · intro hm
      exact (h2 t).1 hm.1
  · intro hs
    exact ⟨fun hm => (by rw [(h1 t).1 hm] at hs; cases hs),
      fun hm => (by rw [(h2 t).1 hm] at hs; cases hs)⟩
  · intro hs
    exact ⟨fun hm => (by rw [(h1 t).1 hm] at hs; cases hs),
      fun hm => (by rw [(h2 t).1 hm] at hs; cases hs)⟩

/-! ## The scheduler invariant I5 along the operations -/

theorem Priority_plugins.le_of_not_order {priority : Thread → Nat}
    {P : Plugins Thread Cpu} (hp : Priority_plugins priority P) (a b : Thread)
    (h : P.order a b = false) : priority b ≤ priority a := by
  by_contra hc
  have := hp.order_of_lt a b (Nat.lt_of_not_le hc)
  rw [h] at this
  cases this

theorem I5_enqueue {P : Plugins Thread Cpu} (C : Ready_set_contract P)
    {priority : Thread → Nat} (hp : Priority_plugins priority P)
    (dbg : Bool) (s s2 : State Thread Cpu) (t : Thread)
    (hlast : ∀ L, s.Scheduled.getLast? = some L →
      ∀ x ∈ s.Scheduled, priority x ≤ priority L)
    (hI5 : Scheduler_invariant priority s)
    (h : _Scheduler_SMP_Enqueue_ordered dbg P s t = .ok s2) :
    Scheduler_invariant priority s2 := by
  by_cases hst : s.state t = SCHEDULER_SMP_NODE_IN_THE_AIR
  · have hsch : (∀ H, P.get_highest_ready s = some H → P.order t H = true) →
        Scheduler_invariant priority s2 := by
      intro hH
      obtain ⟨S, hS, h3⟩ := Enqueue_air_scheduled_result C dbg s t hst hH
      rw [h] at h3
      cases h3
      intro x hx y hy
      rcases List.mem_cons.1 (hS.mem_iff.1 hx) with rfl | hx
      · cases hg : P.get_highest_ready s with
        | none =>
          have : s.Ready = [] := (C.get_highest_ready_none s).1 hg
          have hy2 : y ∈ s.Ready := hy
          rw [this] at hy2
          cases hy2
        | some H =>
          exact Nat.le_trans (hp.le_of_order _ _ (hH H hg)) (hp.highest s H hg y hy)
      · exact hI5 x hx y hy
    cases hg : P.get_highest_ready s with
    | none => exact hsch (fun H hH => by rw [hg] at hH; cases hH)
    | some H =>
      cases ho : P.order t H with
      | true => exact hsch (fun H2 hH2 => by rw [hg] at hH2; cases hH2; exact ho)
      | false =>
        obtain ⟨S, R, hS, hR, rfl⟩ := Enqueue_air_ready_result C dbg s s2 t H hst hg ho h
        have hHR : H ∈ s.Ready := C.get_highest_ready_mem s H hg
        intro x hx y hy
        have hy2 : y ∈ t :: s.Ready := List.mem_of_mem_erase (hR.mem_iff.1 hy)
        have hHy : priority H ≤ priority y := by
          rcases List.mem_cons.1 hy2 with rfl | hy3
          · exact hp.le_of_not_order _ _ ho
          · exact hp.highest s H hg y hy3
        rcases List.mem_cons.1 (hS.mem_iff.1 hx) with hxH | hx
        · rw [hxH]; exact hHy
        · exact Nat.le_trans (hI5 x hx H hHR) hHy
  · have hrdy : (∀ L, s.Scheduled.getLast? = some L → P.order t L = false) →
        Scheduler_invariant priority s2 := by
      intro hL
      obtain ⟨R, hR, rfl⟩ := Enqueue_ready_result C dbg s s2 t hst hL h
      intro x hx y hy
      have hx2 : x ∈ s.Scheduled := hx
      rcases List.mem_cons.1 (hR.mem_iff.1 hy) with rfl | hy
      · cases hg : s.Scheduled.getLast? with
        | none =>
          rw [List.getLast?_eq_none_iff.1 hg] at hx2
          cases hx2
        | some L =>
          exact Nat.le_trans (hlast L hg x hx2) (hp.le_of_not_order _ _ (hL L hg))
      · exact hI5 x hx2 y hy
    cases hg : s.Scheduled.getLast? with
    | none => exact hrdy (fun L hL => by rw [hg] at hL; cases hL)
    | some L =>
      cases ho : P.order t L with
      | false => exact hrdy (fun L2 hL2 => by rw [hg] at hL2; cases hL2; exact ho)
      | true =>
        obtain ⟨S, R, hS, hR, rfl⟩ := Enqueue_displace_result C dbg s s2 t L hst hg ho h
        have hLS : L ∈ s.Scheduled := List.mem_of_getLast?_eq_some hg
        intro x hx y hy
        have hx2 : x ∈ t :: s.Scheduled := List.mem_of_mem_erase (hS.mem_iff.1 hx)
        have hxL : priority x ≤ priority L := by
          rcases List.mem_cons.1 hx2 with rfl | hx3
          · exact hp.le_of_order _ _ ho
          · exact hlast L hg x hx3
        rcases List.mem_cons.1 (hR.mem_iff.1 hy) with rfl | hy
        · exact hxL
        · exact Nat.le_trans hxL (hI5 L hLS y hy)

theorem I5_schedule {P : Plugins Thread Cpu} (C : Ready_set_contract P)
    {priority : Thread → Nat} (hp : Priority_plugins priority P)
    (dbg : Bool) (s s2 : State Thread Cpu) (t : Thread)
    (hI5 : Scheduler_invariant priority s)
    (h : _Scheduler_SMP_Schedule dbg P s t = .ok s2) :
    Scheduler_invariant priority s2 := by
  by_cases hst : s.state t = SCHEDULER_SMP_NODE_IN_THE_AIR
  · cases hg : P.get_highest_ready s with
    | none =>
      rw [Schedule_air_null C dbg s t hst hg] at h
      cases h
    | some H =>
      obtain ⟨S, R, hS, hR, rfl⟩ := Schedule_air_result C dbg s s2 t H hst hg h
      intro x hx y hy
      have hy2 : y ∈ s.Ready := List.mem_of_mem_erase (hR.mem_iff.1 hy)
      rcases List.mem_cons.1 (hS.mem_iff.1 hx) with hxH | hx
      · rw [hxH]; exact hp.highest s H hg y hy2
      · exact hI5 x hx y hy2
  · rw [Schedule_other dbg P s t hst] at h
    cases h
    exact hI5

theorem I5_extract {P : Plugins Thread Cpu} (C : Ready_set_contract P)
    {priority : Thread → Nat} (s : State Thread Cpu) (t : Thread)
    (hI5 : Scheduler_invariant priority s) :
    Scheduler_invariant priority (_Scheduler_SMP_Extract P s t) := by
  obtain ⟨S, R, hS, hR, he⟩ := Extract_result C s t
  rw [he]
  intro x hx y hy
  exact hI5 x (List.mem_of_mem_erase (hS.mem_iff.1 hx)) y
    (List.mem_of_mem_erase (hR.mem_iff.1 hy))

theorem I5_block {P : Plugins Thread Cpu} (C : Ready_set_contract P)
    {priority : Thread → Nat} (hp : Priority_plugins priority P)
    (dbg : Bool) (s s2 : State Thread Cpu) (t : Thread)
    (hI5 : Scheduler_invariant priority s)
    (h : _Scheduler_SMP_Block dbg P s t = .ok s2) :
    Scheduler_invariant priority s2 :=
  I5_schedule C hp dbg _ s2 t (I5_extract C s t hI5) h

/-! ## The placement invariant I2 along the operations -/

theorem Placement_With_sets (m : State Thread Cpu) (S R : List Thread)
    (es : List (Event Thread Cpu)) (hS : S.Nodup) (hR : R.Nodup)
    (h1 : ∀ x, x ∈ S ↔ m.state x = SCHEDULER_SMP_NODE_SCHEDULED)
    (h2 : ∀ x, x ∈ R ↔ m.state x = SCHEDULER_SMP_NODE_READY) :
    Placement_invariant (With_sets m S R es) :=
  Placement_of_mem (s := With_sets m S R es) hS hR h1 h2

theorem Placement_extract {P : Plugins Thread Cpu} (C : Ready_set_contract P)
    (s : State Thread Cpu) (t : Thread) (hI2 : Placement_invariant s) :
    Placement_invariant (_Scheduler_SMP_Extract P s t) := by
  obtain ⟨S, R, hS, hR, he⟩ := Extract_result C s t
  rw [he]
  have hndS := hI2.1
  have hndR := hI2.2.1
  have htt := Extract_state_ne (s.state t)
  apply Placement_With_sets
  · exact hS.nodup_iff.2 (hndS.erase t)
  · exact hR.nodup_iff.2 (hndR.erase t)
  · intro x
    rw [hS.mem_iff, List.Nodup.mem_erase_iff hndS]
    by_cases hxt : x = t
    · subst hxt; simp [Extracted, htt.1]
    · simp [hxt, Extracted, Placement_scheduled hI2 x]
  · intro x
    rw [hR.mem_iff, List.Nodup.mem_erase_iff hndR]
    by_cases hxt : x = t
    · subst hxt; simp [Extracted, htt.2]
    · simp [hxt, Extracted, Placement_ready hI2 x]

theorem Placement_schedule {P : Plugins Thread Cpu} (C : Ready_set_contract P)
    (dbg : Bool) (s s2 : State Thread Cpu) (t : Thread)
    (hI2 : Placement_invariant s)
    (h : _Scheduler_SMP_Schedule dbg P s t = .ok s2) :
    Placement_invariant s2 := by
  by_cases hst : s.state t = SCHEDULER_SMP_NODE_IN_THE_AIR
  · cases hg : P.get_highest_ready s with
    | none =>
      rw [Schedule_air_null C dbg s t hst hg] at h
      cases h
    | some H =>
      obtain ⟨S, R, hS, hR, rfl⟩ := Schedule_air_result C dbg s s2 t H hst hg h
      have hHR : H ∈ s.Ready := C.get_highest_ready_mem s H hg
      have hHst := (Placement_ready hI2 H).1 hHR
      have hHt : H ≠ t := fun e => by rw [← e, hHst] at hst; cases hst
      have hHS : H ∉ s.Scheduled := fun hm => by
        rw [(Placement_scheduled hI2 H).1 hm] at hHst; cases hHst
      apply Placement_With_sets
      · exact hS.nodup_iff.2 (List.nodup_cons.2 ⟨hHS, hI2.1⟩)
      · exact hR.nodup_iff.2 (hI2.2.1.erase H)
      · intro x
        rw [hS.mem_iff, List.mem_cons]
        by_cases hxH : x = H
        · subst hxH; simp [Allocate_state_frame]
        · by_cases hxt : x = t
          · subst hxt
            simp [hxH, Allocate_state_frame, Node_state_changed, State.emit,
              Placement_scheduled hI2, hst]
          · simp [hxH, hxt, Allocate_state_frame, Node_state_changed, State.emit,
              Placement_scheduled hI2]
      · intro x
        rw [hR.mem_iff, List.Nodup.mem_erase_iff hI2.2.1]
        by_cases hxH : x = H
        · subst hxH; simp [Allocate_state_frame]
        · by_cases hxt : x = t
          · subst hxt
            simp [hxH, Allocate_state_frame, Node_state_changed, State.emit,
              Placement_ready hI2, hst]
          · simp [hxH, hxt, Allocate_state_frame, Node_state_changed, State.emit,
              Placement_ready hI2]
  · rw [Schedule_other dbg P s t hst] at h
    cases h
    exact hI2

theorem Placement_enqueue {P : Plugins Thread Cpu} (C : Ready_set_contract P)
    (dbg : Bool) (s s2 : State Thread Cpu) (t : Thread)
    (hI2 : Placement_invariant s)
    (hst : s.state t = SCHEDULER_SMP_NODE_BLOCKED ∨
      s.state t = SCHEDULER_SMP_NODE_IN_THE_AIR)
    (h : _Scheduler_SMP_Enqueue_ordered dbg P s t = .ok s2) :
    Placement_invariant s2 := by
  have htS : t ∉ s.Scheduled := fun hm => by
    rw [(Placement_scheduled hI2 t).1 hm] at hst; rcases hst with h | h <;> cases h
  have htR : t ∉ s.Ready := fun hm => by
    rw [(Placement_ready hI2 t).1 hm] at hst; rcases hst with h | h <;> cases h
  have hts : s.state t ≠ SCHEDULER_SMP_NODE_SCHEDULED := fun e =>
    htS ((Placement_scheduled hI2 t).2 e)
  have htr : s.state t ≠ SCHEDULER_SMP_NODE_READY := fun e =>
    htR ((Placement_ready hI2 t).2 e)
  by_cases hair : s.state t = SCHEDULER_SMP_NODE_IN_THE_AIR
  · have hsch : (∀ H, P.get_highest_ready s = some H → P.order t H = true) →
        Placement_invariant s2 := by
      intro hH
      obtain ⟨S, hS, h3⟩ := Enqueue_air_scheduled_result C dbg s t hair hH
      rw [h] at h3
      cases h3
      apply Placement_With_sets
      · exact hS.nodup_iff.2 (List.nodup_cons.2 ⟨htS, hI2.1⟩)
      · exact hI2.2.1
      · intro x
        rw [hS.mem_iff, List.mem_cons]
        by_cases hxt : x = t
        · subst hxt; simp [Node_state_changed]
        · simp [hxt, Node_state_changed, State.emit, Placement_scheduled hI2]
      · intro x
        by_cases hxt : x = t
        · subst hxt; simp [Node_state_changed, htR]
        · simp [hxt, Node_state_changed, State.emit, Placement_ready hI2]
    cases hg : P.get_highest_ready s with
    | none => exact hsch (fun H hH => by rw [hg] at hH; cases hH)
    | some H =>
      cases ho : P.order t H with
      | true => exact hsch (fun H2 hH2 => by rw [hg] at hH2; cases hH2; exact ho)
      | false =>
        obtain ⟨S, R, hS, hR, rfl⟩ :=
          Enqueue_air_ready_result C dbg s s2 t H hair hg ho h
        have hHR : H ∈ s.Ready := C.get_highest_ready_mem s H hg
        have hHst := (Placement_ready hI2 H).1 hHR
        have hHt : H ≠ t := fun e => htR (e ▸ hHR)
        have hHS : H ∉ s.Scheduled := fun hm => by
          rw [(Placement_scheduled hI2 H).1 hm] at hHst; cases hHst
        have hnd : (t :: s.Ready).Nodup := List.nodup_cons.2 ⟨htR, hI2.2.1⟩
        apply Placement_With_sets
        · exact hS.nodup_iff.2 (List.nodup_cons.2 ⟨hHS, hI2.1⟩)
        · exact hR.nodup_iff.2 (hnd.erase H)
        · intro x
          rw [hS.mem_iff, List.mem_cons]
          by_cases hxH : x = H
          · subst hxH; simp [Allocate_state_frame]
          · by_cases hxt : x = t
            · subst hxt
              simp [hxH, Allocate_state_frame, Node_state_changed, State.emit, htS]
            · simp [hxH, hxt, Allocate_state_frame, Node_state_changed, State.emit,
                Placement_scheduled hI2]
        · intro x
          rw [hR.mem_iff, List.Nodup.mem_erase_iff hnd, List.mem_cons]
          by_cases hxH : x = H
          · subst hxH; simp [Allocate_state_frame]
          · by_cases hxt : x = t
            · subst hxt
              simp [hxH, Allocate_state_frame, Node_state_changed, State.emit]
            · simp [hxH, hxt, Allocate_state_frame, Node_state_changed, State.emit,
                Placement_ready hI2]
  · have hrdy : (∀ L, s.Scheduled.getLast? = some L → P.order t L = false) →
        Placement_invariant s2 := by
      intro hL
      obtain ⟨R, hR, rfl⟩ := Enqueue_ready_result C dbg s s2 t hair hL h
      apply Placement_With_sets
      · exact hI2.1
      · exact hR.nodup_iff.2 (List.nodup_cons.2 ⟨htR, hI2.2.1⟩)
      · intro x
        by_cases hxt : x = t
        · subst hxt; simp [Node_state_changed, htS]
        · simp [hxt, Node_state_changed, Placement_scheduled hI2]
      · intro x
        rw [hR.mem_iff, List.mem_cons]
        by_cases hxt : x = t
        · subst hxt; simp [Node_state_changed]
        · simp [hxt, Node_state_changed, Placement_ready hI2]
    cases hg : s.Scheduled.getLast? with
    | none => exact hrdy (fun L hL => by rw [hg] at hL; cases hL)
    | some L =>
      cases ho : P.order t L with
      | false => exact hrdy (fun L2 hL2 => by rw [hg] at hL2; cases hL2; exact ho)
      | true =>
        obtain ⟨S, R, hS, hR, rfl⟩ :=
          Enqueue_displace_result C dbg s s2 t L hair hg ho h
        have hLS : L ∈ s.Scheduled := List.mem_of_getLast?_eq_some hg
        have hLst := (Placement_scheduled hI2 L).1 hLS
        have hLt : L ≠ t := fun e => htS (e ▸ hLS)
        have hLR : L ∉ s.Ready := fun hm => by
          rw [(Placement_ready hI2 L).1 hm] at hLst; cases hLst
        have hnd : (t :: s.Scheduled).Nodup := List.nodup_cons.2 ⟨htS, hI2.1⟩
        apply Placement_With_sets
        · exact hS.nodup_iff.2 (hnd.erase L)
        · exact hR.nodup_iff.2 (List.nodup_cons.2 ⟨hLR, hI2.2.1⟩)
        · intro x
          rw [hS.mem_iff, List.Nodup.mem_erase_iff hnd, List.mem_cons]
          by_cases hxt : x = t
          · subst hxt; simp [Allocate_state_frame, hLt.symm]
          · by_cases hxL : x = L
            · subst hxL
              simp [hxt, Allocate_state_frame, Node_state_changed]
            · simp [hxL, hxt, Allocate_state_frame, Node_state_changed,
                Placement_scheduled hI2]
        · intro x
          rw [hR.mem_iff, List.mem_cons]
          by_cases hxt : x = t
          · subst hxt; simp [Allocate_state_frame, hLt.symm, htR]
          · by_cases hxL : x = L
            · subst hxL
              simp [hxt, Allocate_state_frame, Node_state_changed]
            · simp [hxL, hxt, Allocate_state_frame, Node_state_changed,
                Placement_ready hI2]

theorem Placement_block {P : Plugins Thread Cpu} (C : Ready_set_contract P)
    (dbg : Bool) (s s2 : State Thread Cpu) (t : Thread)
    (hI2 : Placement_invariant s)
    (h : _Scheduler_SMP_Block dbg P s t = .ok s2) :
    Placement_invariant s2 :=
  Placement_schedule C dbg _ s2 t (Placement_extract C s t hI2) h

/-! ## The heirs along the processor allocation -/

theorem Allocate_owned (m : State Thread Cpu) (sch v : Thread) (p : Cpu) :
    _Scheduler_SMP_Is_processor_owned_by_us (Allocate_processor_state m sch v) p =
      _Scheduler_SMP_Is_processor_owned_by_us m p := by
  unfold _Scheduler_SMP_Is_processor_owned_by_us
  rw [Allocate_state_per_cpu, (Allocate_state_frame m sch v).2.2.2.2.2.1]
  split_ifs <;> simp [Function.update_apply, Heir_record] <;> split_ifs <;> simp_all

/-- The heir of every processor after the processor allocation. -/
theorem Allocate_heir (m : State Thread Cpu) (sch v : Thread) (p : Cpu) :
    ((Allocate_processor_state m sch v).per_cpu p).heir =
      if m.is_executing sch = true ∧
          _Scheduler_SMP_Is_processor_owned_by_us m (m.cpu sch) = true then
        if (m.per_cpu (m.cpu sch)).heir = v then
          if p = m.cpu sch then sch else (m.per_cpu p).heir
        else if p = m.cpu v then (m.per_cpu (m.cpu sch)).heir
        else if p = m.cpu sch then sch else (m.per_cpu p).heir
      else if sch = v then (m.per_cpu p).heir
      else if p = m.cpu v then sch else (m.per_cpu p).heir := by
  rw [Allocate_state_per_cpu]
  split_ifs <;> simp_all [Function.update_apply, Heir_record]

/-- Handing one processor a thread that is no heir keeps the heirs
distinct. -/
theorem distinct_update (own : Cpu → Prop) (f : Cpu → Thread) (c : Cpu) (x : Thread)
    (hinj : ∀ p q, own p → own q → f p = f q → p = q)
    (hfresh : ∀ p, own p → f p ≠ x) :
    ∀ p q, own p → own q →
      (if p = c then x else f p) = (if q = c then x else f q) → p = q := by
  intro p q hp hq he
  by_cases hpc : p = c <;> by_cases hqc : q = c
  · rw [hpc, hqc]
  · rw [if_pos hpc, if_neg hqc] at he
    exact absurd he.symm (hfresh q hq)
  · rw [if_neg hpc, if_pos hqc] at he
    exact absurd he (hfresh p hp)
  · rw [if_neg hpc, if_neg hqc] at he
    exact hinj p q hp hq he

theorem Allocate_heir_distinct (m : State Thread Cpu) (sch v : Thread)
    (hI4 : Heir_distinct m)
    (hs : ∀ p, _Scheduler_SMP_Is_processor_owned_by_us m p = true →
      (m.per_cpu p).heir ≠ sch) :
    Heir_distinct (Allocate_processor_state m sch v) := by
  have step1 := distinct_update
    (fun p => _Scheduler_SMP_Is_processor_owned_by_us m p = true)
    (fun p => (m.per_cpu p).heir) (m.cpu sch) sch hI4 hs
  intro p q hp hq
  rw [Allocate_owned] at hp hq
  rw [Allocate_heir, Allocate_heir]
  by_cases hc : m.is_executing sch = true ∧
      _Scheduler_SMP_Is_processor_owned_by_us m (m.cpu sch) = true
  · rw [if_pos hc, if_pos hc]
    by_cases hX : (m.per_cpu (m.cpu sch)).heir = v
    · rw [if_pos hX, if_pos hX]
      exact step1 p q hp hq
    · rw [if_neg hX, if_neg hX]
      refine distinct_update
        (fun p => _Scheduler_SMP_Is_processor_owned_by_us m p = true)
        (fun p => if p = m.cpu sch then sch else (m.per_cpu p).heir) (m.cpu v)
        (m.per_cpu (m.cpu sch)).heir step1 ?_ p q hp hq
      intro r hr
      show (if r = m.cpu sch then sch else (m.per_cpu r).heir) ≠ _
      by_cases hrc : r = m.cpu sch
      · rw [if_pos hrc]
        exact fun e => hs _ hc.2 e.symm
      · rw [if_neg hrc]
        exact fun e => hrc (hI4 r (m.cpu sch) hr hc.2 e)
  · rw [if_neg hc, if_neg hc]
    by_cases hsv : sch = v
    · rw [if_pos hsv, if_pos hsv]
      exact hI4 p q hp hq
    · rw [if_neg hsv, if_neg hsv]
      exact distinct_update
        (fun p => _Scheduler_SMP_Is_processor_owned_by_us m p = true)
        (fun p => (m.per_cpu p).heir) (m.cpu v) sch hI4 hs p q hp hq

/-- After the processor allocation every heir is `scheduled` or a former heir
other than the victim, and the current-CPU field of every heir names its
processor. -/
theorem Allocate_heir_cpu (m : State Thread Cpu) (sch v : Thread)
    (hJ : Heir_cpu m)
    (hs : ∀ p, _Scheduler_SMP_Is_processor_owned_by_us m p = true →
      (m.per_cpu p).heir ≠ sch)
    (p : Cpu) (hp : _Scheduler_SMP_Is_processor_owned_by_us m p = true) :
    (((Allocate_processor_state m sch v).per_cpu p).heir = sch ∨
      ∃ r, _Scheduler_SMP_Is_processor_owned_by_us m r = true ∧
        ((Allocate_processor_state m sch v).per_cpu p).heir = (m.per_cpu r).heir ∧
        (m.per_cpu r).heir ≠ v) ∧
    (Allocate_processor_state m sch v).cpu
      ((Allocate_processor_state m sch v).per_cpu p).heir = p := by
  have hJp := hJ p hp
  have hsp := hs p hp
  rw [Allocate_heir, Allocate_state_cpu]
  by_cases hc : m.is_executing sch = true ∧
      _Scheduler_SMP_Is_processor_owned_by_us m (m.cpu sch) = true
  · have hJc := hJ _ hc.2
    have hsc := hs _ hc.2
    rw [if_pos hc, if_pos hc]
    by_cases hX : (m.per_cpu (m.cpu sch)).heir = v
    · rw [if_pos hX, if_pos hX]
      by_cases hpc : p = m.cpu sch
      · rw [if_pos hpc]
        exact ⟨Or.inl rfl, hpc.symm⟩
      · rw [if_neg hpc]
        refine ⟨Or.inr ⟨p, hp, rfl, ?_⟩, hJp⟩
        intro e
        apply hpc
        rw [← hJp, e, ← hX, hJc]
    · rw [if_neg hX, if_neg hX]
      by_cases hpv : p = m.cpu v
      · rw [if_pos hpv]
        refine ⟨Or.inr ⟨m.cpu sch, hc.2, rfl, hX⟩, ?_⟩
        rw [Function.update_same, hpv]
      · rw [if_neg hpv]
        by_cases hpc : p = m.cpu sch
        · rw [if_pos hpc]
          refine ⟨Or.inl rfl, ?_⟩
          rw [Function.update_noteq (fun e => hsc e.symm), hpc]
        · rw [if_neg hpc]
          have hne : (m.per_cpu p).heir ≠ (m.per_cpu (m.cpu sch)).heir := by
            intro e
            apply hpc
            rw [← hJp, e, hJc]
          refine ⟨Or.inr ⟨p, hp, rfl, ?_⟩, ?_⟩
          · intro e
            apply hpv
            rw [← hJp, e]
          · rw [Function.update_noteq hne, hJp]
  · rw [if_neg hc, if_neg hc]
    by_cases hsv : sch = v
    · rw [if_pos hsv, if_pos hsv]
      exact ⟨Or.inr ⟨p, hp, rfl, fun e => hsp (e.trans hsv.symm)⟩, hJp⟩
    · rw [if_neg hsv, if_neg hsv]
      by_cases hpv : p = m.cpu v
      · rw [if_pos hpv]
        refine ⟨Or.inl rfl, ?_⟩
        rw [Function.update_same, hpv]
      · rw [if_neg hpv]
        refine ⟨Or.inr ⟨p, hp, rfl, ?_⟩, ?_⟩
        · intro e
          apply hpv
          rw [← hJp, e]
        · rw [Function.update_noteq hsp, hJp]

/-- The heir invariant I3 after the processor allocation: it is enough that
before it every heir but the victim is SCHEDULED. -/
theorem Allocate_heir_invariant (m : State Thread Cpu) (sch v : Thread)
    (hJ : Heir_cpu m)
    (hI3 : ∀ p, _Scheduler_SMP_Is_processor_owned_by_us m p = true →
      (m.per_cpu p).heir ≠ v →
      m.state (m.per_cpu p).heir = SCHEDULER_SMP_NODE_SCHEDULED)
    (hs : ∀ p, _Scheduler_SMP_Is_processor_owned_by_us m p = true →
      (m.per_cpu p).heir ≠ sch) :
    Heir_invariant (Allocate_processor_state m sch v) ∧
    Heir_cpu (Allocate_processor_state m sch v) := by
  constructor
  · intro p hp
    rw [Allocate_owned] at hp
    rw [(Allocate_state_frame m sch v).1]
    rcases (Allocate_heir_cpu m sch v hJ hs p hp).1 with e | ⟨r, hr, e, hne⟩
    · rw [e, Function.update_same]
    · rw [e]
      by_cases hrs : (m.per_cpu r).heir = sch
      · rw [hrs, Function.update_same]
      · rw [Function.update_noteq hrs]
        exact hI3 r hr hne
  · intro p hp
    rw [Allocate_owned] at hp
    exact (Allocate_heir_cpu m sch v hJ hs p hp).2

/-! ## The heirs along the operations -/

theorem Heir_enqueue {P : Plugins Thread Cpu} (C : Ready_set_contract P)
    (dbg : Bool) (s s2 : State Thread Cpu) (t : Thread)
    (hI2 : Placement_invariant s) (hI3 : Heir_invariant s) (hJ : Heir_cpu s)
    (hst : s.state t = SCHEDULER_SMP_NODE_BLOCKED ∨
      s.state t = SCHEDULER_SMP_NODE_IN_THE_AIR)
    (h : _Scheduler_SMP_Enqueue_ordered dbg P s t = .ok s2) :
    Heir_invariant s2 ∧ Heir_cpu s2 := by
  have hnt : ∀ p, _Scheduler_SMP_Is_processor_owned_by_us s p = true →
      (s.per_cpu p).heir ≠ t := by
    intro p hp e
    have := hI3 p hp
    rw [e] at this
    rw [this] at hst
    rcases hst with h | h <;> cases h
  by_cases hair : s.state t = SCHEDULER_SMP_NODE_IN_THE_AIR
  · have hsch : (∀ H, P.get_highest_ready s = some H → P.order t H = true) →
        Heir_invariant s2 ∧ Heir_cpu s2 := by
      intro hH
      obtain ⟨S, _, h3⟩ := Enqueue_air_scheduled_result C dbg s t hair hH
      rw [h] at h3
      cases h3
      refine ⟨?_, hJ⟩
      intro p hp
      have h1 := hI3 p hp
      show Function.update s.state t SCHEDULER_SMP_NODE_SCHEDULED (s.per_cpu p).heir = _
      rw [Function.update_noteq (hnt p hp)]
      exact h1
    cases hg : P.get_highest_ready s with
    | none => exact hsch (fun H hH => by rw [hg] at hH; cases hH)
    | some H =>
      cases ho : P.order t H with
      | true => exact hsch (fun H2 hH2 => by rw [hg] at hH2; cases hH2; exact ho)
      | false =>
        obtain ⟨S, R, _, _, rfl⟩ := Enqueue_air_ready_result C dbg s s2 t H hair hg ho h
        have hHst := (Placement_ready hI2 H).1 (C.get_highest_ready_mem s H hg)
        refine Allocate_heir_invariant
          (Node_state_changed (s.emit Event.call_get_highest_ready) t
            SCHEDULER_SMP_NODE_READY) H t hJ ?_ ?_
        · intro p hp hne
          show Function.update s.state t SCHEDULER_SMP_NODE_READY (s.per_cpu p).heir = _
          rw [Function.update_noteq (show (s.per_cpu p).heir ≠ _ from hne)]
          exact hI3 p hp
        · intro p hp e
          have h1 : s.state (s.per_cpu p).heir = SCHEDULER_SMP_NODE_SCHEDULED :=
            hI3 p hp
          have e2 : (s.per_cpu p).heir = H := e
          rw [e2, hHst] at h1
          cases h1
  · have hrdy : (∀ L, s.Scheduled.getLast? = some L → P.order t L = false) →
        Heir_invariant s2 ∧ Heir_cpu s2 := by
      intro hL
      obtain ⟨R, _, rfl⟩ := Enqueue_ready_result C dbg s s2 t hair hL h
      refine ⟨?_, hJ⟩
      intro p hp
      show Function.update s.state t SCHEDULER_SMP_NODE_READY (s.per_cpu p).heir = _
      rw [Function.update_noteq (hnt p hp)]
      exact hI3 p hp
    cases hg : s.Scheduled.getLast? with
    | none => exact hrdy (fun L hL => by rw [hg] at hL; cases hL)
    | some L =>
      cases ho : P.order t L with
      | false => exact hrdy (fun L2 hL2 => by rw [hg] at hL2; cases hL2; exact ho)
      | true =>
        obtain ⟨S, R, _, _, rfl⟩ := Enqueue_displace_result C dbg s s2 t L hair hg ho h
        refine Allocate_heir_invariant
          (Node_state_changed s L SCHEDULER_SMP_NODE_READY) t L hJ ?_ hnt
        intro p hp hne
        show Function.update s.state L SCHEDULER_SMP_NODE_READY (s.per_cpu p).heir = _
        rw [Function.update_noteq (show (s.per_cpu p).heir ≠ _ from hne)]
        exact hI3 p hp

/-- The IN_THE_AIR branch of `_Scheduler_SMP_Schedule` restores the heir
invariant when every heir but the thread is SCHEDULED. -/
theorem Heir_schedule_air {P : Plugins Thread Cpu} (C : Ready_set_contract P)
    (dbg : Bool) (s s2 : State Thread Cpu) (t : Thread)
    (hI2 : Placement_invariant s) (hJ : Heir_cpu s)
    (hI3 : ∀ p, _Scheduler_SMP_Is_processor_owned_by_us s p = true →
      (s.per_cpu p).heir ≠ t →
      s.state (s.per_cpu p).heir = SCHEDULER_SMP_NODE_SCHEDULED)
    (hair : s.state t = SCHEDULER_SMP_NODE_IN_THE_AIR)
    (h : _Scheduler_SMP_Schedule dbg P s t = .ok s2) :
    Heir_invariant s2 ∧ Heir_cpu s2 := by
  cases hg : P.get_highest_ready s with
  | none =>
    rw [Schedule_air_null C dbg s t hair hg] at h
    cases h
  | some H =>
    obtain ⟨S, R, _, _, rfl⟩ := Schedule_air_result C dbg s s2 t H hair hg h
    have hHst := (Placement_ready hI2 H).1 (C.get_highest_ready_mem s H hg)
    have hHt : H ≠ t := fun e => by rw [e, hair] at hHst; cases hHst
    refine Allocate_heir_invariant
      ((Node_state_changed s t SCHEDULER_SMP_NODE_BLOCKED).emit
        Event.call_get_highest_ready) H t hJ ?_ ?_
    · intro p hp hne
      show Function.update s.state t SCHEDULER_SMP_NODE_BLOCKED (s.per_cpu p).heir = _
      rw [Function.update_noteq (show (s.per_cpu p).heir ≠ _ from hne)]
      exact hI3 p hp hne
    · intro p hp e
      have e2 : (s.per_cpu p).heir = H := e
      have h1 := hI3 p hp (by rw [e2]; exact hHt)
      rw [e2, hHst] at h1
      cases h1

theorem Heir_schedule {P : Plugins Thread Cpu} (C : Ready_set_contract P)
    (dbg : Bool) (s s2 : State Thread Cpu) (t : Thread)
    (hI2 : Placement_invariant s) (hI3 : Heir_invariant s) (hJ : Heir_cpu s)
    (h : _Scheduler_SMP_Schedule dbg P s t = .ok s2) :
    Heir_invariant s2 ∧ Heir_cpu s2 := by
  by_cases hair : s.state t = SCHEDULER_SMP_NODE_IN_THE_AIR
  · exact Heir_schedule_air C dbg s s2 t hI2 hJ (fun p hp _ => hI3 p hp) hair h
  · rw [Schedule_other dbg P s t hair] at h
    cases h
    exact ⟨hI3, hJ⟩

theorem Heir_block {P : Plugins Thread Cpu} (C : Ready_set_contract P)
    (dbg : Bool) (s s2 : State Thread Cpu) (t : Thread)
    (hI2 : Placement_invariant s) (hI3 : Heir_invariant s) (hJ : Heir_cpu s)
    (h : _Scheduler_SMP_Block dbg P s t = .ok s2) :
    Heir_invariant s2 ∧ Heir_cpu s2 := by
  have hI2e := Placement_extract C s t hI2
  obtain ⟨S, R, _, _, he⟩ := Extract_result C s t
  rw [Block_eq] at h
  rw [he] at h hI2e
  have hJe : Heir_cpu (With_sets (Extracted s t) S R [Event.call_extract t]) := hJ
  have hI3e : ∀ p, _Scheduler_SMP_Is_processor_owned_by_us
      (With_sets (Extracted s t) S R [Event.call_extract t]) p = true →
      ((With_sets (Extracted s t) S R [Event.call_extract t]).per_cpu p).heir ≠ t →
      (With_sets (Extracted s t) S R [Event.call_extract t]).state
        ((With_sets (Extracted s t) S R [Event.call_extract t]).per_cpu p).heir
        = SCHEDULER_SMP_NODE_SCHEDULED := by
    intro p hp hne
    show Function.update s.state t (Extract_state (s.state t)) (s.per_cpu p).heir = _
    rw [Function.update_noteq (show (s.per_cpu p).heir ≠ _ from hne)]
    exact hI3 p hp
  by_cases hair : (With_sets (Extracted s t) S R [Event.call_extract t]).state t
      = SCHEDULER_SMP_NODE_IN_THE_AIR
  · exact Heir_schedule_air C dbg _ s2 t hI2e hJe hI3e hair h
  · rw [Schedule_other dbg P _ t hair] at h
    cases h
    refine ⟨?_, hJe⟩
    intro p hp
    by_cases hne : (s.per_cpu p).heir = t
    · exfalso
      apply hair
      have h1 : s.state (s.per_cpu p).heir = SCHEDULER_SMP_NODE_SCHEDULED := hI3 p hp
      rw [hne] at h1
      show Function.update s.state t (Extract_state (s.state t)) t = _
      rw [Function.update_same, h1]
      rfl
    · exact hI3e p hp hne

/-- After `_Scheduler_SMP_Extract` every heir but the thread is SCHEDULED, the
thread is IN_THE_AIR when it is an heir, and the current-CPU fields of the
heirs are as before. -/
theorem Heir_extract {P : Plugins Thread Cpu} (C : Ready_set_contract P)
    (s : State Thread Cpu) (t : Thread)
    (hI3 : Heir_invariant s) (hJ : Heir_cpu s) :
    Heir_cpu (_Scheduler_SMP_Extract P s t) ∧
    ∀ p, _Scheduler_SMP_Is_processor_owned_by_us (_Scheduler_SMP_Extract P s t) p
        = true →
      (((_Scheduler_SMP_Extract P s t).per_cpu p).heir ≠ t →
        (_Scheduler_SMP_Extract P s t).state
          ((_Scheduler_SMP_Extract P s t).per_cpu p).heir
          = SCHEDULER_SMP_NODE_SCHEDULED) ∧
      (((_Scheduler_SMP_Extract P s t).per_cpu p).heir = t →
        (_Scheduler_SMP_Extract P s t).state t = SCHEDULER_SMP_NODE_IN_THE_AIR) := by
  obtain ⟨S, R, _, _, he⟩ := Extract_result C s t
  rw [he]
  refine ⟨hJ, ?_⟩
  intro p hp
  constructor
  · intro hne
    show Function.update s.state t (Extract_state (s.state t)) (s.per_cpu p).heir = _
    rw [Function.update_noteq (show (s.per_cpu p).heir ≠ _ from hne)]
    exact hI3 p hp
  · intro e
    have e2 : (s.per_cpu p).heir = t := e
    have h1 : s.state (s.per_cpu p).heir = SCHEDULER_SMP_NODE_SCHEDULED := hI3 p hp
    rw [e2] at h1
    show Function.update s.state t (Extract_state (s.state t)) t = _
    rw [Function.update_same, h1]
    rfl

theorem Distinct_enqueue {P : Plugins Thread Cpu} (C : Ready_set_contract P)
    (dbg : Bool) (s s2 : State Thread Cpu) (t : Thread)
    (hI2 : Placement_invariant s) (hseat : Heir_seated s) (hI4 : Heir_distinct s)
    (hst : s.state t = SCHEDULER_SMP_NODE_BLOCKED ∨
      s.state t = SCHEDULER_SMP_NODE_IN_THE_AIR)
    (h : _Scheduler_SMP_Enqueue_ordered dbg P s t = .ok s2) :
    Heir_distinct s2 := by
  by_cases hair : s.state t = SCHEDULER_SMP_NODE_IN_THE_AIR
  · have hsch : (∀ H, P.get_highest_ready s = some H → P.order t H = true) →
        Heir_distinct s2 := by
      intro hH
      obtain ⟨S, _, h3⟩ := Enqueue_air_scheduled_result C dbg s t hair hH
      rw [h] at h3
      cases h3
      exact hI4
    cases hg : P.get_highest_ready s with
    | none => exact hsch (fun H hH => by rw [hg] at hH; cases hH)
    | some H =>
      cases ho : P.order t H with
      | true => exact hsch (fun H2 hH2 => by rw [hg] at hH2; cases hH2; exact ho)
      | false =>
        obtain ⟨S, R, _, _, rfl⟩ := Enqueue_air_ready_result C dbg s s2 t H hair hg ho h
        have hHst := (Placement_ready hI2 H).1 (C.get_highest_ready_mem s H hg)
        refine Allocate_heir_distinct
          (Node_state_changed (s.emit Event.call_get_highest_ready) t
            SCHEDULER_SMP_NODE_READY) H t hI4 ?_
        intro p hp e
        have e2 : (s.per_cpu p).heir = H := e
        have h1 := hseat p hp
        rw [e2, hHst] at h1
        rcases h1 with h1 | h1 <;> cases h1
  · have hb : s.state t = SCHEDULER_SMP_NODE_BLOCKED := by
      rcases hst with h | h
      · exact h
      · exact absurd h hair
    have hrdy : (∀ L, s.Scheduled.getLast? = some L → P.order t L = false) →
        Heir_distinct s2 := by
      intro hL
      obtain ⟨R, _, rfl⟩ := Enqueue_ready_result C dbg s s2 t hair hL h
      exact hI4
    cases hg : s.Scheduled.getLast? with
    | none => exact hrdy (fun L hL => by rw [hg] at hL; cases hL)
    | some L =>
      cases ho : P.order t L with
      | false => exact hrdy (fun L2 hL2 => by rw [hg] at hL2; cases hL2; exact ho)
      | true =>
        obtain ⟨S, R, _, _, rfl⟩ := Enqueue_displace_result C dbg s s2 t L hair hg ho h
        refine Allocate_heir_distinct
          (Node_state_changed s L SCHEDULER_SMP_NODE_READY) t L hI4 ?_
        intro p hp e
        have e2 : (s.per_cpu p).heir = t := e
        have h1 := hseat p hp
        rw [e2, hb] at h1
        rcases h1 with h1 | h1 <;> cases h1

theorem Distinct_schedule {P : Plugins Thread Cpu} (C : Ready_set_contract P)
    (dbg : Bool) (s s2 : State Thread Cpu) (t : Thread)
    (hI2 : Placement_invariant s) (hseat : Heir_seated s) (hI4 : Heir_distinct s)
    (h : _Scheduler_SMP_Schedule dbg P s t = .ok s2) :
    Heir_distinct s2 := by
  by_cases hair : s.state t = SCHEDULER_SMP_NODE_IN_THE_AIR
  · cases hg : P.get_highest_ready s with
    | none =>
      rw [Schedule_air_null C dbg s t hair hg] at h
      cases h
    | some H =>
      obtain ⟨S, R, _, _, rfl⟩ := Schedule_air_result C dbg s s2 t H hair hg h
      have hHst := (Placement_ready hI2 H).1 (C.get_highest_ready_mem s H hg)
      refine Allocate_heir_distinct
        ((Node_state_changed s t SCHEDULER_SMP_NODE_BLOCKED).emit
          Event.call_get_highest_ready) H t hI4 ?_
      intro p hp e
      have e2 : (s.per_cpu p).heir = H := e
      have h1 := hseat p hp
      rw [e2, hHst] at h1
      rcases h1 with h1 | h1 <;> cases h1
  · rw [Schedule_other dbg P s t hair] at h
    cases h
    exact hI4

/-- Processor allocation with a victim that is the heir of its processor and
a thread `sch` that is no heir: afterwards `sch` is the heir of exactly one
processor and the victim the heir of none. -/
theorem Allocate_heir_exchange (m : State Thread Cpu) (sch v : Thread)
    (hown : ∀ p, _Scheduler_SMP_Is_processor_owned_by_us m p = true)
    (hI4 : Heir_distinct m)
    (hv : (m.per_cpu (m.cpu v)).heir = v)
    (hs : ∀ p, (m.per_cpu p).heir ≠ sch) :
    (∃ p0, ∀ p, ((Allocate_processor_state m sch v).per_cpu p).heir = sch ↔ p = p0) ∧
    ∀ p, ((Allocate_processor_state m sch v).per_cpu p).heir ≠ v := by
  have hsv : sch ≠ v := fun e => hs (m.cpu v) (hv.trans e.symm)
  have hvp : ∀ p, (m.per_cpu p).heir = v → p = m.cpu v := fun p e =>
    hI4 p (m.cpu v) (hown p) (hown _) (e.trans hv.symm)
  by_cases hc : m.is_executing sch = true ∧
      _Scheduler_SMP_Is_processor_owned_by_us m (m.cpu sch) = true
  · by_cases hX : (m.per_cpu (m.cpu sch)).heir = v
    · have hcv : m.cpu sch = m.cpu v := hvp _ hX
      constructor
      · refine ⟨m.cpu sch, fun p => ?_⟩
        rw [Allocate_heir, if_pos hc, if_pos hX]
        by_cases hpc : p = m.cpu sch
        · simp [hpc]
        · simp [hpc, hs p]
      · intro p
        rw [Allocate_heir, if_pos hc, if_pos hX]
        by_cases hpc : p = m.cpu sch
        · rw [if_pos hpc]; exact hsv
        · rw [if_neg hpc]
          exact fun e => hpc ((hvp p e).trans hcv.symm)
    · have hcv : m.cpu v ≠ m.cpu sch := fun e => hX (by rw [← e]; exact hv)
      constructor
      · refine ⟨m.cpu sch, fun p => ?_⟩
        rw [Allocate_heir, if_pos hc, if_neg hX]
        by_cases hpv : p = m.cpu v
        · rw [if_pos hpv]
          constructor
          · intro e
            exact absurd e (hs _)
          · intro e
            exact absurd (hpv.symm.trans e) hcv
        · rw [if_neg hpv]
          by_cases hpc : p = m.cpu sch
          · simp [hpc]
          · simp [hpc, hs p]
      · intro p
        rw [Allocate_heir, if_pos hc, if_neg hX]
        by_cases hpv : p = m.cpu v
        · rw [if_pos hpv]; exact hX
        · rw [if_neg hpv]
          by_cases hpc : p = m.cpu sch
          · rw [if_pos hpc]; exact hsv
          · rw [if_neg hpc]
            exact fun e => hpv (hvp p e)
  · constructor
    · refine ⟨m.cpu v, fun p => ?_⟩
      rw [Allocate_heir, if_neg hc, if_neg hsv]
      by_cases hpv : p = m.cpu v
      · simp [hpv]
      · simp [hpv, hs p]
    · intro p
      rw [Allocate_heir, if_neg hc, if_neg hsv]
      by_cases hpv : p = m.cpu v
      · rw [if_pos hpv]; exact hsv
      · rw [if_neg hpv]
        exact fun e => hpv (hvp p e)

/-- The assertions of the processor allocation read the interrupt level, the
processor records and the thread fields only. -/
theorem Allocate_assertions_congr (dbg : Bool) (s s2 : State Thread Cpu) (t : Thread)
    (h1 : s2.isr_level = s.isr_level) (h2 : s2.is_executing = s.is_executing)
    (h3 : s2.cpu = s.cpu) (h4 : s2.per_cpu = s.per_cpu)
    (h5 : s2.debug_real_cpu = s.debug_real_cpu) (h6 : s2.Base = s.Base) :
    Allocate_assertions dbg s2 t ↔ Allocate_assertions dbg s t := by
  simp [Allocate_assertions, _Scheduler_SMP_Is_processor_owned_by_us, h1, h2, h3, h4,
    h5, h6]

/-! ## The operations return -/

theorem Enqueue_returns {P : Plugins Thread Cpu} (C : Ready_set_contract P)
    (dbg : Bool) (s : State Thread Cpu) (t : Thread)
    (hI2 : Placement_invariant s)
    (hst : s.state t = SCHEDULER_SMP_NODE_BLOCKED ∨
      s.state t = SCHEDULER_SMP_NODE_IN_THE_AIR)
    (ha : ∀ x, Allocate_assertions dbg s x) :
    ∃ s2, _Scheduler_SMP_Enqueue_ordered dbg P s t = .ok s2 := by
  by_cases hair : s.state t = SCHEDULER_SMP_NODE_IN_THE_AIR
  · have hsch : (∀ H, P.get_highest_ready s = some H → P.order t H = true) →
        ∃ s2, _Scheduler_SMP_Enqueue_ordered dbg P s t = .ok s2 := by
      intro hH
      obtain ⟨S, _, h3⟩ := Enqueue_air_scheduled_result C dbg s t hair hH
      exact ⟨_, h3⟩
    cases hg : P.get_highest_ready s with
    | none => exact hsch (fun H hH => by rw [hg] at hH; cases hH)
    | some H =>
      cases ho : P.order t H with
      | true => exact hsch (fun H2 hH2 => by rw [hg] at hH2; cases hH2; exact ho)
      | false =>
        have hHst := (Placement_ready hI2 H).1 (C.get_highest_ready_mem s H hg)
        exact Enqueue_air_ready_returns dbg P s t H hair hg ho
          (fun _ => by rw [hHst]; rfl) (ha H)
  · have hb : s.state t = SCHEDULER_SMP_NODE_BLOCKED := by
      rcases hst with h | h
      · exact h
      · exact absurd h hair
    have hrdy : (∀ L, s.Scheduled.getLast? = some L → P.order t L = false) →
        ∃ s2, _Scheduler_SMP_Enqueue_ordered dbg P s t = .ok s2 := fun hL =>
      Enqueue_ready_returns dbg P s t hair hL (fun _ => by rw [hb]; rfl)
    cases hg : s.Scheduled.getLast? with
    | none => exact hrdy (fun L hL => by rw [hg] at hL; cases hL)
    | some L =>
      cases ho : P.order t L with
      | false => exact hrdy (fun L2 hL2 => by rw [hg] at hL2; cases hL2; exact ho)
      | true =>
        have hLst := (Placement_scheduled hI2 L).1 (List.mem_of_getLast?_eq_some hg)
        exact Enqueue_displace_returns dbg P s t L hair hg ho
          (fun _ => by rw [hLst]; rfl) (fun _ => by rw [hb]; rfl) (ha t)

theorem Schedule_returns {P : Plugins Thread Cpu} (C : Ready_set_contract P)
    (dbg : Bool) (s : State Thread Cpu) (t : Thread)
    (hI2 : Placement_invariant s)
    (hR : s.state t = SCHEDULER_SMP_NODE_IN_THE_AIR → s.Ready ≠ [])
    (ha : ∀ x, Allocate_assertions dbg s x) :
    ∃ s2, _Scheduler_SMP_Schedule dbg P s t = .ok s2 := by
  by_cases hair : s.state t = SCHEDULER_SMP_NODE_IN_THE_AIR
  · cases hg : P.get_highest_ready s with
    | none => exact absurd ((C.get_highest_ready_none s).1 hg) (hR hair)
    | some H =>
      have hHst := (Placement_ready hI2 H).1 (C.get_highest_ready_mem s H hg)
      exact Schedule_air_returns C dbg s t H hair hg (fun _ => by rw [hHst]; rfl) (ha H)
  · exact ⟨s, Schedule_other dbg P s t hair⟩

theorem Block_returns {P : Plugins Thread Cpu} (C : Ready_set_contract P)
    (dbg : Bool) (s : State Thread Cpu) (t : Thread)
    (hI2 : Placement_invariant s)
    (hR : s.state t = SCHEDULER_SMP_NODE_SCHEDULED ∨
      s.state t = SCHEDULER_SMP_NODE_IN_THE_AIR → s.Ready ≠ [])
    (ha : ∀ x, Allocate_assertions dbg s x) :
    ∃ s2, _Scheduler_SMP_Block dbg P s t = .ok s2 := by
  have hI2e := Placement_extract C s t hI2
  obtain ⟨S, R, hS, hRp, he⟩ := Extract_result C s t
  rw [Block_eq]
  apply Schedule_returns C dbg _ t hI2e
  · rw [he]
    intro hair hnil
    have hRnil : R = [] := hnil
    have hair2 : Extract_state (s.state t) = SCHEDULER_SMP_NODE_IN_THE_AIR := by
      simpa [With_sets, Extracted] using hair
    have hst : s.state t = SCHEDULER_SMP_NODE_SCHEDULED ∨
        s.state t = SCHEDULER_SMP_NODE_IN_THE_AIR := by
      cases h : s.state t <;> simp [h, Extract_state] at hair2 ⊢
    have htR0 : t ∉ s.Ready := fun hm => by
      rw [(Placement_ready hI2 t).1 hm] at hst; rcases hst with h | h <;> cases h
    rw [List.erase_of_not_mem htR0, hRnil] at hRp
    exact hR hst (List.Perm.nil_eq hRp).symm
  · intro x
    rw [he]
    exact (Allocate_assertions_congr dbg s _ x rfl rfl rfl rfl rfl rfl).2 (ha x)

/-! ## The trace of effects -/

theorem Update_heir_trace (s : State Thread Cpu) (cself c : Cpu) (h : Thread) :
    (_Scheduler_SMP_Update_heir s cself c h).trace =
      s.trace ++ Update_heir_events (s.per_cpu c).dispatch_necessary cself c h := by
  unfold _Scheduler_SMP_Update_heir Update_heir_events
  simp only [Function.update_same]
  cases hd : (s.per_cpu c).dispatch_necessary <;> by_cases hc : c = cself <;>
    simp [hd, hc]

theorem Allocate_state_trace (m : State Thread Cpu) (sch v : Thread) :
    (Allocate_processor_state m sch v).trace = m.trace ++ Allocate_events m sch v := by
  unfold Allocate_processor_state Allocate_processor_victim Allocate_events
  by_cases hc : m.is_executing sch = true ∧
      _Scheduler_SMP_Is_processor_owned_by_us m (m.cpu sch) = true
  · rw [if_pos hc, if_pos hc]
    by_cases hX : (m.per_cpu (m.cpu sch)).heir = v
    · simp [hX, Update_heir_trace, Node_state_changed]
    · by_cases hcv : m.cpu v = m.cpu sch
      · simp [hX, hcv, Update_heir_trace, Update_heir_per_cpu, Update_heir_frame,
          Node_state_changed, _Thread_Set_CPU, Heir_record]
      · simp [hX, hcv, Update_heir_trace, Update_heir_per_cpu, Update_heir_frame,
          Node_state_changed, _Thread_Set_CPU, Heir_record,
          Function.update_noteq hcv]
  · rw [if_neg hc, if_neg hc]
    by_cases hsv : sch = v
    · simp [hsv, Node_state_changed]
    · simp [hsv, Update_heir_trace, Node_state_changed, _Thread_Set_CPU]

theorem node_change_mem_Update_heir_events (dn : Bool) (cself c : Cpu) (h x : Thread)
    (o n : Scheduler_SMP_Node_state) :
    Event.node_change_state x o n ∉ Update_heir_events dn cself c h := by
  unfold Update_heir_events
  cases dn <;> by_cases hc : c = cself <;> simp [hc]

theorem node_store_mem_Update_heir_events (dn : Bool) (cself c : Cpu) (h x : Thread)
    (n : Scheduler_SMP_Node_state) :
    Event.node_store_state x n ∉ Update_heir_events dn cself c h := by
  unfold Update_heir_events
  cases dn <;> by_cases hc : c = cself <;> simp [hc]

/-- The only node-state change of the processor allocation is the one of the
thread that gets the processor. -/
theorem node_change_mem_Allocate_events (m : State Thread Cpu) (sch v x : Thread)
    (o n : Scheduler_SMP_Node_state) :
    Event.node_change_state x o n ∈ Allocate_events m sch v ↔
      x = sch ∧ o = m.state sch ∧ n = SCHEDULER_SMP_NODE_SCHEDULED := by
  unfold Allocate_events
  split_ifs <;> simp [node_change_mem_Update_heir_events]

theorem node_store_mem_Allocate_events (m : State Thread Cpu) (sch v x : Thread)
    (n : Scheduler_SMP_Node_state) :
    Event.node_store_state x n ∉ Allocate_events m sch v := by
  unfold Allocate_events
  split_ifs <;> simp [node_store_mem_Update_heir_events]

/-- The trace after `_Scheduler_SMP_Enqueue_ordered`. -/
theorem Enqueue_trace {P : Plugins Thread Cpu} (C : Ready_set_contract P)
    (dbg : Bool) (s s2 : State Thread Cpu) (t : Thread)
    (h : _Scheduler_SMP_Enqueue_ordered dbg P s t = .ok s2) :
    s2.trace = s.trace ++ Enqueue_events P s t := by
  by_cases hair : s.state t = SCHEDULER_SMP_NODE_IN_THE_AIR
  · have hsch : (∀ H, P.get_highest_ready s = some H → P.order t H = true) →
        s2.trace = s.trace ++
          [Event.call_get_highest_ready,
            Event.node_change_state t (s.state t) SCHEDULER_SMP_NODE_SCHEDULED,
            Event.call_insert_scheduled t] := by
      intro hH
      obtain ⟨S, _, h3⟩ := Enqueue_air_scheduled_result C dbg s t hair hH
      rw [h] at h3
      cases h3
      simp [With_sets, Node_state_changed, State.emit]
    cases hg : P.get_highest_ready s with
    | none =>
      rw [hsch (fun H hH => by rw [hg] at hH; cases hH)]
      simp [Enqueue_events, hair, hg, Option.filter]
    | some H =>
      cases ho : P.order t H with
      | true =>
        rw [hsch (fun H2 hH2 => by rw [hg] at hH2; cases hH2; exact ho)]
        simp [Enqueue_events, hair, hg, Option.filter, ho]
      | false =>
        obtain ⟨S, R, _, _, rfl⟩ := Enqueue_air_ready_result C dbg s s2 t H hair hg ho h
        simp [Enqueue_events, hair, hg, Option.filter, ho, With_sets,
          Allocate_state_trace, Node_state_changed, State.emit]
  · have hrdy : (∀ L, s.Scheduled.getLast? = some L → P.order t L = false) →
        s2.trace = s.trace ++
          [Event.node_change_state t (s.state t) SCHEDULER_SMP_NODE_READY,
            Event.call_insert_ready t] := by
      intro hL
      obtain ⟨R, _, rfl⟩ := Enqueue_ready_result C dbg s s2 t hair hL h
      simp [With_sets, Node_state_changed]
    cases hg : s.Scheduled.getLast? with
    | none =>
      rw [hrdy (fun L hL => by rw [hg] at hL; cases hL)]
      simp [Enqueue_events, hair, hg, Option.filter,
        _Scheduler_SMP_Get_lowest_scheduled]
    | some L =>
      cases ho : P.order t L with
      | false =>
        rw [hrdy (fun L2 hL2 => by rw [hg] at hL2; cases hL2; exact ho)]
        simp [Enqueue_events, hair, hg, Option.filter, ho,
          _Scheduler_SMP_Get_lowest_scheduled]
      | true =>
        obtain ⟨S, R, _, _, rfl⟩ := Enqueue_displace_result C dbg s s2 t L hair hg ho h
        simp [Enqueue_events, hair, hg, Option.filter, ho, With_sets,
          Allocate_state_trace, Node_state_changed,
          _Scheduler_SMP_Get_lowest_scheduled]

/-- The trace after `_Scheduler_SMP_Schedule`. -/
theorem Schedule_trace {P : Plugins Thread Cpu} (C : Ready_set_contract P)
    (dbg : Bool) (s s2 : State Thread Cpu) (t : Thread)
    (h : _Scheduler_SMP_Schedule dbg P s t = .ok s2) :
    s2.trace = s.trace ++ Schedule_events P s t := by
  by_cases hair : s.state t = SCHEDULER_SMP_NODE_IN_THE_AIR
  · cases hg : P.get_highest_ready s with
    | none =>
      rw [Schedule_air_null C dbg s t hair hg] at h
      cases h
    | some H =>
      obtain ⟨S, R, _, _, rfl⟩ := Schedule_air_result C dbg s s2 t H hair hg h
      have hg2 : P.get_highest_ready
          (Node_state_changed s t SCHEDULER_SMP_NODE_BLOCKED) = some H := by
        rw [get_highest_ready_changed C]; exact hg
      unfold Schedule_events
      rw [if_pos hair, hg2]
      simp [With_sets, Allocate_state_trace, Node_state_changed, State.emit, hair]
  · rw [Schedule_other dbg P s t hair] at h
    cases h
    simp [Schedule_events, hair]

/-- The trace after `_Scheduler_SMP_Extract`. -/
theorem Extract_trace {P : Plugins Thread Cpu} (C : Ready_set_contract P)
    (s : State Thread Cpu) (t : Thread) :
    (_Scheduler_SMP_Extract P s t).trace = s.trace ++ [Event.call_extract t] := by
  obtain ⟨S, R, _, _, he⟩ := Extract_result C s t
  rw [he]
  rfl

/-! ## The order of the effects -/

theorem split_append {α : Type} {es1 es2 pre post : List α} {d : α}
    (h : es1 ++ es2 = pre ++ d :: post) :
    (∃ post1, es1 = pre ++ d :: post1) ∨
      ∃ pre2, pre = es1 ++ pre2 ∧ es2 = pre2 ++ d :: post := by
  rcases List.append_eq_append_iff.1 h with ⟨a, h1, h2⟩ | ⟨c, h1, h2⟩
  · exact Or.inr ⟨a, h1, h2⟩
  · cases c with
    | nil =>
      refine Or.inr ⟨[], ?_, ?_⟩
      · simpa using h1.symm
      · simpa using h2.symm
    | cons x c =>
      simp only [List.cons_append, List.cons.injEq] at h2
      obtain ⟨rfl, _⟩ := h2
      exact Or.inl ⟨c, h1⟩

theorem Heir_before_dispatch_append {es1 es2 : List (Event Thread Cpu)}
    (h1 : Heir_before_dispatch es1) (h2 : Heir_before_dispatch es2) :
    Heir_before_dispatch (es1 ++ es2) := by
  constructor
  · intro pre post p h
    rcases split_append h with ⟨post1, e⟩ | ⟨pre2, e1, e2⟩
    · exact h1.1 pre post1 p e
    · obtain ⟨q, x, hq⟩ := h2.1 pre2 post p e2
      exact ⟨es1 ++ q, x, by rw [e1, hq, List.append_assoc]⟩
  · intro pre post p h
    rcases split_append h with ⟨post1, e⟩ | ⟨pre2, e1, e2⟩
    · exact h1.2 pre post1 p e
    · obtain ⟨q, hq⟩ := h2.2 pre2 post p e2
      exact ⟨es1 ++ q, by rw [e1, hq, List.append_assoc]⟩

/-- A sequence with no store to a dispatch necessary indicator and no
interrupt. -/
theorem Heir_before_dispatch_quiet {es : List (Event Thread Cpu)}
    (h : ∀ p, Event.store_dispatch_necessary p ∉ es ∧ Event.send_interrupt p ∉ es) :
    Heir_before_dispatch es := by
  constructor
  · intro pre post p e
    exact absurd (by rw [e]; simp) (h p).1
  · intro pre post p e
    exact absurd (by rw [e]; simp) (h p).2

theorem Heir_before_dispatch_Update_heir_events (dn : Bool) (cself c : Cpu)
    (h : Thread) :
    Heir_before_dispatch (Update_heir_events dn cself c h : List (Event Thread Cpu)) := by
  unfold Update_heir_events
  cases dn
  · by_cases hc : c = cself
    · simp only [hc, Bool.false_eq_true, if_false, if_true, List.cons_append,
        List.nil_append]
      constructor
      · intro pre post p e
        rcases pre with _ | ⟨a, _ | ⟨b, _ | ⟨d, pre⟩⟩⟩ <;> simp at e
        obtain ⟨rfl, rfl, rfl, _⟩ := e
        exact ⟨[], h, rfl⟩
      · intro pre post p e
        rcases pre with _ | ⟨a, _ | ⟨b, _ | ⟨d, pre⟩⟩⟩ <;> simp at e
    · simp only [hc, Bool.false_eq_true, if_false, List.cons_append,
        List.nil_append]
      constructor
      · intro pre post p e
        rcases pre with _ | ⟨a, _ | ⟨b, _ | ⟨d, _ | ⟨d2, pre⟩⟩⟩⟩ <;> simp at e
        obtain ⟨rfl, rfl, rfl, _⟩ := e
        exact ⟨[], h, rfl⟩
      · intro pre post p e
        rcases pre with _ | ⟨a, _ | ⟨b, _ | ⟨d, _ | ⟨d2, pre⟩⟩⟩⟩ <;> simp at e
        obtain ⟨rfl, rfl, rfl, rfl, _⟩ := e
        exact ⟨[Event.store_heir c h, Event.atomic_fence], rfl⟩
  · apply Heir_before_dispatch_quiet
    intro p
    simp

theorem Heir_before_dispatch_cons {e : Event Thread Cpu}
    {es : List (Event Thread Cpu)}
    (he : ∀ p, e ≠ Event.store_dispatch_necessary p ∧ e ≠ Event.send_interrupt p)
    (h : Heir_before_dispatch es) : Heir_before_dispatch (e :: es) := by
  have : Heir_before_dispatch [e] := by
    apply Heir_before_dispatch_quiet
    intro p
    simp only [List.mem_singleton]
    exact ⟨fun x => (he p).1 x.symm, fun x => (he p).2 x.symm⟩
  exact Heir_before_dispatch_append this h

theorem Heir_before_dispatch_nil :
    Heir_before_dispatch ([] : List (Event Thread Cpu)) :=
  Heir_before_dispatch_quiet (fun _ => by simp)

theorem Heir_before_dispatch_Allocate_events (m : State Thread Cpu) (sch v : Thread) :
    Heir_before_dispatch (Allocate_events m sch v) := by
  unfold Allocate_events
  apply Heir_before_dispatch_cons (fun p => ⟨by simp, by simp⟩)
  by_cases hc : m.is_executing sch = true ∧
      _Scheduler_SMP_Is_processor_owned_by_us m (m.cpu sch) = true
  · rw [if_pos hc]
    by_cases hX : (m.per_cpu (m.cpu sch)).heir = v
    · rw [if_pos hX]
      exact Heir_before_dispatch_append
        (Heir_before_dispatch_Update_heir_events _ _ _ _) Heir_before_dispatch_nil
    · rw [if_neg hX]
      exact Heir_before_dispatch_append
        (Heir_before_dispatch_Update_heir_events _ _ _ _)
        (Heir_before_dispatch_cons (fun p => ⟨by simp, by simp⟩)
          (Heir_before_dispatch_Update_heir_events _ _ _ _))
  · rw [if_neg hc]
    by_cases hsv : sch = v
    · rw [if_pos hsv]
      exact Heir_before_dispatch_nil
    · rw [if_neg hsv]
      exact Heir_before_dispatch_cons (fun p => ⟨by simp, by simp⟩)
        (Heir_before_dispatch_Update_heir_events _ _ _ _)

theorem Heir_before_dispatch_Enqueue_events (P : Plugins Thread Cpu)
    (s : State Thread Cpu) (t : Thread) :
    Heir_before_dispatch (Enqueue_events P s t) := by
  unfold Enqueue_events
  split_ifs
  · split
    · exact Heir_before_dispatch_append
        (Heir_before_dispatch_append
          (Heir_before_dispatch_quiet (fun p => by simp))
          (Heir_before_dispatch_Allocate_events _ _ _))
        (Heir_before_dispatch_quiet (fun p => by simp))
    · exact Heir_before_dispatch_quiet (fun p => by simp)
  · split
    · exact Heir_before_dispatch_append
        (Heir_before_dispatch_append
          (Heir_before_dispatch_quiet (fun p => by simp))
          (Heir_before_dispatch_Allocate_events _ _ _))
        (Heir_before_dispatch_quiet (fun p => by simp))
    · exact Heir_before_dispatch_quiet (fun p => by simp)

theorem Heir_before_dispatch_Schedule_events (P : Plugins Thread Cpu)
    (s : State Thread Cpu) (t : Thread) :
    Heir_before_dispatch (Schedule_events P s t) := by
  unfold Schedule_events
  split_ifs
  · split
    · exact Heir_before_dispatch_append
        (Heir_before_dispatch_append
          (Heir_before_dispatch_quiet (fun p => by simp))
          (Heir_before_dispatch_Allocate_events _ _ _))
        (Heir_before_dispatch_quiet (fun p => by simp))
    · exact Heir_before_dispatch_nil
  · exact Heir_before_dispatch_nil

/-! ## The inter-processor interrupts -/

theorem Interrupts_append (a b : List (Event Thread Cpu)) :
    Interrupts (a ++ b) = Interrupts a ++ Interrupts b := by
  induction a with
  | nil => rfl
  | cons e a ih => cases e <;> simp [Interrupts, ih]

theorem Interrupts_Update_heir_events (dn : Bool) (cself c : Cpu) (h : Thread) :
    Interrupts (Update_heir_events dn cself c h : List (Event Thread Cpu)) =
      if dn = false ∧ c ≠ cself then [c] else [] := by
  unfold Update_heir_events
  cases dn <;> by_cases hc : c = cself <;> simp [hc, Interrupts]

theorem Interrupts_cons_node_change (x : Thread) (o n : Scheduler_SMP_Node_state)
    (es : List (Event Thread Cpu)) :
    Interrupts (Event.node_change_state x o n :: es) = Interrupts es := rfl

theorem Interrupts_cons_thread_set_cpu (x : Thread) (c : Cpu)
    (es : List (Event Thread Cpu)) :
    Interrupts (Event.thread_set_cpu x c :: es) = Interrupts es := rfl

theorem Interrupts_nil : Interrupts ([] : List (Event Thread Cpu)) = [] := rfl

theorem Interrupt_bound_Allocate_events (m : State Thread Cpu) (sch v : Thread) :
    Interrupt_bound m (Allocate_events m sch v) := by
  unfold Interrupt_bound Allocate_events
  rw [Interrupts_cons_node_change]
  by_cases hc : m.is_executing sch = true ∧
      _Scheduler_SMP_Is_processor_owned_by_us m (m.cpu sch) = true
  · rw [if_pos hc]
    by_cases hX : (m.per_cpu (m.cpu sch)).heir = v
    · rw [if_pos hX, Interrupts_append, Interrupts_Update_heir_events, Interrupts_nil]
      by_cases h1 : (m.per_cpu (m.cpu sch)).dispatch_necessary = false ∧
          m.cpu sch ≠ m.cpu_self
      · rw [if_pos h1]
        simp [h1.1, Ne.symm h1.2]
      · rw [if_neg h1]
        simp
    · rw [if_neg hX, Interrupts_append, Interrupts_Update_heir_events,
        Interrupts_cons_thread_set_cpu, Interrupts_Update_heir_events]
      by_cases h1 : (m.per_cpu (m.cpu sch)).dispatch_necessary = false ∧
          m.cpu sch ≠ m.cpu_self
      · rw [if_pos h1]
        by_cases h2 : (if m.cpu v = m.cpu sch then true
            else (m.per_cpu (m.cpu v)).dispatch_necessary) = false ∧
            m.cpu v ≠ m.cpu_self
        · rw [if_pos h2]
          have hcv : m.cpu v ≠ m.cpu sch := by
            intro e
            have := h2.1
            rw [if_pos e] at this
            cases this
          have hd := h2.1
          rw [if_neg hcv] at hd
          simp [h1.1, Ne.symm h1.2, hd, Ne.symm h2.2, Ne.symm hcv]
        · rw [if_neg h2]
          simp [h1.1, Ne.symm h1.2]
      · rw [if_neg h1]
        by_cases h2 : (if m.cpu v = m.cpu sch then true
            else (m.per_cpu (m.cpu v)).dispatch_necessary) = false ∧
            m.cpu v ≠ m.cpu_self
        · rw [if_pos h2]
          have hcv : m.cpu v ≠ m.cpu sch := by
            intro e
            have := h2.1
            rw [if_pos e] at this
            cases this
          have hd := h2.1
          rw [if_neg hcv] at hd
          simp [hd, Ne.symm h2.2]
        · rw [if_neg h2]
          simp
  · rw [if_neg hc]
    by_cases hsv : sch = v
    · rw [if_pos hsv, Interrupts_nil]
      simp
    · rw [if_neg hsv, Interrupts_cons_thread_set_cpu, Interrupts_Update_heir_events]
      by_cases h1 : (m.per_cpu (m.cpu v)).dispatch_necessary = false ∧
          m.cpu v ≠ m.cpu_self
      · rw [if_pos h1]
        simp [h1.1, Ne.symm h1.2]
      · rw [if_neg h1]
        simp

theorem Interrupt_bound_nil (s : State Thread Cpu) :
    Interrupt_bound s ([] : List (Event Thread Cpu)) := by
  simp [Interrupt_bound, Interrupts]

theorem Interrupt_bound_Enqueue_events (P : Plugins Thread Cpu)
    (s : State Thread Cpu) (t : Thread) :
    Interrupt_bound s (Enqueue_events P s t) := by
  unfold Enqueue_events
  split_ifs
  · split
    · have h := Interrupt_bound_Allocate_events
        (Node_state_changed (s.emit Event.call_get_highest_ready) t
          SCHEDULER_SMP_NODE_READY) ‹Thread› t
      simpa [Interrupt_bound, Interrupts, Interrupts_append] using h
    · simp [Interrupt_bound, Interrupts]
  · split
    · have h := Interrupt_bound_Allocate_events
        (Node_state_changed s ‹Thread› SCHEDULER_SMP_NODE_READY) t ‹Thread›
      simpa [Interrupt_bound, Interrupts, Interrupts_append] using h
    · simp [Interrupt_bound, Interrupts]

theorem Interrupt_bound_Schedule_events (P : Plugins Thread Cpu)
    (s : State Thread Cpu) (t : Thread) :
    Interrupt_bound s (Schedule_events P s t) := by
  unfold Schedule_events
  split_ifs
  · split
    · have h := Interrupt_bound_Allocate_events
        ((Node_state_changed s t SCHEDULER_SMP_NODE_BLOCKED).emit
          Event.call_get_highest_ready) ‹Thread› t
      simpa [Interrupt_bound, Interrupts, Interrupts_append] using h
    · exact Interrupt_bound_nil s
  · exact Interrupt_bound_nil s

/-! ## The node-state changes of the operations -/

/-- Under I2 every node-state change of an enqueue of a BLOCKED or IN_THE_AIR
thread is in the table of permitted transitions. -/
theorem Enqueue_events_valid {P : Plugins Thread Cpu} (C : Ready_set_contract P)
    (s : State Thread Cpu) (t : Thread) (hI2 : Placement_invariant s)
    (hst : s.state t = SCHEDULER_SMP_NODE_BLOCKED ∨
      s.state t = SCHEDULER_SMP_NODE_IN_THE_AIR)
    (x : Thread) (o n : Scheduler_SMP_Node_state)
    (hmem : Event.node_change_state x o n ∈ Enqueue_events P s t) :
    _Scheduler_SMP_Node_valid_state_changes o n = true := by
  by_cases hair : s.state t = SCHEDULER_SMP_NODE_IN_THE_AIR
  · have hsch : Event.node_change_state x o n ∈
          ([Event.call_get_highest_ready,
            Event.node_change_state t (s.state t) SCHEDULER_SMP_NODE_SCHEDULED,
            Event.call_insert_scheduled t] : List (Event Thread Cpu)) →
        _Scheduler_SMP_Node_valid_state_changes o n = true := by
      intro h
      simp only [List.mem_cons, List.mem_singleton, Event.node_change_state.injEq,
        reduceCtorEq, false_or, or_false, List.not_mem_nil] at h
      obtain ⟨_, rfl, rfl⟩ := h
      rw [hair]; rfl
    cases hg : P.get_highest_ready s with
    | none =>
      apply hsch
      simpa [Enqueue_events, hair, hg, Option.filter] using hmem
    | some H =>
      cases ho : P.order t H with
      | true =>
        apply hsch
        simpa [Enqueue_events, hair, hg, Option.filter, ho] using hmem
      | false =>
        have hHst := (Placement_ready hI2 H).1 (C.get_highest_ready_mem s H hg)
        have hHt : H ≠ t := fun e => by rw [e, hair] at hHst; cases hHst
        have e : Enqueue_events P s t =
            [Event.call_get_highest_ready,
              Event.node_change_state t (s.state t) SCHEDULER_SMP_NODE_READY] ++
            Allocate_events
              (Node_state_changed (s.emit Event.call_get_highest_ready) t
                SCHEDULER_SMP_NODE_READY) H t ++
            [Event.call_insert_ready t, Event.call_move_from_ready_to_scheduled H] := by
          simp [Enqueue_events, hair, hg, Option.filter, ho]
        rw [e] at hmem
        simp only [List.mem_append, List.mem_cons, List.mem_singleton,
          Event.node_change_state.injEq, reduceCtorEq, false_or, or_false,
          List.not_mem_nil, node_change_mem_Allocate_events] at hmem
        rcases hmem with ⟨_, rfl, rfl⟩ | ⟨_, rfl, rfl⟩
        · rw [hair]; rfl
        · simp [Node_state_changed, State.emit, Function.update_noteq hHt, hHst]
          rfl
  · have hb : s.state t = SCHEDULER_SMP_NODE_BLOCKED := by
      rcases hst with h | h
      · exact h
      · exact absurd h hair
    have hrdy : Event.node_change_state x o n ∈
          ([Event.node_change_state t (s.state t) SCHEDULER_SMP_NODE_READY,
            Event.call_insert_ready t] : List (Event Thread Cpu)) →
        _Scheduler_SMP_Node_valid_state_changes o n = true := by
      intro h
      simp only [List.mem_cons, List.mem_singleton, Event.node_change_state.injEq,
        reduceCtorEq, false_or, or_false, List.not_mem_nil] at h
      obtain ⟨_, rfl, rfl⟩ := h
      rw [hb]; rfl
    cases hg : s.Scheduled.getLast? with
    | none =>
      apply hrdy
      simpa [Enqueue_events, hair, hg, Option.filter,
        _Scheduler_SMP_Get_lowest_scheduled] using hmem
    | some L =>
      cases ho : P.order t L with
      | false =>
        apply hrdy
        simpa [Enqueue_events, hair, hg, Option.filter, ho,
          _Scheduler_SMP_Get_lowest_scheduled] using hmem
      | true =>
        have hLst := (Placement_scheduled hI2 L).1 (List.mem_of_getLast?_eq_some hg)
        have htL : t ≠ L := fun e => by rw [e, hLst] at hb; cases hb
        have e : Enqueue_events P s t =
            [Event.node_change_state L (s.state L) SCHEDULER_SMP_NODE_READY] ++
            Allocate_events (Node_state_changed s L SCHEDULER_SMP_NODE_READY) t L ++
            [Event.call_insert_scheduled t,
              Event.call_move_from_scheduled_to_ready L] := by
          simp [Enqueue_events, hair, hg, Option.filter, ho,
            _Scheduler_SMP_Get_lowest_scheduled]
        rw [e] at hmem
        simp only [List.mem_append, List.mem_cons, List.mem_singleton,
          Event.node_change_state.injEq, reduceCtorEq, false_or, or_false,
          List.not_mem_nil, node_change_mem_Allocate_events] at hmem
        rcases hmem with ⟨_, rfl, rfl⟩ | ⟨_, rfl, rfl⟩
        · rw [hLst]; rfl
        · simp [Node_state_changed, Function.update_noteq htL, hb]
          rfl

theorem Replay_changes_append (a b : List (Event Thread Cpu))
    (st : Thread → Scheduler_SMP_Node_state) :
    Replay_changes (a ++ b) st = (Replay_changes a st).bind (Replay_changes b) := by
  induction a generalizing st with
  | nil => rfl
  | cons e a ih =>
    rw [List.cons_append]
    cases e <;> simp only [Replay_changes, ih]
    split_ifs <;> rfl

/-- Effects without a node-state change leave the node states alone. -/
theorem Replay_changes_quiet (es : List (Event Thread Cpu))
    (st : Thread → Scheduler_SMP_Node_state)
    (h : ∀ x o n, Event.node_change_state x o n ∉ es) :
    Replay_changes es st = some st := by
  induction es with
  | nil => rfl
  | cons e es ih =>
    have ih2 := ih (fun x o n hm => h x o n (List.mem_cons_of_mem _ hm))
    cases e <;> simp only [Replay_changes, ih2]
    exact absurd (List.mem_cons_self _ _) (h _ _ _)

theorem Replay_changes_cons (x : Thread) (o n : Scheduler_SMP_Node_state)
    (es : List (Event Thread Cpu)) (st : Thread → Scheduler_SMP_Node_state)
    (h : st x = o) :
    Replay_changes (Event.node_change_state x o n :: es) st =
      Replay_changes es (Function.update st x n) := by
  simp only [Replay_changes, if_pos h]

theorem Replay_changes_Allocate_events (m : State Thread Cpu) (sch v : Thread) :
    Replay_changes (Allocate_events m sch v) m.state =
      some (Function.update m.state sch SCHEDULER_SMP_NODE_SCHEDULED) := by
  unfold Allocate_events
  rw [Replay_changes_cons _ _ _ _ _ rfl]
  apply Replay_changes_quiet
  intro x o n
  split_ifs <;> simp [node_change_mem_Update_heir_events]

/-- The four branches of `_Scheduler_SMP_Enqueue_ordered` and their effects. -/
theorem Enqueue_events_cases (P : Plugins Thread Cpu) (s : State Thread Cpu)
    (t : Thread) :
    (s.state t = SCHEDULER_SMP_NODE_IN_THE_AIR ∧
      ∃ H, P.get_highest_ready s = some H ∧ P.order t H = false ∧
        Enqueue_events P s t =
          [Event.call_get_highest_ready,
            Event.node_change_state t (s.state t) SCHEDULER_SMP_NODE_READY] ++
          Allocate_events
            (Node_state_changed (s.emit Event.call_get_highest_ready) t
              SCHEDULER_SMP_NODE_READY) H t ++
          [Event.call_insert_ready t, Event.call_move_from_ready_to_scheduled H]) ∨
    (s.state t = SCHEDULER_SMP_NODE_IN_THE_AIR ∧
      (∀ H, P.get_highest_ready s = some H → P.order t H = true) ∧
      Enqueue_events P s t =
        [Event.call_get_highest_ready,
          Event.node_change_state t (s.state t) SCHEDULER_SMP_NODE_SCHEDULED,
          Event.call_insert_scheduled t]) ∨
    (s.state t ≠ SCHEDULER_SMP_NODE_IN_THE_AIR ∧
      ∃ L, s.Scheduled.getLast? = some L ∧ P.order t L = true ∧
        Enqueue_events P s t =
          [Event.node_change_state L (s.state L) SCHEDULER_SMP_NODE_READY] ++
          Allocate_events (Node_state_changed s L SCHEDULER_SMP_NODE_READY) t L ++
          [Event.call_insert_scheduled t,
            Event.call_move_from_scheduled_to_ready L]) ∨
    (s.state t ≠ SCHEDULER_SMP_NODE_IN_THE_AIR ∧
      (∀ L, s.Scheduled.getLast? = some L → P.order t L = false) ∧
      Enqueue_events P s t =
        [Event.node_change_state t (s.state t) SCHEDULER_SMP_NODE_READY,
          Event.call_insert_ready t]) := by
  by_cases hair : s.state t = SCHEDULER_SMP_NODE_IN_THE_AIR
  · cases hg : P.get_highest_ready s with
    | none =>
      refine Or.inr (Or.inl ⟨hair, fun H hH => (by cases hH), ?_⟩)
      simp [Enqueue_events, hair, hg, Option.filter]
    | some H =>
      cases ho : P.order t H with
      | true =>
        refine Or.inr (Or.inl ⟨hair, fun H2 hH2 => (by cases hH2; exact ho), ?_⟩)
        simp [Enqueue_events, hair, hg, Option.filter, ho]
      | false =>
        refine Or.inl ⟨hair, H, rfl, ho, ?_⟩
        simp [Enqueue_events, hair, hg, Option.filter, ho]
  · cases hg : s.Scheduled.getLast? with
    | none =>
      refine Or.inr (Or.inr (Or.inr ⟨hair, fun L hL => (by cases hL), ?_⟩))
      simp [Enqueue_events, hair, hg, Option.filter,
        _Scheduler_SMP_Get_lowest_scheduled]
    | some L =>
      cases ho : P.order t L with
      | false =>
        refine Or.inr (Or.inr (Or.inr
          ⟨hair, fun L2 hL2 => (by cases hL2; exact ho), ?_⟩))
        simp [Enqueue_events, hair, hg, Option.filter, ho,
          _Scheduler_SMP_Get_lowest_scheduled]
      | true =>
        refine Or.inr (Or.inr (Or.inl ⟨hair, L, rfl, ho, ?_⟩))
        simp [Enqueue_events, hair, hg, Option.filter, ho,
          _Scheduler_SMP_Get_lowest_scheduled]

/-- The effects of `_Scheduler_SMP_Schedule` when it does something. -/
theorem Schedule_events_air {P : Plugins Thread Cpu} (C : Ready_set_contract P)
    (s : State Thread Cpu) (t H : Thread)
    (hair : s.state t = SCHEDULER_SMP_NODE_IN_THE_AIR)
    (hg : P.get_highest_ready s = some H) :
    Schedule_events P s t =
      [Event.node_change_state t (s.state t) SCHEDULER_SMP_NODE_BLOCKED,
        Event.call_get_highest_ready] ++
      Allocate_events
        ((Node_state_changed s t SCHEDULER_SMP_NODE_BLOCKED).emit
          Event.call_get_highest_ready) H t ++
      [Event.call_move_from_ready_to_scheduled H] := by
  have hg2 : P.get_highest_ready
      (Node_state_changed s t SCHEDULER_SMP_NODE_BLOCKED) = some H := by
    rw [get_highest_ready_changed C]; exact hg
  unfold Schedule_events
  rw [if_pos hair, hg2]

theorem node_store_mem_Enqueue_events (P : Plugins Thread Cpu) (s : State Thread Cpu)
    (t x : Thread) (n : Scheduler_SMP_Node_state) :
    Event.node_store_state x n ∉ Enqueue_events P s t := by
  rcases Enqueue_events_cases P s t with ⟨_, H, _, _, e⟩ | ⟨_, _, e⟩ | ⟨_, L, _, _, e⟩ |
      ⟨_, _, e⟩ <;>
    rw [e] <;> simp [node_store_mem_Allocate_events]

theorem node_store_mem_Schedule_events (P : Plugins Thread Cpu) (s : State Thread Cpu)
    (t x : Thread) (n : Scheduler_SMP_Node_state) :
    Event.node_store_state x n ∉ Schedule_events P s t := by
  unfold Schedule_events
  split_ifs
  · split <;> simp [node_store_mem_Allocate_events]
  · simp

/-- The node states `_Scheduler_SMP_Enqueue_ordered` returns with are the old
ones with the logged node-state changes made. -/
theorem Enqueue_replay {P : Plugins Thread Cpu} (C : Ready_set_contract P)
    (dbg : Bool) (s s2 : State Thread Cpu) (t : Thread)
    (h : _Scheduler_SMP_Enqueue_ordered dbg P s t = .ok s2) :
    Replay_changes (Enqueue_events P s t) s.state = some s2.state := by
  rcases Enqueue_events_cases P s t with ⟨hair, H, hg, ho, e⟩ | ⟨hair, hH, e⟩ |
      ⟨hair, L, hg, ho, e⟩ | ⟨hair, hL, e⟩
  · obtain ⟨S, R, _, _, rfl⟩ := Enqueue_air_ready_result C dbg s s2 t H hair hg ho h
    have r1 : Replay_changes
        ([Event.call_get_highest_ready,
          Event.node_change_state t (s.state t) SCHEDULER_SMP_NODE_READY] :
          List (Event Thread Cpu)) s.state =
        some (Node_state_changed (s.emit Event.call_get_highest_ready) t
          SCHEDULER_SMP_NODE_READY).state := by
      simp [Replay_changes, Node_state_changed, State.emit]
    rw [e, Replay_changes_append, Replay_changes_append, r1, Option.some_bind,
      Replay_changes_Allocate_events, Option.some_bind,
      Replay_changes_quiet _ _ (by simp), ← (Allocate_state_frame _ H t).1]
    rfl
  · obtain ⟨S, _, h3⟩ := Enqueue_air_scheduled_result C dbg s t hair hH
    rw [h] at h3
    cases h3
    rw [e]
    simp [Replay_changes, With_sets, Node_state_changed, State.emit]
  · obtain ⟨S, R, _, _, rfl⟩ := Enqueue_displace_result C dbg s s2 t L hair hg ho h
    have r1 : Replay_changes
        ([Event.node_change_state L (s.state L) SCHEDULER_SMP_NODE_READY] :
          List (Event Thread Cpu)) s.state =
        some (Node_state_changed s L SCHEDULER_SMP_NODE_READY).state := by
      simp [Replay_changes, Node_state_changed]
    rw [e, Replay_changes_append, Replay_changes_append, r1, Option.some_bind,
      Replay_changes_Allocate_events, Option.some_bind,
      Replay_changes_quiet _ _ (by simp), ← (Allocate_state_frame _ t L).1]
    rfl
  · obtain ⟨R, _, rfl⟩ := Enqueue_ready_result C dbg s s2 t hair hL h
    rw [e]
    simp [Replay_changes, With_sets, Node_state_changed]

/-- The node states `_Scheduler_SMP_Schedule` returns with are the old ones
with the logged node-state changes made. -/
theorem Schedule_replay {P : Plugins Thread Cpu} (C : Ready_set_contract P)
    (dbg : Bool) (s s2 : State Thread Cpu) (t : Thread)
    (h : _Scheduler_SMP_Schedule dbg P s t = .ok s2) :
    Replay_changes (Schedule_events P s t) s.state = some s2.state := by
  by_cases hair : s.state t = SCHEDULER_SMP_NODE_IN_THE_AIR
  · cases hg : P.get_highest_ready s with
    | none =>
      rw [Schedule_air_null C dbg s t hair hg] at h
      cases h
    | some H =>
      obtain ⟨S, R, _, _, rfl⟩ := Schedule_air_result C dbg s s2 t H hair hg h
      have r1 : Replay_changes
          ([Event.node_change_state t (s.state t) SCHEDULER_SMP_NODE_BLOCKED,
            Event.call_get_highest_ready] : List (Event Thread Cpu)) s.state =
          some ((Node_state_changed s t SCHEDULER_SMP_NODE_BLOCKED).emit
            Event.call_get_highest_ready).state := by
        simp [Replay_changes, Node_state_changed, State.emit]
      rw [Schedule_events_air C s t H hair hg, Replay_changes_append,
        Replay_changes_append, r1, Option.some_bind, Replay_changes_Allocate_events,
        Option.some_bind, Replay_changes_quiet _ _ (by simp),
        ← (Allocate_state_frame _ H t).1]
      rfl
  · rw [Schedule_other dbg P s t hair] at h
    cases h
    simp [Schedule_events, hair, Replay_changes]

/-- In a build with `RTEMS_DEBUG` every node-state change of an enqueue that
returns passed the assertion of the guard. -/
theorem Enqueue_changes_asserted (P : Plugins Thread Cpu)
    (s s2 : State Thread Cpu) (t : Thread)
    (h : _Scheduler_SMP_Enqueue_ordered true P s t = .ok s2)
    (x : Thread) (o n : Scheduler_SMP_Node_state)
    (hmem : Event.node_change_state x o n ∈ Enqueue_events P s t) :
    _Scheduler_SMP_Node_valid_state_changes o n = true := by
  rcases Enqueue_events_cases P s t with ⟨hair, H, hg, ho, e⟩ | ⟨hair, hH, e⟩ |
      ⟨hair, L, hg, ho, e⟩ | ⟨hair, hL, e⟩
  · rw [Enqueue_air_ready_eq true P s t H hair hg ho, bind_ok] at h
    obtain ⟨s1, h1, h⟩ := h
    rw [bind_ok] at h
    obtain ⟨m, h2, _⟩ := h
    have v1 := (change_state_inv true _ s1 t _ h1).2 rfl
    obtain rfl := (change_state_inv true _ s1 t _ h1).1
    have v2 := (Allocate_debug _ m H t h2).2.1
    rw [e] at hmem
    simp only [List.mem_append, List.mem_cons, List.mem_singleton,
      Event.node_change_state.injEq, reduceCtorEq, false_or, or_false,
      List.not_mem_nil, node_change_mem_Allocate_events] at hmem
    rcases hmem with ⟨_, rfl, rfl⟩ | ⟨_, rfl, rfl⟩
    · exact v1
    · exact v2
  · rw [Enqueue_air_scheduled_eq true P s t hair hH, bind_ok] at h
    obtain ⟨s1, h1, _⟩ := h
    have v1 := (change_state_inv true _ s1 t _ h1).2 rfl
    rw [e] at hmem
    simp only [List.mem_cons, List.mem_singleton, Event.node_change_state.injEq,
      reduceCtorEq, false_or, or_false, List.not_mem_nil] at hmem
    obtain ⟨_, rfl, rfl⟩ := hmem
    exact v1
  · rw [Enqueue_displace_eq true P s t L hair hg ho, bind_ok] at h
    obtain ⟨s1, h1, h⟩ := h
    rw [bind_ok] at h
    obtain ⟨m, h2, _⟩ := h
    have v1 := (change_state_inv true _ s1 L _ h1).2 rfl
    obtain rfl := (change_state_inv true _ s1 L _ h1).1
    have v2 := (Allocate_debug _ m t L h2).2.1
    rw [e] at hmem
    simp only [List.mem_append, List.mem_cons, List.mem_singleton,
      Event.node_change_state.injEq, reduceCtorEq, false_or, or_false,
      List.not_mem_nil, node_change_mem_Allocate_events] at hmem
    rcases hmem with ⟨_, rfl, rfl⟩ | ⟨_, rfl, rfl⟩
    · exact v1
    · exact v2
  · rw [Enqueue_ready_eq true P s t hair hL, bind_ok] at h
    obtain ⟨s1, h1, _⟩ := h
    have v1 := (change_state_inv true _ s1 t _ h1).2 rfl
    rw [e] at hmem
    simp only [List.mem_cons, List.mem_singleton, Event.node_change_state.injEq,
      reduceCtorEq, false_or, or_false, List.not_mem_nil] at hmem
    obtain ⟨_, rfl, rfl⟩ := hmem
    exact v1

/-- In a build with `RTEMS_DEBUG` every node-state change of a schedule that
returns passed the assertion of the guard. -/
theorem Schedule_changes_asserted {P : Plugins Thread Cpu} (C : Ready_set_contract P)
    (s s2 : State Thread Cpu) (t : Thread)
    (h : _Scheduler_SMP_Schedule true P s t = .ok s2)
    (x : Thread) (o n : Scheduler_SMP_Node_state)
    (hmem : Event.node_change_state x o n ∈ Schedule_events P s t) :
    _Scheduler_SMP_Node_valid_state_changes o n = true := by
  by_cases hair : s.state t = SCHEDULER_SMP_NODE_IN_THE_AIR
  · cases hg : P.get_highest_ready s with
    | none =>
      rw [Schedule_air_null C true s t hair hg] at h
      cases h
    | some H =>
      rw [Schedule_air_eq C true s t H hair hg, bind_ok] at h
      obtain ⟨m, h2, _⟩ := h
      have v2 := (Allocate_debug _ m H t h2).2.1
      rw [Schedule_events_air C s t H hair hg] at hmem
      simp only [List.mem_append, List.mem_cons, List.mem_singleton,
        Event.node_change_state.injEq, reduceCtorEq, false_or, or_false,
        List.not_mem_nil, node_change_mem_Allocate_events] at hmem
      rcases hmem with ⟨_, rfl, rfl⟩ | ⟨_, rfl, rfl⟩
      · rw [hair]; rfl
      · exact v2
  · simp [Schedule_events, hair] at hmem

theorem Guarded_changes_Enqueue {P : Plugins Thread Cpu} (C : Ready_set_contract P)
    (dbg : Bool) (s s2 : State Thread Cpu) (t : Thread)
    (h : _Scheduler_SMP_Enqueue_ordered dbg P s t = .ok s2) :
    Guarded_changes dbg s.state s2.state (Enqueue_events P s t) := by
  refine ⟨fun x n => node_store_mem_Enqueue_events P s t x n,
    Enqueue_replay C dbg s s2 t h, ?_⟩
  intro hd x o n hmem
  subst hd
  exact Enqueue_changes_asserted P s s2 t h x o n hmem

theorem Guarded_changes_Schedule {P : Plugins Thread Cpu} (C : Ready_set_contract P)
    (dbg : Bool) (s s2 : State Thread Cpu) (t : Thread)
    (h : _Scheduler_SMP_Schedule dbg P s t = .ok s2) :
    Guarded_changes dbg s.state s2.state (Schedule_events P s t) := by
  refine ⟨fun x n => node_store_mem_Schedule_events P s t x n,
    Schedule_replay C dbg s s2 t h, ?_⟩
  intro hd x o n hmem
  subst hd
  exact Schedule_changes_asserted C s s2 t h x o n hmem

theorem Guarded_changes_Allocate (dbg : Bool) (s s2 : State Thread Cpu)
    (sch v : Thread)
    (h : _Scheduler_SMP_Allocate_processor dbg s sch v = .ok s2) :
    Guarded_changes dbg s.state s2.state (Allocate_events s sch v) := by
  have e := Allocate_inv dbg s s2 sch v h
  refine ⟨fun x n => node_store_mem_Allocate_events s sch v x n, ?_, ?_⟩
  · rw [e, (Allocate_state_frame s sch v).1]
    exact Replay_changes_Allocate_events s sch v
  · intro hd x o n hmem
    subst hd
    obtain ⟨_, rfl, rfl⟩ := (node_change_mem_Allocate_events s sch v x o n).1 hmem
    exact (Allocate_debug s s2 sch v h).2.1

/-! ## Processor slots -/

theorem air_card_update [Fintype Thread] (f : Thread → Scheduler_SMP_Node_state)
    (t : Thread) (n : Scheduler_SMP_Node_state) :
    (Finset.univ.filter
        (fun x => Function.update f t n x = SCHEDULER_SMP_NODE_IN_THE_AIR)).card +
      (if f t = SCHEDULER_SMP_NODE_IN_THE_AIR then 1 else 0) =
    (Finset.univ.filter (fun x => f x = SCHEDULER_SMP_NODE_IN_THE_AIR)).card +
      (if n = SCHEDULER_SMP_NODE_IN_THE_AIR then 1 else 0) := by
  rw [Finset.card_filter, Finset.card_filter,
    ← Finset.add_sum_erase Finset.univ
      (fun x => if Function.update f t n x = SCHEDULER_SMP_NODE_IN_THE_AIR then 1 else 0)
      (Finset.mem_univ t),
    ← Finset.add_sum_erase Finset.univ
      (fun x => if f x = SCHEDULER_SMP_NODE_IN_THE_AIR then 1 else 0)
      (Finset.mem_univ t)]
  have hrest : (Finset.univ.erase t).sum
        (fun x => if Function.update f t n x = SCHEDULER_SMP_NODE_IN_THE_AIR
          then 1 else 0) =
      (Finset.univ.erase t).sum
        (fun x => if f x = SCHEDULER_SMP_NODE_IN_THE_AIR then 1 else 0) :=
    Finset.sum_congr rfl (fun x hx => by
      rw [Function.update_noteq (Finset.ne_of_mem_erase hx)])
  rw [hrest, Function.update_same]
  split_ifs <;> omega

/-- One node-state change and the number of nodes in the air. -/
theorem In_the_air_count_update [Fintype Thread] (s s2 : State Thread Cpu)
    (t : Thread) (n : Scheduler_SMP_Node_state)
    (h : s2.state = Function.update s.state t n) :
    In_the_air_count s2 +
      (if s.state t = SCHEDULER_SMP_NODE_IN_THE_AIR then 1 else 0) =
    In_the_air_count s + (if n = SCHEDULER_SMP_NODE_IN_THE_AIR then 1 else 0) := by
  unfold In_the_air_count
  rw [h]
  exact air_card_update s.state t n

/-- Two node-state changes, the second one of a node that is not in the air
to the state SCHEDULED, and the number of nodes in the air. -/
theorem In_the_air_count_two [Fintype Thread] (s s2 : State Thread Cpu)
    (a b : Thread) (x : Scheduler_SMP_Node_state) (hab : b ≠ a)
    (hb : s.state b ≠ SCHEDULER_SMP_NODE_IN_THE_AIR)
    (hx : x ≠ SCHEDULER_SMP_NODE_IN_THE_AIR)
    (h : s2.state =
      Function.update (Function.update s.state a x) b SCHEDULER_SMP_NODE_SCHEDULED) :
    In_the_air_count s2 +
      (if s.state a = SCHEDULER_SMP_NODE_IN_THE_AIR then 1 else 0) =
    In_the_air_count s := by
  unfold In_the_air_count
  rw [h]
  have h1 := air_card_update (Function.update s.state a x) b
    SCHEDULER_SMP_NODE_SCHEDULED
  have h2 := air_card_update s.state a x
  rw [Function.update_noteq hab, if_neg hb] at h1
  rw [if_neg hx] at h2
  rw [if_neg (by decide)] at h1
  omega

/-- What an enqueue of a BLOCKED or IN_THE_AIR thread does to the length of
the scheduled chain and to the number of nodes in the air. -/
theorem Enqueue_slots [Fintype Thread] {P : Plugins Thread Cpu}
    (C : Ready_set_contract P) (dbg : Bool) (s s2 : State Thread Cpu) (t : Thread)
    (hI2 : Placement_invariant s)
    (hst : s.state t = SCHEDULER_SMP_NODE_BLOCKED ∨
      s.state t = SCHEDULER_SMP_NODE_IN_THE_AIR)
    (h : _Scheduler_SMP_Enqueue_ordered dbg P s t = .ok s2) :
    s2.Scheduled.length = s.Scheduled.length +
      (if s.state t = SCHEDULER_SMP_NODE_IN_THE_AIR then 1 else 0) ∧
    In_the_air_count s2 +
      (if s.state t = SCHEDULER_SMP_NODE_IN_THE_AIR then 1 else 0) =
    In_the_air_count s := by
  by_cases hair : s.state t = SCHEDULER_SMP_NODE_IN_THE_AIR
  · rw [if_pos hair]
    have hsch : (∀ H, P.get_highest_ready s = some H → P.order t H = true) →
        s2.Scheduled.length = s.Scheduled.length + 1 ∧
          In_the_air_count s2 + 1 = In_the_air_count s := by
      intro hH
      obtain ⟨S, hS, h3⟩ := Enqueue_air_scheduled_result C dbg s t hair hH
      rw [h] at h3
      cases h3
      have hc := In_the_air_count_update s
        (With_sets (Node_state_changed (s.emit Event.call_get_highest_ready) t
          SCHEDULER_SMP_NODE_SCHEDULED) S s.Ready [Event.call_insert_scheduled t])
        t SCHEDULER_SMP_NODE_SCHEDULED rfl
      rw [if_pos hair, if_neg (by decide)] at hc
      exact ⟨by simpa [With_sets] using hS.length_eq, hc⟩
    cases hg : P.get_highest_ready s with
    | none => exact hsch (fun H hH => by rw [hg] at hH; cases hH)
    | some H =>
      cases ho : P.order t H with
      | true => exact hsch (fun H2 hH2 => by rw [hg] at hH2; cases hH2; exact ho)
      | false =>
        have hHst := (Placement_ready hI2 H).1 (C.get_highest_ready_mem s H hg)
        have hHt : H ≠ t := fun e => by rw [e, hair] at hHst; cases hHst
        obtain ⟨S, R, hS, _, rfl⟩ := Enqueue_air_ready_result C dbg s s2 t H hair hg ho h
        have hc := In_the_air_count_two s
          (With_sets
            (Allocate_processor_state
              (Node_state_changed (s.emit Event.call_get_highest_ready) t
                SCHEDULER_SMP_NODE_READY) H t)
            S R [Event.call_insert_ready t, Event.call_move_from_ready_to_scheduled H])
          t H SCHEDULER_SMP_NODE_READY hHt (by rw [hHst]; decide) (by decide)
          (Allocate_state_frame _ H t).1
        rw [if_pos hair] at hc
        exact ⟨by simpa [With_sets] using hS.length_eq, hc⟩
  · rw [if_neg hair]
    have hb : s.state t = SCHEDULER_SMP_NODE_BLOCKED := by
      rcases hst with h | h
      · exact h
      · exact absurd h hair
    have hrdy : (∀ L, s.Scheduled.getLast? = some L → P.order t L = false) →
        s2.Scheduled.length = s.Scheduled.length + 0 ∧
          In_the_air_count s2 + 0 = In_the_air_count s := by
      intro hL
      obtain ⟨R, _, rfl⟩ := Enqueue_ready_result C dbg s s2 t hair hL h
      have hc := In_the_air_count_update s
        (With_sets (Node_state_changed s t SCHEDULER_SMP_NODE_READY) s.Scheduled R
          [Event.call_insert_ready t])
        t SCHEDULER_SMP_NODE_READY rfl
      rw [if_neg hair, if_neg (by decide)] at hc
      exact ⟨rfl, hc⟩
    cases hg : s.Scheduled.getLast? with
    | none => exact hrdy (fun L hL => by rw [hg] at hL; cases hL)
    | some L =>
      cases ho : P.order t L with
      | false => exact hrdy (fun L2 hL2 => by rw [hg] at hL2; cases hL2; exact ho)
      | true =>
        have hLS : L ∈ s.Scheduled := List.mem_of_getLast?_eq_some hg
        have hLst := (Placement_scheduled hI2 L).1 hLS
        have htL : t ≠ L := fun e => by rw [e, hLst] at hb; cases hb
        obtain ⟨S, R, hS, _, rfl⟩ := Enqueue_displace_result C dbg s s2 t L hair hg ho h
        have hc := In_the_air_count_two s
          (With_sets
            (Allocate_processor_state
              (Node_state_changed s L SCHEDULER_SMP_NODE_READY) t L)
            S R [Event.call_insert_scheduled t,
              Event.call_move_from_scheduled_to_ready L])
          L t SCHEDULER_SMP_NODE_READY htL hair (by decide)
          (Allocate_state_frame _ t L).1
        rw [if_neg (by rw [hLst]; decide)] at hc
        refine ⟨?_, hc⟩
        have hl := hS.length_eq
        rw [List.length_erase_of_mem (List.mem_cons_of_mem t hLS)] at hl
        simpa [With_sets] using hl

/-- What a schedule does to the length of the scheduled chain and to the
number of nodes in the air. -/
theorem Schedule_slots [Fintype Thread] {P : Plugins Thread Cpu}
    (C : Ready_set_contract P) (dbg : Bool) (s s2 : State Thread Cpu) (t : Thread)
    (hI2 : Placement_invariant s)
    (h : _Scheduler_SMP_Schedule dbg P s t = .ok s2) :
    s2.Scheduled.length = s.Scheduled.length +
      (if s.state t = SCHEDULER_SMP_NODE_IN_THE_AIR then 1 else 0) ∧
    In_the_air_count s2 +
      (if s.state t = SCHEDULER_SMP_NODE_IN_THE_AIR then 1 else 0) =
    In_the_air_count s := by
  by_cases hair : s.state t = SCHEDULER_SMP_NODE_IN_THE_AIR
  · rw [if_pos hair]
    cases hg : P.get_highest_ready s with
    | none =>
      rw [Schedule_air_null C dbg s t hair hg] at h
      cases h
    | some H =>
      have hHst := (Placement_ready hI2 H).1 (C.get_highest_ready_mem s H hg)
      have hHt : H ≠ t := fun e => by rw [e, hair] at hHst; cases hHst
      obtain ⟨S, R, hS, _, rfl⟩ := Schedule_air_result C dbg s s2 t H hair hg h
      have hc := In_the_air_count_two s
        (With_sets
          (Allocate_processor_state
            ((Node_state_changed s t SCHEDULER_SMP_NODE_BLOCKED).emit
              Event.call_get_highest_ready) H t)
          S R [Event.call_move_from_ready_to_scheduled H])
        t H SCHEDULER_SMP_NODE_BLOCKED hHt (by rw [hHst]; decide) (by decide)
        (Allocate_state_frame _ H t).1
      rw [if_pos hair] at hc
      exact ⟨by simpa [With_sets] using hS.length_eq, hc⟩
  · rw [if_neg hair]
    rw [Schedule_other dbg P s t hair] at h
    cases h
    exact ⟨rfl, rfl⟩

/-- What an extract does to the length of the scheduled chain and to the
number of nodes in the air. -/
theorem Extract_slots [Fintype Thread] {P : Plugins Thread Cpu}
    (C : Ready_set_contract P) (s : State Thread Cpu) (t : Thread)
    (hI2 : Placement_invariant s) :
    (_Scheduler_SMP_Extract P s t).Scheduled.length +
      (if s.state t = SCHEDULER_SMP_NODE_SCHEDULED then 1 else 0) =
    s.Scheduled.length ∧
    In_the_air_count (_Scheduler_SMP_Extract P s t) =
      In_the_air_count s +
        (if s.state t = SCHEDULER_SMP_NODE_SCHEDULED then 1 else 0) := by
  obtain ⟨S, R, hS, _, he⟩ := Extract_result C s t
  rw [he]
  have hc := In_the_air_count_update s
    (With_sets (Extracted s t) S R [Event.call_extract t]) t
    (Extract_state (s.state t)) rfl
  have hl : S.length = (s.Scheduled.erase t).length := hS.length_eq
  by_cases hs : s.state t = SCHEDULER_SMP_NODE_SCHEDULED
  · have hm : t ∈ s.Scheduled := (Placement_scheduled hI2 t).2 hs
    have hpos := List.length_pos_of_mem hm
    rw [List.length_erase_of_mem hm] at hl
    rw [if_pos hs]
    rw [hs, if_neg (by decide), Extract_state, if_pos rfl] at hc
    refine ⟨?_, by omega⟩
    show S.length + 1 = s.Scheduled.length
    omega
  · have hm : t ∉ s.Scheduled := fun hm => hs ((Placement_scheduled hI2 t).1 hm)
    rw [List.erase_of_not_mem hm] at hl
    rw [if_neg hs]
    refine ⟨hl, ?_⟩
    cases hst : s.state t
    · simpa [hst, Extract_state] using hc
    · exact absurd hst hs
    · simpa [hst, Extract_state] using hc
    · simpa [hst, Extract_state] using hc

theorem Slots_enqueue [Fintype Thread] {P : Plugins Thread Cpu}
    (C : Ready_set_contract P) (dbg : Bool) (s s2 : State Thread Cpu) (t : Thread)
    (hI2 : Placement_invariant s)
    (hst : s.state t = SCHEDULER_SMP_NODE_BLOCKED ∨
      s.state t = SCHEDULER_SMP_NODE_IN_THE_AIR)
    (h : _Scheduler_SMP_Enqueue_ordered dbg P s t = .ok s2) :
    Slots s2 = Slots s := by
  obtain ⟨h1, h2⟩ := Enqueue_slots C dbg s s2 t hI2 hst h
  unfold Slots
  omega

theorem Slots_schedule [Fintype Thread] {P : Plugins Thread Cpu}
    (C : Ready_set_contract P) (dbg : Bool) (s s2 : State Thread Cpu) (t : Thread)
    (hI2 : Placement_invariant s)
    (h : _Scheduler_SMP_Schedule dbg P s t = .ok s2) :
    Slots s2 = Slots s := by
  obtain ⟨h1, h2⟩ := Schedule_slots C dbg s s2 t hI2 h
  unfold Slots
  omega

theorem Slots_extract [Fintype Thread] {P : Plugins Thread Cpu}
    (C : Ready_set_contract P) (s : State Thread Cpu) (t : Thread)
    (hI2 : Placement_invariant s) :
    Slots (_Scheduler_SMP_Extract P s t) = Slots s := by
  obtain ⟨h1, h2⟩ := Extract_slots C s t hI2
  unfold Slots
  omega

theorem Slots_block [Fintype Thread] {P : Plugins Thread Cpu}
    (C : Ready_set_contract P) (dbg : Bool) (s s2 : State Thread Cpu) (t : Thread)
    (hI2 : Placement_invariant s)
    (h : _Scheduler_SMP_Block dbg P s t = .ok s2) :
    Slots s2 = Slots s := by
  rw [Block_eq] at h
  rw [Slots_schedule C dbg _ s2 t (Placement_extract C s t hI2) h]
  exact Slots_extract C s t hI2

/-- The operations keep I2 and the number of processor slots in use. -/
theorem Reachable_slots [Fintype Thread] {P : Plugins Thread Cpu}
    (C : Ready_set_contract P) (dbg : Bool) (s0 s : State Thread Cpu)
    (hI2 : Placement_invariant s0) (hr : Reachable dbg P s0 s) :
    Placement_invariant s ∧ Slots s = Slots s0 := by
  induction hr with
  | start => exact ⟨hI2, rfl⟩
  | enqueue x x2 t _ hst h ih =>
    exact ⟨Placement_enqueue C dbg x x2 t ih.1 hst h,
      (Slots_enqueue C dbg x x2 t ih.1 hst h).trans ih.2⟩
  | extract x t _ ih =>
    exact ⟨Placement_extract C x t ih.1, (Slots_extract C x t ih.1).trans ih.2⟩
  | schedule x x2 t _ h ih =>
    exact ⟨Placement_schedule C dbg x x2 t ih.1 h,
      (Slots_schedule C dbg x x2 t ih.1 h).trans ih.2⟩
  | block x x2 t _ h ih =>
    exact ⟨Placement_block C dbg x x2 t ih.1 h,
      (Slots_block C dbg x x2 t ih.1 h).trans ih.2⟩

/-- The sets and node states after the idle threads were started. -/
theorem Start_idles_result (s : State Thread Cpu) (idles : List (Thread × Cpu)) :
    (Start_idles s idles).Scheduled = s.Scheduled ++ idles.map Prod.fst ∧
    (Start_idles s idles).Ready = s.Ready ∧
    ∀ x, (Start_idles s idles).state x =
      if x ∈ idles.map Prod.fst then SCHEDULER_SMP_NODE_SCHEDULED else s.state x := by
  induction idles generalizing s with
  | nil => simp [Start_idles]
  | cons p rest ih =>
    obtain ⟨t, c⟩ := p
    obtain ⟨h1, h2, h3⟩ := ih (_Scheduler_SMP_Start_idle s t c)
    refine ⟨?_, ?_, ?_⟩
    · rw [Start_idles, h1]
      simp [_Scheduler_SMP_Start_idle, _Thread_Set_CPU]
    · rw [Start_idles, h2]
      rfl
    · intro x
      rw [Start_idles, h3]
      by_cases hx : x ∈ rest.map Prod.fst
      · simp [hx]
      · by_cases hxt : x = t
        · subst hxt
          simp [_Scheduler_SMP_Start_idle, _Thread_Set_CPU]
        · have hu : (_Scheduler_SMP_Start_idle s t c).state x = s.state x := by
            show Function.update s.state t SCHEDULER_SMP_NODE_SCHEDULED x = s.state x
            exact Function.update_noteq hxt _ _
          rw [if_neg hx, hu]
          simp [hx, hxt]

theorem In_the_air_count_zero [Fintype Thread] (s : State Thread Cpu) :
    In_the_air_count s = 0 ↔ ∀ x, s.state x ≠ SCHEDULER_SMP_NODE_IN_THE_AIR := by
  unfold In_the_air_count
  rw [Finset.card_eq_zero, Finset.filter_eq_empty_iff]
  exact ⟨fun h x => h (Finset.mem_univ x), fun h x _ => h x⟩

/-- After N idle threads were started from the initial state, I2 holds and N
processor slots are in use. -/
theorem Start_idles_slots [Fintype Thread] (s0 : State Thread Cpu)
    (idles : List (Thread × Cpu))
    (h0 : ∀ x, s0.state x = SCHEDULER_SMP_NODE_BLOCKED)
    (hS : s0.Scheduled = []) (hR : s0.Ready = [])
    (hd : (idles.map Prod.fst).Nodup) :
    Placement_invariant (Start_idles s0 idles) ∧
      Slots (Start_idles s0 idles) = idles.length := by
  obtain ⟨h1, h2, h3⟩ := Start_idles_result s0 idles
  rw [hS, List.nil_append] at h1
  rw [hR] at h2
  have hst : ∀ x, (Start_idles s0 idles).state x =
      if x ∈ idles.map Prod.fst then SCHEDULER_SMP_NODE_SCHEDULED
      else SCHEDULER_SMP_NODE_BLOCKED := fun x => by rw [h3 x, h0 x]
  constructor
  · apply Placement_of_mem
    · rw [h1]; exact hd
    · rw [h2]; exact List.nodup_nil
    · intro x
      rw [h1, hst x]
      by_cases hx : x ∈ idles.map Prod.fst
      · simp only [hx, if_true]
      · simp only [hx, if_false, false_iff]
        decide
    · intro x
      rw [h2, hst x]
      by_cases hx : x ∈ idles.map Prod.fst
      · simp only [hx, if_true, List.not_mem_nil, false_iff]
        decide
      · simp only [hx, if_false, List.not_mem_nil, false_iff]
        decide
  · have hz : In_the_air_count (Start_idles s0 idles) = 0 := by
      rw [In_the_air_count_zero]
      intro x
      rw [hst x]
      split_ifs <;> decide
    unfold Slots
    rw [hz, h1]
    simp

/-! ## The heirs along an operation that follows an extract -/

theorem Heir_invariant_during_of_invariant (s : State Thread Cpu) (t : Thread)
    (hI3 : Heir_invariant s) : Heir_invariant_during s t :=
  fun p hp => Or.inl (hI3 p hp)

/-- Every heir other than the thread of the operation is SCHEDULED. -/
theorem Heir_invariant_during_ne {s : State Thread Cpu} {t : Thread}
    (hD : Heir_invariant_during s t) (p : Cpu)
    (hp : _Scheduler_SMP_Is_processor_owned_by_us s p = true)
    (hne : (s.per_cpu p).heir ≠ t) :
    s.state (s.per_cpu p).heir = SCHEDULER_SMP_NODE_SCHEDULED := by
  rcases hD p hp with h | ⟨h, _⟩
  · exact h
  · exact absurd h hne

/-- A thread that is neither SCHEDULED nor the thread of the operation is no
heir. -/
theorem Heir_invariant_during_fresh {s : State Thread Cpu} {t : Thread}
    (hD : Heir_invariant_during s t) (x : Thread)
    (hx : s.state x ≠ SCHEDULER_SMP_NODE_SCHEDULED)
    (hxt : x ≠ t ∨ s.state t ≠ SCHEDULER_SMP_NODE_IN_THE_AIR) (p : Cpu)
    (hp : _Scheduler_SMP_Is_processor_owned_by_us s p = true) :
    (s.per_cpu p).heir ≠ x := by
  intro e
  rcases hD p hp with h | ⟨h1, h2⟩
  · rw [e] at h
    exact hx h
  · rcases hxt with h | h
    · exact h (e.symm.trans h1)
    · exact h h2

theorem Heir_enqueue_during {P : Plugins Thread Cpu} (C : Ready_set_contract P)
    (dbg : Bool) (s s2 : State Thread Cpu) (t : Thread)
    (hI2 : Placement_invariant s) (hD : Heir_invariant_during s t) (hJ : Heir_cpu s)
    (hst : s.state t = SCHEDULER_SMP_NODE_BLOCKED ∨
      s.state t = SCHEDULER_SMP_NODE_IN_THE_AIR)
    (h : _Scheduler_SMP_Enqueue_ordered dbg P s t = .ok s2) :
    Heir_invariant s2 ∧ Heir_cpu s2 := by
  by_cases hair : s.state t = SCHEDULER_SMP_NODE_IN_THE_AIR
  · have hsch : (∀ H, P.get_highest_ready s = some H → P.order t H = true) →
        Heir_invariant s2 ∧ Heir_cpu s2 := by
      intro hH
      obtain ⟨S, _, h3⟩ := Enqueue_air_scheduled_result C dbg s t hair hH
      rw [h] at h3
      cases h3
      refine ⟨?_, hJ⟩
      intro p hp
      show Function.update s.state t SCHEDULER_SMP_NODE_SCHEDULED (s.per_cpu p).heir = _
      by_cases hpt : (s.per_cpu p).heir = t
      · rw [hpt, Function.update_same]
      · rw [Function.update_noteq hpt]
        exact Heir_invariant_during_ne hD p hp hpt
    cases hg : P.get_highest_ready s with
    | none => exact hsch (fun H hH => by rw [hg] at hH; cases hH)
    | some H =>
      cases ho : P.order t H with
      | true => exact hsch (fun H2 hH2 => by rw [hg] at hH2; cases hH2; exact ho)
      | false =>
        obtain ⟨S, R, _, _, rfl⟩ := Enqueue_air_ready_result C dbg s s2 t H hair hg ho h
        have hHst := (Placement_ready hI2 H).1 (C.get_highest_ready_mem s H hg)
        have hHt : H ≠ t := fun e => by rw [e, hair] at hHst; cases hHst
        refine Allocate_heir_invariant
          (Node_state_changed (s.emit Event.call_get_highest_ready) t
            SCHEDULER_SMP_NODE_READY) H t hJ ?_ ?_
        · intro p hp hne
          show Function.update s.state t SCHEDULER_SMP_NODE_READY (s.per_cpu p).heir = _
          rw [Function.update_noteq (show (s.per_cpu p).heir ≠ _ from hne)]
          exact Heir_invariant_during_ne hD p hp hne
        · intro p hp
          exact Heir_invariant_during_fresh hD H (by rw [hHst]; decide) (Or.inl hHt) p hp
  · have hb : s.state t = SCHEDULER_SMP_NODE_BLOCKED := by
      rcases hst with h | h
      · exact h
      · exact absurd h hair
    have hnt : ∀ p, _Scheduler_SMP_Is_processor_owned_by_us s p = true →
        (s.per_cpu p).heir ≠ t := fun p hp =>
      Heir_invariant_during_fresh hD t (by rw [hb]; decide) (Or.inr hair) p hp
    have hrdy : (∀ L, s.Scheduled.getLast? = some L → P.order t L = false) →
        Heir_invariant s2 ∧ Heir_cpu s2 := by
      intro hL
      obtain ⟨R, _, rfl⟩ := Enqueue_ready_result C dbg s s2 t hair hL h
      refine ⟨?_, hJ⟩
      intro p hp
      show Function.update s.state t SCHEDULER_SMP_NODE_READY (s.per_cpu p).heir = _
      rw [Function.update_noteq (hnt p hp)]
      exact Heir_invariant_during_ne hD p hp (hnt p hp)
    cases hg : s.Scheduled.getLast? with
    | none => exact hrdy (fun L hL => by rw [hg] at hL; cases hL)
    | some L =>
      cases ho : P.order t L with
      | false => exact hrdy (fun L2 hL2 => by rw [hg] at hL2; cases hL2; exact ho)
      | true =>
        obtain ⟨S, R, _, _, rfl⟩ := Enqueue_displace_result C dbg s s2 t L hair hg ho h
        refine Allocate_heir_invariant
          (Node_state_changed s L SCHEDULER_SMP_NODE_READY) t L hJ ?_ hnt
        intro p hp hne
        show Function.update s.state L SCHEDULER_SMP_NODE_READY (s.per_cpu p).heir = _
        rw [Function.update_noteq (show (s.per_cpu p).heir ≠ _ from hne)]
        exact Heir_invariant_during_ne hD p hp (hnt p hp)

theorem Heir_schedule_during {P : Plugins Thread Cpu} (C : Ready_set_contract P)
    (dbg : Bool) (s s2 : State Thread Cpu) (t : Thread)
    (hI2 : Placement_invariant s) (hD : Heir_invariant_during s t) (hJ : Heir_cpu s)
    (h : _Scheduler_SMP_Schedule dbg P s t = .ok s2) :
    Heir_invariant s2 ∧ Heir_cpu s2 := by
  by_cases hair : s.state t = SCHEDULER_SMP_NODE_IN_THE_AIR
  · exact Heir_schedule_air C dbg s s2 t hI2 hJ
      (fun p hp hne => Heir_invariant_during_ne hD p hp hne) hair h
  · rw [Schedule_other dbg P s t hair] at h
    cases h
    refine ⟨?_, hJ⟩
    intro p hp
    rcases hD p hp with h1 | ⟨_, h2⟩
    · exact h1
    · exact absurd h2 hair

/-- After `_Scheduler_SMP_Extract` of `t` the heirs are the same threads, every
heir but `t` is SCHEDULED and `t`, when it is an heir, is IN_THE_AIR. -/
theorem Heir_extract_during {P : Plugins Thread Cpu} (C : Ready_set_contract P)
    (s : State Thread Cpu) (t : Thread)
    (hD : Heir_invariant_during s t) (hJ : Heir_cpu s) :
    Heir_invariant_during (_Scheduler_SMP_Extract P s t) t ∧
    Heir_cpu (_Scheduler_SMP_Extract P s t) ∧
    (_Scheduler_SMP_Extract P s t).per_cpu = s.per_cpu ∧
    ∀ p, _Scheduler_SMP_Is_processor_owned_by_us (_Scheduler_SMP_Extract P s t) p
        = true →
      ((_Scheduler_SMP_Extract P s t).per_cpu p).heir = t →
      (_Scheduler_SMP_Extract P s t).state t = SCHEDULER_SMP_NODE_IN_THE_AIR := by
  obtain ⟨S, R, _, _, he⟩ := Extract_result C s t
  rw [he]
  have hheir : ∀ p, _Scheduler_SMP_Is_processor_owned_by_us s p = true →
      (s.per_cpu p).heir = t →
      Function.update s.state t (Extract_state (s.state t)) t =
        SCHEDULER_SMP_NODE_IN_THE_AIR := by
    intro p hp e
    rw [Function.update_same]
    rcases hD p hp with h1 | ⟨_, h2⟩
    · rw [e] at h1
      rw [h1]
      rfl
    · rw [h2]
      rfl
  refine ⟨?_, hJ, rfl, fun p hp e => hheir p hp e⟩
  intro p hp
  by_cases hpt : (s.per_cpu p).heir = t
  · exact Or.inr ⟨hpt, hheir p hp hpt⟩
  · left
    show Function.update s.state t (Extract_state (s.state t)) (s.per_cpu p).heir = _
    rw [Function.update_noteq hpt]
    exact Heir_invariant_during_ne hD p hp hpt

theorem Heir_block_during {P : Plugins Thread Cpu} (C : Ready_set_contract P)
    (dbg : Bool) (s s2 : State Thread Cpu) (t : Thread)
    (hI2 : Placement_invariant s) (hD : Heir_invariant_during s t) (hJ : Heir_cpu s)
    (h : _Scheduler_SMP_Block dbg P s t = .ok s2) :
    Heir_invariant s2 ∧ Heir_cpu s2 := by
  rw [Block_eq] at h
  obtain ⟨hDe, hJe, _, _⟩ := Heir_extract_during C s t hD hJ
  exact Heir_schedule_during C dbg _ s2 t (Placement_extract C s t hI2) hDe hJe h

/-- The assertions of the processor allocation hold after an extract when
they held before it. -/
theorem Allocate_assertions_extract {P : Plugins Thread Cpu}
    (C : Ready_set_contract P) (dbg : Bool) (s : State Thread Cpu) (t x : Thread)
    (ha : Allocate_assertions dbg s x) :
    Allocate_assertions dbg (_Scheduler_SMP_Extract P s t) x := by
  obtain ⟨S, R, _, _, he⟩ := Extract_result C s t
  rw [he]
  exact (Allocate_assertions_congr dbg s _ x rfl rfl rfl rfl rfl rfl).2 ha

/-- The node of a SCHEDULED thread is IN_THE_AIR after its extract. -/
theorem Extract_state_scheduled {P : Plugins Thread Cpu} (C : Ready_set_contract P)
    (s : State Thread Cpu) (t : Thread)
    (hst : s.state t = SCHEDULER_SMP_NODE_SCHEDULED) :
    (_Scheduler_SMP_Extract P s t).state t = SCHEDULER_SMP_NODE_IN_THE_AIR := by
  obtain ⟨S, R, _, _, he⟩ := Extract_result C s t
  rw [he]
  show Function.update s.state t (Extract_state (s.state t)) t = _
  rw [Function.update_same, hst]
  rfl

/-! ## Extract followed by enqueue -/

/-- The thread is ordered before every ready thread: it comes back to its
place. -/
theorem Round_trip_same {P : Plugins Thread Cpu}
    (C : Ready_set_contract P) (dbg : Bool) (s : State Thread Cpu) (t : Thread)
    (hI2 : Placement_invariant s)
    (hst : s.state t = SCHEDULER_SMP_NODE_SCHEDULED)
    (hord : ∀ H ∈ s.Ready, P.order t H = true) :
    ∃ s2, _Scheduler_SMP_Enqueue_ordered dbg P (_Scheduler_SMP_Extract P s t) t
        = .ok s2 ∧
      s2.Scheduled.Perm s.Scheduled ∧ s2.Ready.Perm s.Ready ∧
      s2.per_cpu = s.per_cpu ∧ s2.cpu = s.cpu ∧ s2.state = s.state := by
  obtain ⟨S, R, hS, hR, he⟩ := Extract_result C s t
  rw [he]
  have htS : t ∈ s.Scheduled := (Placement_scheduled hI2 t).2 hst
  have htR : t ∉ s.Ready := fun hm => by
    rw [(Placement_ready hI2 t).1 hm] at hst; cases hst
  rw [List.erase_of_not_mem htR] at hR
  have hair : (With_sets (Extracted s t) S R [Event.call_extract t]).state t
      = SCHEDULER_SMP_NODE_IN_THE_AIR := by
    simp [With_sets, Extracted, hst, Extract_state]
  have hH : ∀ H, P.get_highest_ready
      (With_sets (Extracted s t) S R [Event.call_extract t]) = some H →
      P.order t H = true := by
    intro H hg
    have hm : H ∈ R := C.get_highest_ready_mem _ H hg
    exact hord H (hR.mem_iff.1 hm)
  obtain ⟨S2, hS2, h2⟩ := Enqueue_air_scheduled_result C dbg _ t hair hH
  refine ⟨_, h2, ?_, hR, rfl, rfl, ?_⟩
  · have h3 : S2.Perm (t :: s.Scheduled.erase t) :=
      hS2.trans (List.Perm.cons t hS)
    exact h3.trans (List.perm_cons_erase htS).symm
  · show Function.update (Function.update s.state t (Extract_state (s.state t))) t
      SCHEDULER_SMP_NODE_SCHEDULED = s.state
    rw [Function.update_idem, ← hst, Function.update_eq_self]

/-- The highest ready thread is not ordered after the thread: it takes the
place of the thread, and the heirs are those the processor allocation sets. -/
theorem Round_trip_exchange {P : Plugins Thread Cpu}
    (C : Ready_set_contract P) (dbg : Bool) (s : State Thread Cpu) (t H : Thread)
    (hI2 : Placement_invariant s)
    (hst : s.state t = SCHEDULER_SMP_NODE_SCHEDULED)
    (hg : P.get_highest_ready (_Scheduler_SMP_Extract P s t) = some H)
    (ho : P.order t H = false) (ha : Allocate_assertions dbg s H) :
    H ∈ s.Ready ∧ H ≠ t ∧
    ∃ s2, _Scheduler_SMP_Enqueue_ordered dbg P (_Scheduler_SMP_Extract P s t) t
        = .ok s2 ∧
      s2.state = Function.update
        (Function.update s.state t SCHEDULER_SMP_NODE_READY) H
        SCHEDULER_SMP_NODE_SCHEDULED ∧
      s2.Scheduled.Perm (H :: s.Scheduled.erase t) ∧
      s2.Ready.Perm (t :: s.Ready.erase H) ∧
      (¬ (s.is_executing H = true ∧
          _Scheduler_SMP_Is_processor_owned_by_us s (s.cpu H) = true) →
        ∀ p, (s2.per_cpu p).heir = if p = s.cpu t then H else (s.per_cpu p).heir) ∧
      (s.is_executing H = true ∧
          _Scheduler_SMP_Is_processor_owned_by_us s (s.cpu H) = true →
        (s.per_cpu (s.cpu H)).heir = t →
        ∀ p, (s2.per_cpu p).heir = if p = s.cpu H then H else (s.per_cpu p).heir) ∧
      (s.is_executing H = true ∧
          _Scheduler_SMP_Is_processor_owned_by_us s (s.cpu H) = true →
        (s.per_cpu (s.cpu H)).heir ≠ t →
        ∀ p, (s2.per_cpu p).heir =
          if p = s.cpu t then (s.per_cpu (s.cpu H)).heir
          else if p = s.cpu H then H else (s.per_cpu p).heir) := by
  obtain ⟨S, R, hS, hR, he⟩ := Extract_result C s t
  rw [he] at hg ⊢
  have htR : t ∉ s.Ready := fun hm => by
    rw [(Placement_ready hI2 t).1 hm] at hst; cases hst
  rw [List.erase_of_not_mem htR] at hR
  have hair : (With_sets (Extracted s t) S R [Event.call_extract t]).state t
      = SCHEDULER_SMP_NODE_IN_THE_AIR := by
    simp [With_sets, Extracted, hst, Extract_state]
  have hHR : H ∈ R := C.get_highest_ready_mem _ H hg
  have hHready : H ∈ s.Ready := hR.mem_iff.1 hHR
  have hHst : s.state H = SCHEDULER_SMP_NODE_READY := (Placement_ready hI2 H).1 hHready
  have hHt : H ≠ t := fun e => by rw [e, hst] at hHst; cases hHst
  obtain ⟨s2, e⟩ := Enqueue_air_ready_returns dbg P
    (With_sets (Extracted s t) S R [Event.call_extract t]) t H hair hg ho
    (fun _ => by
      show _Scheduler_SMP_Node_valid_state_changes
        (Function.update s.state t (Extract_state (s.state t)) H)
        SCHEDULER_SMP_NODE_SCHEDULED = true
      rw [Function.update_noteq hHt, hHst]
      rfl)
    ((Allocate_assertions_congr dbg s _ H rfl rfl rfl rfl rfl rfl).2 ha)
  obtain ⟨S2, R2, hS2, hR2, rfl⟩ := Enqueue_air_ready_result C dbg _ s2 t H hair hg ho e
  have hheir : ∀ p,
      ((With_sets
        (Allocate_processor_state
          (Node_state_changed
            ((With_sets (Extracted s t) S R [Event.call_extract t]).emit
              Event.call_get_highest_ready) t SCHEDULER_SMP_NODE_READY) H t)
        S2 R2 [Event.call_insert_ready t,
          Event.call_move_from_ready_to_scheduled H]).per_cpu p).heir =
      if s.is_executing H = true ∧
          _Scheduler_SMP_Is_processor_owned_by_us s (s.cpu H) = true then
        if (s.per_cpu (s.cpu H)).heir = t then
          if p = s.cpu H then H else (s.per_cpu p).heir
        else if p = s.cpu t then (s.per_cpu (s.cpu H)).heir
        else if p = s.cpu H then H else (s.per_cpu p).heir
      else if H = t then (s.per_cpu p).heir
      else if p = s.cpu t then H else (s.per_cpu p).heir := fun p =>
    Allocate_heir _ H t p
  refine ⟨hHready, hHt, _, e, ?_, ?_, ?_, ?_, ?_, ?_⟩
  · show (Allocate_processor_state _ H t).state = _
    rw [(Allocate_state_frame _ H t).1]
    show Function.update
      (Function.update (Function.update s.state t (Extract_state (s.state t))) t
        SCHEDULER_SMP_NODE_READY) H SCHEDULER_SMP_NODE_SCHEDULED = _
    rw [Function.update_idem]
  · exact hS2.trans (List.Perm.cons H hS)
  · have h1 : R2.Perm ((t :: R).erase H) := hR2
    have h2 : (t :: R).erase H = t :: R.erase H := by
      simp [List.erase_cons, Ne.symm hHt]
    rw [h2] at h1
    exact h1.trans (List.Perm.cons t (hR.erase H))
  · intro hc p
    rw [hheir p, if_neg hc, if_neg hHt]
  · intro hc hX p
    rw [hheir p, if_pos hc, if_pos hX]
  · intro hc hX p
    rw [hheir p, if_pos hc, if_neg hX]

end Lemmas

/-! ## The claims -/

section Claims

variable {Thread Cpu : Type} [DecidableEq Thread] [DecidableEq Cpu]

/-- C1. Enqueue, case B.  For a state that satisfies the placement invariant
and a thread `t` whose node is BLOCKED (in a build with `RTEMS_DEBUG`: the
assertions of the processor allocation hold), with a concrete scheduler that
obeys the ready-set contract: if the scheduled chain has a last node `L` and
`order t L` is true, `_Scheduler_SMP_Enqueue_ordered` returns, the node of `L`
is READY, `L` has left the scheduled set and joined the ready set, the node of
`t` is SCHEDULED and `t` has joined the scheduled set; otherwise (empty chain,
or `order t L` false) it returns, the node of `t` is READY, `t` has joined the
ready set and the scheduled chain is unchanged.  Hence `L` is displaced if and
only if it exists and `order t L` is true. -/
theorem C1_enqueue_blocked {P : Plugins Thread Cpu} (C : Ready_set_contract P)
    (dbg : Bool) (s : State Thread Cpu) (t : Thread)
    (hI2 : Placement_invariant s)
    (hst : s.state t = SCHEDULER_SMP_NODE_BLOCKED)
    (ha : Allocate_assertions dbg s t) :
    (∀ L, s.Scheduled.getLast? = some L → P.order t L = true →
      ∃ s2, _Scheduler_SMP_Enqueue_ordered dbg P s t = .ok s2 ∧
        s2.state L = SCHEDULER_SMP_NODE_READY ∧
        s2.state t = SCHEDULER_SMP_NODE_SCHEDULED ∧
        (∀ x, x ≠ L → x ≠ t → s2.state x = s.state x) ∧
        s2.Scheduled.Perm (t :: s.Scheduled.erase L) ∧
        s2.Ready.Perm (L :: s.Ready)) ∧
    ((∀ L, s.Scheduled.getLast? = some L → P.order t L = false) →
      ∃ s2, _Scheduler_SMP_Enqueue_ordered dbg P s t = .ok s2 ∧
        s2.state t = SCHEDULER_SMP_NODE_READY ∧
        (∀ x, x ≠ t → s2.state x = s.state x) ∧
        s2.Ready.Perm (t :: s.Ready) ∧
        s2.Scheduled = s.Scheduled) ∧
    (∀ s2, _Scheduler_SMP_Enqueue_ordered dbg P s t = .ok s2 →
      ∀ L, s.Scheduled.getLast? = some L →
        ((s2.state L = SCHEDULER_SMP_NODE_READY ∧ L ∈ s2.Ready ∧ L ∉ s2.Scheduled) ↔
          P.order t L = true)) := by
  have hne : s.state t ≠ SCHEDULER_SMP_NODE_IN_THE_AIR := by rw [hst]; decide
  have htS : t ∉ s.Scheduled := fun hm => by
    rw [(Placement_scheduled hI2 t).1 hm] at hst; cases hst
  have key : ∀ L, s.Scheduled.getLast? = some L → P.order t L = true →
      ∃ s2, _Scheduler_SMP_Enqueue_ordered dbg P s t = .ok s2 ∧
        s2.state L = SCHEDULER_SMP_NODE_READY ∧
        s2.state t = SCHEDULER_SMP_NODE_SCHEDULED ∧
        (∀ x, x ≠ L → x ≠ t → s2.state x = s.state x) ∧
        s2.Scheduled.Perm (t :: s.Scheduled.erase L) ∧
        s2.Ready.Perm (L :: s.Ready) := by
    intro L hL ho
    have hLS : L ∈ s.Scheduled := List.mem_of_getLast?_eq_some hL
    have hLst := (Placement_scheduled hI2 L).1 hLS
    have htL : t ≠ L := fun e => htS (e ▸ hLS)
    obtain ⟨s2, h2⟩ := Enqueue_displace_returns dbg P s t L hne hL ho
      (fun _ => by rw [hLst]; rfl) (fun _ => by rw [hst]; rfl) ha
    obtain ⟨S, R, hS, hR, rfl⟩ := Enqueue_displace_result C dbg s s2 t L hne hL ho h2
    refine ⟨_, h2, ?_, ?_, ?_, ?_, ?_⟩
    · simp [With_sets, Allocate_state_frame, Node_state_changed,
        Function.update_noteq htL.symm]
    · simp [With_sets, Allocate_state_frame]
    · intro x hxL hxt
      simp [With_sets, Allocate_state_frame, Node_state_changed,
        Function.update_noteq hxL, Function.update_noteq hxt]
    · have : (t :: s.Scheduled).erase L = t :: s.Scheduled.erase L :=
        List.erase_cons_tail (by simpa using htL)
      simpa [With_sets, this] using hS
    · simpa [With_sets] using hR
  have key2 : (∀ L, s.Scheduled.getLast? = some L → P.order t L = false) →
      ∃ s2, _Scheduler_SMP_Enqueue_ordered dbg P s t = .ok s2 ∧
        s2.state t = SCHEDULER_SMP_NODE_READY ∧
        (∀ x, x ≠ t → s2.state x = s.state x) ∧
        s2.Ready.Perm (t :: s.Ready) ∧
        s2.Scheduled = s.Scheduled := by
    intro hL
    obtain ⟨s2, h2⟩ := Enqueue_ready_returns dbg P s t hne hL
      (fun _ => by rw [hst]; rfl)
    obtain ⟨R, hR, rfl⟩ := Enqueue_ready_result C dbg s s2 t hne hL h2
    refine ⟨_, h2, ?_, ?_, ?_, ?_⟩
    · simp [With_sets, Node_state_changed]
    · intro x hxt
      simp [With_sets, Node_state_changed, Function.update_noteq hxt]
    · simpa [With_sets] using hR
    · simp [With_sets]
  refine ⟨key, key2, ?_⟩
  intro s2 h2 L hL
  have hLS : L ∈ s.Scheduled := List.mem_of_getLast?_eq_some hL
  have hLst := (Placement_scheduled hI2 L).1 hLS
  have htL : t ≠ L := fun e => htS (e ▸ hLS)
  cases ho : P.order t L with
  | true =>
    obtain ⟨s3, h3, hs, _, _, hS, hR⟩ := key L hL ho
    rw [h2] at h3
    cases h3
    simp only [iff_true]
    refine ⟨hs, hR.mem_iff.2 (List.mem_cons_self _ _), ?_⟩
    intro hm
    rcases List.mem_cons.1 (hS.mem_iff.1 hm) with e | hm
    · exact htL e.symm
    · exact (List.Nodup.mem_erase_iff hI2.1).1 hm |>.1 rfl
  | false =>
    have hall : ∀ L2, s.Scheduled.getLast? = some L2 → P.order t L2 = false := by
      intro L2 hL2
      rw [hL] at hL2
      cases hL2
      exact ho
    obtain ⟨s3, h3, _, hx, _, hS⟩ := key2 hall
    rw [h2] at h3
    cases h3
    simp only [Bool.false_eq_true, iff_false, not_and, not_not]
    intro hr
    rw [hx L htL.symm, hLst] at hr
    cases hr

/-- C1, witness: in the example D (priority 0) displaces B, the lowest
scheduled thread, and E (priority 4) does not. -/
theorem C1_enqueue_blocked_witness :
    (∃ s2, _Scheduler_SMP_Enqueue_ordered true (Simple_plugins Example_priority)
        Example_state 5 = .ok s2 ∧
      s2.state 1 = SCHEDULER_SMP_NODE_READY ∧
      s2.state 5 = SCHEDULER_SMP_NODE_SCHEDULED ∧
      (∀ x, x ≠ 1 → x ≠ 5 → s2.state x = Example_state.state x) ∧
      s2.Scheduled.Perm (5 :: Example_state.Scheduled.erase 1) ∧
      s2.Ready.Perm (1 :: Example_state.Ready)) ∧
    (∃ s2, _Scheduler_SMP_Enqueue_ordered true (Simple_plugins Example_priority)
        Example_state 6 = .ok s2 ∧
      s2.state 6 = SCHEDULER_SMP_NODE_READY ∧
      (∀ x, x ≠ 6 → s2.state x = Example_state.state x) ∧
      s2.Ready.Perm (6 :: Example_state.Ready) ∧
      s2.Scheduled = Example_state.Scheduled) :=
  ⟨(C1_enqueue_blocked (Simple_plugins_contract Example_priority) true Example_state 5
      (by unfold Placement_invariant; decide) (by decide)
      (by unfold Allocate_assertions; decide)).1 1 (by decide) (by decide),
   (C1_enqueue_blocked (Simple_plugins_contract Example_priority) true Example_state 6
      (by unfold Placement_invariant; decide) (by decide)
      (by unfold Allocate_assertions; decide)).2.1 (by decide)⟩

/-- C2. Enqueue, case A.  For a state that satisfies the placement invariant
and a thread `t` whose node is IN_THE_AIR, with a concrete scheduler that obeys
the ready-set contract and `H` the result of `get_highest_ready`: if `H` exists
and `order t H` is false (in a build with `RTEMS_DEBUG`: the assertions of the
processor allocation hold for `H`), `_Scheduler_SMP_Enqueue_ordered` returns,
the node of `t` is READY and `t` is in the ready set, the node of `H` is
SCHEDULED and `H` has moved from the ready set to the scheduled set; otherwise
it returns, the node of `t` is SCHEDULED, `t` has joined the scheduled set, and
no processor is reallocated: the processor records (heir, dispatch necessary)
and the current-CPU fields are unchanged and the effects are the call of
`get_highest_ready`, the state change and the call of `insert_scheduled`, so no
inter-processor interrupt is sent. -/
theorem C2_enqueue_in_the_air {P : Plugins Thread Cpu} (C : Ready_set_contract P)
    (dbg : Bool) (s : State Thread Cpu) (t : Thread)
    (hI2 : Placement_invariant s)
    (hst : s.state t = SCHEDULER_SMP_NODE_IN_THE_AIR) :
    (∀ H, P.get_highest_ready s = some H → P.order t H = false →
      Allocate_assertions dbg s H →
      ∃ s2, _Scheduler_SMP_Enqueue_ordered dbg P s t = .ok s2 ∧
        s2.state t = SCHEDULER_SMP_NODE_READY ∧ t ∈ s2.Ready ∧
        s2.state H = SCHEDULER_SMP_NODE_SCHEDULED ∧
        (∀ x, x ≠ H → x ≠ t → s2.state x = s.state x) ∧
        s2.Scheduled.Perm (H :: s.Scheduled) ∧
        s2.Ready.Perm (t :: s.Ready.erase H)) ∧
    ((∀ H, P.get_highest_ready s = some H → P.order t H = true) →
      ∃ s2, _Scheduler_SMP_Enqueue_ordered dbg P s t = .ok s2 ∧
        s2.state t = SCHEDULER_SMP_NODE_SCHEDULED ∧
        (∀ x, x ≠ t → s2.state x = s.state x) ∧
        s2.Scheduled.Perm (t :: s.Scheduled) ∧
        s2.Ready = s.Ready ∧
        s2.per_cpu = s.per_cpu ∧
        s2.cpu = s.cpu ∧
        s2.trace = s.trace ++
          [Event.call_get_highest_ready,
           Event.node_change_state t SCHEDULER_SMP_NODE_IN_THE_AIR
             SCHEDULER_SMP_NODE_SCHEDULED,
           Event.call_insert_scheduled t] ∧
        ∀ p, Event.send_interrupt p ∉ s2.trace.drop s.trace.length) := by
  constructor
  · intro H hH ho ha
    have hHR : H ∈ s.Ready := C.get_highest_ready_mem s H hH
    have hHst := (Placement_ready hI2 H).1 hHR
    have htH : t ≠ H := fun e => by rw [e, hHst] at hst; cases hst
    obtain ⟨s2, h2⟩ := Enqueue_air_ready_returns dbg P s t H hst hH ho
      (fun _ => by rw [hHst]; rfl) ha
    obtain ⟨S, R, hS, hR, rfl⟩ := Enqueue_air_ready_result C dbg s s2 t H hst hH ho h2
    have he : (t :: s.Ready).erase H = t :: s.Ready.erase H :=
      List.erase_cons_tail (by simpa using htH)
    rw [he] at hR
    refine ⟨_, h2, ?_, ?_, ?_, ?_, ?_, ?_⟩
    · simp [With_sets, Allocate_state_frame, Node_state_changed,
        Function.update_noteq htH]
    · exact hR.mem_iff.2 (List.mem_cons_self _ _)
    · simp [With_sets, Allocate_state_frame]
    · intro x hxH hxt
      simp [With_sets, Allocate_state_frame, Node_state_changed, State.emit,
        Function.update_noteq hxH, Function.update_noteq hxt]
    · simpa [With_sets] using hS
    · simpa [With_sets] using hR
  · intro hH
    obtain ⟨S, hS, h2⟩ := Enqueue_air_scheduled_result C dbg s t hst hH
    refine ⟨_, h2, ?_, ?_, ?_, ?_, ?_, ?_, ?_, ?_⟩
    · simp [With_sets, Node_state_changed]
    · intro x hxt
      simp [With_sets, Node_state_changed, State.emit, Function.update_noteq hxt]
    · simpa [With_sets] using hS
    · simp [With_sets]
    · simp [With_sets, Node_state_changed, State.emit]
    · simp [With_sets, Node_state_changed, State.emit]
    · simp [With_sets, Node_state_changed, State.emit, hst]
    · intro p
      simp [With_sets, Node_state_changed, State.emit]

/-- C2, witness: in the example with A in the air, A goes back to the
scheduled set under its priority 1, and C takes its place once the priority of
A is 4. -/
theorem C2_enqueue_in_the_air_witness :
    (∃ s2, _Scheduler_SMP_Enqueue_ordered true
        (Simple_plugins Example_priority_lowered) Example_state_in_the_air 0 = .ok s2 ∧
      s2.state 0 = SCHEDULER_SMP_NODE_READY ∧ 0 ∈ s2.Ready ∧
      s2.state 2 = SCHEDULER_SMP_NODE_SCHEDULED ∧
      (∀ x, x ≠ 2 → x ≠ 0 → s2.state x = Example_state_in_the_air.state x) ∧
      s2.Scheduled.Perm (2 :: Example_state_in_the_air.Scheduled) ∧
      s2.Ready.Perm (0 :: Example_state_in_the_air.Ready.erase 2)) ∧
    (∃ s2, _Scheduler_SMP_Enqueue_ordered true
        (Simple_plugins Example_priority) Example_state_in_the_air 0 = .ok s2 ∧
      s2.state 0 = SCHEDULER_SMP_NODE_SCHEDULED ∧
      (∀ x, x ≠ 0 → s2.state x = Example_state_in_the_air.state x) ∧
      s2.Scheduled.Perm (0 :: Example_state_in_the_air.Scheduled) ∧
      s2.Ready = Example_state_in_the_air.Ready ∧
      s2.per_cpu = Example_state_in_the_air.per_cpu ∧
      s2.cpu = Example_state_in_the_air.cpu ∧
      s2.trace = Example_state_in_the_air.trace ++
        [Event.call_get_highest_ready,
         Event.node_change_state 0 SCHEDULER_SMP_NODE_IN_THE_AIR
           SCHEDULER_SMP_NODE_SCHEDULED,
         Event.call_insert_scheduled 0] ∧
      ∀ p, Event.send_interrupt p ∉
        s2.trace.drop Example_state_in_the_air.trace.length) :=
  ⟨(C2_enqueue_in_the_air (Simple_plugins_contract Example_priority_lowered) true
      Example_state_in_the_air 0
      (by unfold Placement_invariant; decide) (by decide)).1 2 (by decide) (by decide)
      (by unfold Allocate_assertions; decide),
   (C2_enqueue_in_the_air (Simple_plugins_contract Example_priority) true
      Example_state_in_the_air 0
      (by unfold Placement_invariant; decide) (by decide)).2 (by decide)⟩

/-- C3. Schedule, IN_THE_AIR branch.  For a state that satisfies the placement
invariant and has a non-empty ready set, and a thread `t` whose node is
IN_THE_AIR, with a concrete scheduler that obeys the ready-set contract:
`get_highest_ready` returns a thread `H` and (in a build with `RTEMS_DEBUG`:
when the assertions of the processor allocation hold for `H`)
`_Scheduler_SMP_Schedule` returns, the node of `t` is BLOCKED, the node of `H` is
SCHEDULED, `H` has moved from the ready set to the scheduled set, and when `H`
is not executing on a processor, the processor that was the current CPU of `t`
has heir `H` and dispatch necessary set, and it is the current CPU of `H`. -/
theorem C3_schedule_in_the_air {P : Plugins Thread Cpu} (C : Ready_set_contract P)
    (dbg : Bool) (s : State Thread Cpu) (t : Thread)
    (hI2 : Placement_invariant s)
    (hst : s.state t = SCHEDULER_SMP_NODE_IN_THE_AIR)
    (hR : s.Ready ≠ []) :
    (∃ H, P.get_highest_ready s = some H) ∧
    (∀ H, P.get_highest_ready s = some H → Allocate_assertions dbg s H →
      ∃ s2, _Scheduler_SMP_Schedule dbg P s t = .ok s2 ∧
        s2.state t = SCHEDULER_SMP_NODE_BLOCKED ∧
        s2.state H = SCHEDULER_SMP_NODE_SCHEDULED ∧
        (∀ x, x ≠ H → x ≠ t → s2.state x = s.state x) ∧
        s2.Scheduled.Perm (H :: s.Scheduled) ∧
        s2.Ready.Perm (s.Ready.erase H) ∧
        (s.is_executing H = false →
          (s2.per_cpu (s.cpu t)).heir = H ∧
          (s2.per_cpu (s.cpu t)).dispatch_necessary = true ∧
          s2.cpu H = s.cpu t)) := by
  constructor
  · cases hH : P.get_highest_ready s with
    | none => exact absurd ((C.get_highest_ready_none s).1 hH) hR
    | some H => exact ⟨H, rfl⟩
  · intro H hH ha
    have hHR : H ∈ s.Ready := C.get_highest_ready_mem s H hH
    have hHst := (Placement_ready hI2 H).1 hHR
    have htH : t ≠ H := fun e => by rw [e, hHst] at hst; cases hst
    obtain ⟨s2, h2⟩ := Schedule_air_returns C dbg s t H hst hH
      (fun _ => by rw [hHst]; rfl) ha
    obtain ⟨S, R, hS, hR2, rfl⟩ := Schedule_air_result C dbg s s2 t H hst hH h2
    refine ⟨_, h2, ?_, ?_, ?_, ?_, ?_, ?_⟩
    · simp [With_sets, Allocate_state_frame, Node_state_changed, State.emit,
        Function.update_noteq htH]
    · simp [With_sets, Allocate_state_frame]
    · intro x hxH hxt
      simp [With_sets, Allocate_state_frame, Node_state_changed, State.emit,
        Function.update_noteq hxH, Function.update_noteq hxt]
    · simpa [With_sets] using hS
    · simpa [With_sets] using hR2
    · intro hex
      simp [With_sets, Allocate_state_per_cpu, Allocate_state_cpu, Node_state_changed,
        State.emit, hex, htH.symm, Heir_record]

/-- C3, witness: in the example with A in the air, C becomes the heir of
processor 0, the processor of A. -/
theorem C3_schedule_in_the_air_witness :
    ∃ s2, _Scheduler_SMP_Schedule true (Simple_plugins Example_priority)
        Example_state_in_the_air 0 = .ok s2 ∧
      s2.state 0 = SCHEDULER_SMP_NODE_BLOCKED ∧
      s2.state 2 = SCHEDULER_SMP_NODE_SCHEDULED ∧
      (∀ x, x ≠ 2 → x ≠ 0 → s2.state x = Example_state_in_the_air.state x) ∧
      s2.Scheduled.Perm (2 :: Example_state_in_the_air.Scheduled) ∧
      s2.Ready.Perm (Example_state_in_the_air.Ready.erase 2) ∧
      (Example_state_in_the_air.is_executing 2 = false →
        (s2.per_cpu (Example_state_in_the_air.cpu 0)).heir = 2 ∧
        (s2.per_cpu (Example_state_in_the_air.cpu 0)).dispatch_necessary = true ∧
        s2.cpu 2 = Example_state_in_the_air.cpu 0) :=
  (C3_schedule_in_the_air (Simple_plugins_contract Example_priority) true
    Example_state_in_the_air 0 (by unfold Placement_invariant; decide) (by decide)
    (by decide)).2 2 (by decide) (by unfold Allocate_assertions; decide)

/-- C4. Schedule is a no-op outside the IN_THE_AIR state.  For every state,
every concrete scheduler and every thread whose node is BLOCKED, READY or
SCHEDULED, `_Scheduler_SMP_Schedule` returns the state it was given: node
states, both sets, processor records and current-CPU fields are unchanged, and
so is the trace of effects, so neither `get_highest_ready` nor
`move_from_ready_to_scheduled` is called and no inter-processor interrupt is
sent. -/
theorem C4_schedule_noop (dbg : Bool) (P : Plugins Thread Cpu)
    (s : State Thread Cpu) (t : Thread)
    (hst : s.state t = SCHEDULER_SMP_NODE_BLOCKED ∨
      s.state t = SCHEDULER_SMP_NODE_READY ∨
      s.state t = SCHEDULER_SMP_NODE_SCHEDULED) :
    _Scheduler_SMP_Schedule dbg P s t = .ok s := by
  apply Schedule_other
  rcases hst with h | h | h <;> rw [h] <;> decide

/-- C4, witness: the blocked thread D of the example. -/
theorem C4_schedule_noop_witness :
    _Scheduler_SMP_Schedule true (Simple_plugins Example_priority) Example_state 5 =
      .ok Example_state :=
  C4_schedule_noop true (Simple_plugins Example_priority) Example_state 5
    (Or.inl (by decide))

/-- C5. Block postcondition.  For a state that satisfies the placement
invariant, a concrete scheduler that obeys the contract (`extract` turns
SCHEDULED into IN_THE_AIR and READY into BLOCKED and removes the thread from its
set) and a thread `t` whose node is SCHEDULED or READY, the ready set being
non-empty when it is SCHEDULED (in a build with `RTEMS_DEBUG`: the assertions
of the processor allocation hold for the ready threads):
`_Scheduler_SMP_Block` returns, the node of `t` is BLOCKED and `t` is in neither
set. -/
theorem C5_block_postcondition {P : Plugins Thread Cpu} (C : Ready_set_contract P)
    (dbg : Bool) (s : State Thread Cpu) (t : Thread)
    (hI2 : Placement_invariant s)
    (hst : s.state t = SCHEDULER_SMP_NODE_SCHEDULED ∨
      s.state t = SCHEDULER_SMP_NODE_READY)
    (hR : s.state t = SCHEDULER_SMP_NODE_SCHEDULED → s.Ready ≠ [])
    (ha : ∀ H ∈ s.Ready, Allocate_assertions dbg s H) :
    ∃ s2, _Scheduler_SMP_Block dbg P s t = .ok s2 ∧
      s2.state t = SCHEDULER_SMP_NODE_BLOCKED ∧
      t ∉ s2.Scheduled ∧ t ∉ s2.Ready := by
  obtain ⟨S, R, hS, hRp, he⟩ := Extract_result C s t
  have htS : t ∉ S := fun hm =>
    ((List.Nodup.mem_erase_iff hI2.1).1 (hS.mem_iff.1 hm)).1 rfl
  have htR : t ∉ R := fun hm =>
    ((List.Nodup.mem_erase_iff hI2.2.1).1 (hRp.mem_iff.1 hm)).1 rfl
  rw [Block_eq]
  rw [he]
  rcases hst with hst | hst
  · have hair : (With_sets (Extracted s t) S R [Event.call_extract t]).state t
        = SCHEDULER_SMP_NODE_IN_THE_AIR := by
      simp [With_sets, Extracted, hst, Extract_state]
    have htR0 : t ∉ s.Ready := fun hm => by
      rw [(Placement_ready hI2 t).1 hm] at hst; cases hst
    have hRe : s.Ready.erase t = s.Ready := List.erase_of_not_mem htR0
    rw [hRe] at hRp
    have hRne : (With_sets (Extracted s t) S R [Event.call_extract t]).Ready
        ≠ [] := by
      intro h
      have : R = [] := h
      rw [this] at hRp
      exact hR hst (List.Perm.nil_eq hRp).symm
    cases hH : P.get_highest_ready
        (With_sets (Extracted s t) S R [Event.call_extract t]) with
    | none => exact absurd ((C.get_highest_ready_none _).1 hH) hRne
    | some H =>
      have hHR : H ∈ R := C.get_highest_ready_mem _ H hH
      have hHR0 : H ∈ s.Ready := hRp.mem_iff.1 hHR
      have hHst := (Placement_ready hI2 H).1 hHR0
      have hHt : H ≠ t := fun e => htR (e ▸ hHR)
      obtain ⟨s2, h2⟩ := Schedule_air_returns C dbg _ t H hair hH
        (fun _ => by
          have : (With_sets (Extracted s t) S R [Event.call_extract t]).state H
            = s.state H := by
            simp [With_sets, Extracted, Function.update_noteq hHt]
          rw [this, hHst]; rfl)
        ((Allocate_assertions_congr dbg s _ H rfl rfl rfl rfl rfl rfl).2 (ha H hHR0))
      obtain ⟨S2, R2, hS2, hR2, rfl⟩ := Schedule_air_result C dbg _ s2 t H hair hH h2
      refine ⟨_, h2, ?_, ?_, ?_⟩
      · simp [With_sets, Allocate_state_frame, Node_state_changed, State.emit,
          Function.update_noteq hHt.symm]
      · intro hm
        rcases List.mem_cons.1 (hS2.mem_iff.1 hm) with e | hm
        · exact hHt e.symm
        · exact htS hm
      · intro hm
        exact htR (List.mem_of_mem_erase (hR2.mem_iff.1 hm))
  · have hb : (With_sets (Extracted s t) S R [Event.call_extract t]).state t
        = SCHEDULER_SMP_NODE_BLOCKED := by
      simp [With_sets, Extracted, hst, Extract_state]
    refine ⟨_, Schedule_other dbg P _ t (by rw [hb]; decide), hb, htS, htR⟩

/-- C5, witness: blocking the scheduled thread A and blocking the ready thread
C of the example. -/
theorem C5_block_postcondition_witness :
    (∃ s2, _Scheduler_SMP_Block true (Simple_plugins Example_priority)
        Example_state 0 = .ok s2 ∧
      s2.state 0 = SCHEDULER_SMP_NODE_BLOCKED ∧ 0 ∉ s2.Scheduled ∧ 0 ∉ s2.Ready) ∧
    (∃ s2, _Scheduler_SMP_Block true (Simple_plugins Example_priority)
        Example_state 2 = .ok s2 ∧
      s2.state 2 = SCHEDULER_SMP_NODE_BLOCKED ∧ 2 ∉ s2.Scheduled ∧ 2 ∉ s2.Ready) :=
  ⟨C5_block_postcondition (Simple_plugins_contract Example_priority) true
      Example_state 0 (by unfold Placement_invariant; decide) (Or.inl (by decide))
      (by decide) (by unfold Allocate_assertions; decide),
   C5_block_postcondition (Simple_plugins_contract Example_priority) true
      Example_state 2 (by unfold Placement_invariant; decide) (Or.inr (by decide))
      (by decide) (by unfold Allocate_assertions; decide)⟩

/-- C6, as the code has it.  For every state in which the node of the thread
is IN_THE_AIR and the ready set is empty, with a concrete scheduler that obeys
the contract, `_Scheduler_SMP_Schedule` tests no assertion on the result of
`get_highest_ready`: with and without `RTEMS_DEBUG` it hands the `NULL` pointer
to `_Scheduler_SMP_Allocate_processor`, which reads through it.  The
operation ends in the use of the `NULL` pointer, not in an assertion
failure. -/
theorem C6_schedule_empty_ready_set {P : Plugins Thread Cpu}
    (C : Ready_set_contract P) (dbg : Bool) (s : State Thread Cpu) (t : Thread)
    (hst : s.state t = SCHEDULER_SMP_NODE_IN_THE_AIR)
    (hR : s.Ready = []) :
    P.get_highest_ready s = none ∧
    _Scheduler_SMP_Schedule dbg P s t = .error Fault.null_dereference :=
  ⟨(C.get_highest_ready_none s).2 hR,
    Schedule_air_null C dbg s t hst ((C.get_highest_ready_none s).2 hR)⟩

/-- C6, witness: the example with an empty ready set, in a build with
`RTEMS_DEBUG`. -/
theorem C6_schedule_empty_ready_set_witness :
    (Simple_plugins Example_priority : Plugins (Fin 7) (Fin 2)).get_highest_ready
      Example_state_no_ready = none ∧
    _Scheduler_SMP_Schedule true (Simple_plugins Example_priority)
      Example_state_no_ready 0 = .error Fault.null_dereference :=
  C6_schedule_empty_ready_set (Simple_plugins_contract Example_priority) true
    Example_state_no_ready 0 (by decide) (by decide)

/-- C6, counterexample to the claim as stated: in a build with `RTEMS_DEBUG`,
for the thread A in the air and an empty ready set, `get_highest_ready` returns
`NULL` and `_Scheduler_SMP_Schedule` does not end in an assertion failure. -/
theorem C6_schedule_empty_ready_set_counterexample :
    Example_state_no_ready.state 0 = SCHEDULER_SMP_NODE_IN_THE_AIR ∧
    (Simple_plugins Example_priority : Plugins (Fin 7) (Fin 2)).get_highest_ready
      Example_state_no_ready = none ∧
    _Scheduler_SMP_Schedule true (Simple_plugins Example_priority)
      Example_state_no_ready 0 ≠ .error Fault.assertion_failed := by
  refine ⟨by decide, by decide, ?_⟩
  have h : _Scheduler_SMP_Schedule true (Simple_plugins Example_priority)
      Example_state_no_ready 0 = .error Fault.null_dereference := rfl
  rw [h]
  intro hc
  cases hc

/-- C7. The scheduler invariant I5 is preserved by every core operation.
Assume the order function is a priority comparator and `get_highest_ready`
returns a ready thread of numerically smallest priority (`Priority_plugins`),
the concrete scheduler obeys the ready-set contract, the placement invariant
holds and the last node of the scheduled chain has the numerically largest
priority of the chain.  If no scheduled thread has a larger priority number than
a ready thread, then the same holds in every state
`_Scheduler_SMP_Enqueue_ordered`, `_Scheduler_SMP_Schedule` and
`_Scheduler_SMP_Block` return with, and the operations do return: the enqueue
of a BLOCKED or IN_THE_AIR thread, the schedule of any thread (ready set
non-empty when the thread is IN_THE_AIR) and the block of any thread (ready set
non-empty when the thread is SCHEDULED or IN_THE_AIR); in a build with
`RTEMS_DEBUG` this needs the conditions the assertions of the processor
allocation test. -/
theorem C7_scheduler_invariant {P : Plugins Thread Cpu} (C : Ready_set_contract P)
    (priority : Thread → Nat) (hp : Priority_plugins priority P)
    (dbg : Bool) (s : State Thread Cpu) (t : Thread)
    (hI2 : Placement_invariant s)
    (hlast : ∀ L, s.Scheduled.getLast? = some L →
      ∀ x ∈ s.Scheduled, priority x ≤ priority L)
    (hI5 : Scheduler_invariant priority s)
    (ha : ∀ x, Allocate_assertions dbg s x) :
    ((∀ s2, _Scheduler_SMP_Enqueue_ordered dbg P s t = .ok s2 →
        Scheduler_invariant priority s2) ∧
      (s.state t = SCHEDULER_SMP_NODE_BLOCKED ∨
          s.state t = SCHEDULER_SMP_NODE_IN_THE_AIR →
        ∃ s2, _Scheduler_SMP_Enqueue_ordered dbg P s t = .ok s2)) ∧
    ((∀ s2, _Scheduler_SMP_Schedule dbg P s t = .ok s2 →
        Scheduler_invariant priority s2) ∧
      ((s.state t = SCHEDULER_SMP_NODE_IN_THE_AIR → s.Ready ≠ []) →
        ∃ s2, _Scheduler_SMP_Schedule dbg P s t = .ok s2)) ∧
    ((∀ s2, _Scheduler_SMP_Block dbg P s t = .ok s2 →
        Scheduler_invariant priority s2) ∧
      ((s.state t = SCHEDULER_SMP_NODE_SCHEDULED ∨
          s.state t = SCHEDULER_SMP_NODE_IN_THE_AIR → s.Ready ≠ []) →
        ∃ s2, _Scheduler_SMP_Block dbg P s t = .ok s2)) :=
  ⟨⟨fun s2 h => I5_enqueue C hp dbg s s2 t hlast hI5 h,
      fun hst => Enqueue_returns C dbg s t hI2 hst ha⟩,
    ⟨fun s2 h => I5_schedule C hp dbg s s2 t hI5 h,
      fun hR => Schedule_returns C dbg s t hI2 hR ha⟩,
    ⟨fun s2 h => I5_block C hp dbg s s2 t hI5 h,
      fun hR => Block_returns C dbg s t hI2 hR ha⟩⟩

/-- C7, witness: in the example the invariant I5 holds after the enqueue of
the blocked thread D, after the enqueue and after the schedule of A in the air,
and after the block of the scheduled thread A. -/
theorem C7_scheduler_invariant_witness :
    (∃ s2, _Scheduler_SMP_Enqueue_ordered true (Simple_plugins Example_priority)
        Example_state 5 = .ok s2 ∧ Scheduler_invariant Example_priority s2) ∧
    (∃ s2, _Scheduler_SMP_Enqueue_ordered true (Simple_plugins Example_priority)
        Example_state_in_the_air 0 = .ok s2 ∧
      Scheduler_invariant Example_priority s2) ∧
    (∃ s2, _Scheduler_SMP_Schedule true (Simple_plugins Example_priority)
        Example_state_in_the_air 0 = .ok s2 ∧
      Scheduler_invariant Example_priority s2) ∧
    (∃ s2, _Scheduler_SMP_Block true (Simple_plugins Example_priority)
        Example_state 0 = .ok s2 ∧ Scheduler_invariant Example_priority s2) := by
  have h1 := C7_scheduler_invariant (Simple_plugins_contract Example_priority)
    Example_priority (Simple_plugins_priority Example_priority) true Example_state 5
    (by unfold Placement_invariant; decide) (by decide)
    (by unfold Scheduler_invariant; decide) (by unfold Allocate_assertions; decide)
  have h2 := C7_scheduler_invariant (Simple_plugins_contract Example_priority)
    Example_priority (Simple_plugins_priority Example_priority) true
    Example_state_in_the_air 0
    (by unfold Placement_invariant; decide) (by decide)
    (by unfold Scheduler_invariant; decide) (by unfold Allocate_assertions; decide)
  have h3 := C7_scheduler_invariant (Simple_plugins_contract Example_priority)
    Example_priority (Simple_plugins_priority Example_priority) true Example_state 0
    (by unfold Placement_invariant; decide) (by decide)
    (by unfold Scheduler_invariant; decide) (by unfold Allocate_assertions; decide)
  refine ⟨?_, ?_, ?_, ?_⟩
  · obtain ⟨s2, e⟩ := h1.1.2 (Or.inl (by decide))
    exact ⟨s2, e, h1.1.1 s2 e⟩
  · obtain ⟨s2, e⟩ := h2.1.2 (Or.inr (by decide))
    exact ⟨s2, e, h2.1.1 s2 e⟩
  · obtain ⟨s2, e⟩ := h2.2.1.2 (fun _ => by decide)
    exact ⟨s2, e, h2.2.1.1 s2 e⟩
  · obtain ⟨s2, e⟩ := h3.2.2.2 (fun _ => by decide)
    exact ⟨s2, e, h3.2.2.1 s2 e⟩

/-- C8. The placement invariant I2 / P2 is preserved by every core operation.
With a concrete scheduler that obeys the ready-set contract, if the state of
every node matches its set membership and no thread is in a set twice, the same
holds in the state returned by the enqueue of a BLOCKED or IN_THE_AIR thread, by
the extract of a thread (SCHEDULED, READY or other), by the schedule of any
thread and by the block of any thread; and these operations do return (schedule
with a non-empty ready set when the thread is IN_THE_AIR, block with a
non-empty ready set when the thread is SCHEDULED or IN_THE_AIR; in a build with
`RTEMS_DEBUG` under the conditions the assertions of the processor allocation
test). -/
theorem C8_placement_invariant {P : Plugins Thread Cpu} (C : Ready_set_contract P)
    (dbg : Bool) (s : State Thread Cpu) (t : Thread)
    (hI2 : Placement_invariant s)
    (ha : ∀ x, Allocate_assertions dbg s x) :
    (s.state t = SCHEDULER_SMP_NODE_BLOCKED ∨
        s.state t = SCHEDULER_SMP_NODE_IN_THE_AIR →
      (∃ s2, _Scheduler_SMP_Enqueue_ordered dbg P s t = .ok s2) ∧
      ∀ s2, _Scheduler_SMP_Enqueue_ordered dbg P s t = .ok s2 →
        Placement_invariant s2) ∧
    Placement_invariant (_Scheduler_SMP_Extract P s t) ∧
    (((s.state t = SCHEDULER_SMP_NODE_IN_THE_AIR → s.Ready ≠ []) →
        ∃ s2, _Scheduler_SMP_Schedule dbg P s t = .ok s2) ∧
      ∀ s2, _Scheduler_SMP_Schedule dbg P s t = .ok s2 → Placement_invariant s2) ∧
    (((s.state t = SCHEDULER_SMP_NODE_SCHEDULED ∨
          s.state t = SCHEDULER_SMP_NODE_IN_THE_AIR → s.Ready ≠ []) →
        ∃ s2, _Scheduler_SMP_Block dbg P s t = .ok s2) ∧
      ∀ s2, _Scheduler_SMP_Block dbg P s t = .ok s2 → Placement_invariant s2) :=
  ⟨fun hst => ⟨Enqueue_returns C dbg s t hI2 hst ha,
      fun s2 h => Placement_enqueue C dbg s s2 t hI2 hst h⟩,
    Placement_extract C s t hI2,
    ⟨fun hR => Schedule_returns C dbg s t hI2 hR ha,
      fun s2 h => Placement_schedule C dbg s s2 t hI2 h⟩,
    ⟨fun hR => Block_returns C dbg s t hI2 hR ha,
      fun s2 h => Placement_block C dbg s s2 t hI2 h⟩⟩

/-- C8, witness: in the example the placement invariant holds after the
enqueue of the blocked thread D, after the extract of the scheduled thread A,
after the enqueue and the schedule of A in the air, and after the block of
A. -/
theorem C8_placement_invariant_witness :
    (∃ s2, _Scheduler_SMP_Enqueue_ordered true (Simple_plugins Example_priority)
        Example_state 5 = .ok s2 ∧ Placement_invariant s2) ∧
    Placement_invariant
      (_Scheduler_SMP_Extract (Simple_plugins Example_priority) Example_state 0) ∧
    (∃ s2, _Scheduler_SMP_Enqueue_ordered true (Simple_plugins Example_priority)
        Example_state_in_the_air 0 = .ok s2 ∧ Placement_invariant s2) ∧
    (∃ s2, _Scheduler_SMP_Schedule true (Simple_plugins Example_priority)
        Example_state_in_the_air 0 = .ok s2 ∧ Placement_invariant s2) ∧
    (∃ s2, _Scheduler_SMP_Block true (Simple_plugins Example_priority)
        Example_state 0 = .ok s2 ∧ Placement_invariant s2) := by
  have h1 := C8_placement_invariant (Simple_plugins_contract Example_priority) true
    Example_state 5 (by unfold Placement_invariant; decide)
    (by unfold Allocate_assertions; decide)
  have h2 := C8_placement_invariant (Simple_plugins_contract Example_priority) true
    Example_state_in_the_air 0 (by unfold Placement_invariant; decide)
    (by unfold Allocate_assertions; decide)
  have h3 := C8_placement_invariant (Simple_plugins_contract Example_priority) true
    Example_state 0 (by unfold Placement_invariant; decide)
    (by unfold Allocate_assertions; decide)
  refine ⟨?_, h3.2.1, ?_, ?_, ?_⟩
  · obtain ⟨⟨s2, e⟩, hp⟩ := h1.1 (Or.inl (by decide))
    exact ⟨s2, e, hp s2 e⟩
  · obtain ⟨⟨s2, e⟩, hp⟩ := h2.1 (Or.inr (by decide))
    exact ⟨s2, e, hp s2 e⟩
  · obtain ⟨s2, e⟩ := h2.2.2.1.1 (fun _ => by decide)
    exact ⟨s2, e, h2.2.2.1.2 s2 e⟩
  · obtain ⟨s2, e⟩ := h3.2.2.2.1 (fun _ => by decide)
    exact ⟨s2, e, h3.2.2.2.2 s2 e⟩

/-- C9, as the code has it.  With a concrete scheduler that obeys the
ready-set contract, let on entry the placement invariant hold, the current-CPU
field of every heir name the processor whose heir it is, and the heir of every
processor of the instance be a thread whose node is SCHEDULED, except that the
thread `t` of the operation may be an heir whose node is IN_THE_AIR (the state
an extract of `t` leaves; the heir invariant I3 on entry is the special case
without the exception).  Then on return from the enqueue of `t` (BLOCKED or
IN_THE_AIR), from the schedule of `t` and from the block of `t` the heir of
every processor is a thread whose node is SCHEDULED (and its current-CPU field
names the processor), and these operations do return (schedule and block with a
non-empty ready set when a highest ready thread is needed; in a build with
`RTEMS_DEBUG` under the conditions the assertions of the processor allocation
test).  On return from the extract of `t` the processor records are the old
ones: every heir but `t` is SCHEDULED and `t`, when it is an heir, is
IN_THE_AIR; the enqueue of `t` that follows the extract returns and restores
the heir invariant, as does the schedule that follows it inside block. -/
theorem C9_heir_invariant {P : Plugins Thread Cpu} (C : Ready_set_contract P)
    (dbg : Bool) (s : State Thread Cpu) (t : Thread)
    (hI2 : Placement_invariant s) (hD : Heir_invariant_during s t)
    (hJ : Heir_cpu s) :
    (s.state t = SCHEDULER_SMP_NODE_BLOCKED ∨
        s.state t = SCHEDULER_SMP_NODE_IN_THE_AIR →
      ((∀ x, Allocate_assertions dbg s x) →
        ∃ s2, _Scheduler_SMP_Enqueue_ordered dbg P s t = .ok s2) ∧
      ∀ s2, _Scheduler_SMP_Enqueue_ordered dbg P s t = .ok s2 →
        Heir_invariant s2 ∧ Heir_cpu s2) ∧
    (((∀ x, Allocate_assertions dbg s x) →
        (s.state t = SCHEDULER_SMP_NODE_IN_THE_AIR → s.Ready ≠ []) →
        ∃ s2, _Scheduler_SMP_Schedule dbg P s t = .ok s2) ∧
      ∀ s2, _Scheduler_SMP_Schedule dbg P s t = .ok s2 →
        Heir_invariant s2 ∧ Heir_cpu s2) ∧
    (((∀ x, Allocate_assertions dbg s x) →
        (s.state t = SCHEDULER_SMP_NODE_SCHEDULED ∨
          s.state t = SCHEDULER_SMP_NODE_IN_THE_AIR → s.Ready ≠ []) →
        ∃ s2, _Scheduler_SMP_Block dbg P s t = .ok s2) ∧
      ∀ s2, _Scheduler_SMP_Block dbg P s t = .ok s2 →
        Heir_invariant s2 ∧ Heir_cpu s2) ∧
    (Heir_invariant_during (_Scheduler_SMP_Extract P s t) t ∧
      Heir_cpu (_Scheduler_SMP_Extract P s t) ∧
      (_Scheduler_SMP_Extract P s t).per_cpu = s.per_cpu ∧
      ∀ p, _Scheduler_SMP_Is_processor_owned_by_us (_Scheduler_SMP_Extract P s t) p
          = true →
        ((_Scheduler_SMP_Extract P s t).per_cpu p).heir = t →
        (_Scheduler_SMP_Extract P s t).state t = SCHEDULER_SMP_NODE_IN_THE_AIR) ∧
    (((∀ x, Allocate_assertions dbg s x) →
        ∃ s2, _Scheduler_SMP_Enqueue_ordered dbg P (_Scheduler_SMP_Extract P s t) t
          = .ok s2) ∧
      ∀ s2, _Scheduler_SMP_Enqueue_ordered dbg P (_Scheduler_SMP_Extract P s t) t
          = .ok s2 →
        Heir_invariant s2 ∧ Heir_cpu s2) := by
  have hE := Heir_extract_during C s t hD hJ
  have hI2e := Placement_extract C s t hI2
  have hste : (_Scheduler_SMP_Extract P s t).state t = SCHEDULER_SMP_NODE_BLOCKED ∨
      (_Scheduler_SMP_Extract P s t).state t = SCHEDULER_SMP_NODE_IN_THE_AIR := by
    obtain ⟨S, R, _, _, he⟩ := Extract_result C s t
    rw [he]
    show Function.update s.state t (Extract_state (s.state t)) t = _ ∨
      Function.update s.state t (Extract_state (s.state t)) t = _
    rw [Function.update_same]
    cases s.state t <;> simp [Extract_state]
  exact ⟨fun hst => ⟨fun ha => Enqueue_returns C dbg s t hI2 hst ha,
      fun s2 h => Heir_enqueue_during C dbg s s2 t hI2 hD hJ hst h⟩,
    ⟨fun ha hR => Schedule_returns C dbg s t hI2 hR ha,
      fun s2 h => Heir_schedule_during C dbg s s2 t hI2 hD hJ h⟩,
    ⟨fun ha hR => Block_returns C dbg s t hI2 hR ha,
      fun s2 h => Heir_block_during C dbg s s2 t hI2 hD hJ h⟩,
    hE,
    ⟨fun ha => Enqueue_returns C dbg _ t hI2e hste
        (fun x => Allocate_assertions_extract C dbg s t x (ha x)),
      fun s2 h => Heir_enqueue_during C dbg _ s2 t hI2e hE.1 hE.2.1 hste h⟩⟩

/-- C9, witness.  In the example, where the heir invariant holds, it holds
again after the enqueue of the blocked thread D (which displaces B, the heir of
processor 1), after the block of the scheduled thread A and after the extract
of A followed by its enqueue.  In the example after the extract of A, where A
is in the air and still the heir of processor 0, so that the heir invariant
does not hold, it holds after the enqueue of A with its priority lowered to 4
(C takes the processor) and after the schedule of A. -/
theorem C9_heir_invariant_witness :
    (∃ s2, _Scheduler_SMP_Enqueue_ordered true (Simple_plugins Example_priority)
        Example_state 5 = .ok s2 ∧ Heir_invariant s2 ∧ Heir_cpu s2) ∧
    (∃ s2, _Scheduler_SMP_Block true (Simple_plugins Example_priority)
        Example_state 0 = .ok s2 ∧ Heir_invariant s2 ∧ Heir_cpu s2) ∧
    (∃ s2, _Scheduler_SMP_Enqueue_ordered true (Simple_plugins Example_priority)
        (_Scheduler_SMP_Extract (Simple_plugins Example_priority) Example_state 0) 0
          = .ok s2 ∧ Heir_invariant s2 ∧ Heir_cpu s2) ∧
    (Example_state_in_the_air.state 0 = SCHEDULER_SMP_NODE_IN_THE_AIR ∧
      (Example_state_in_the_air.per_cpu 0).heir = 0 ∧
      ¬ Heir_invariant Example_state_in_the_air) ∧
    (∃ s2, _Scheduler_SMP_Enqueue_ordered true
        (Simple_plugins Example_priority_lowered) Example_state_in_the_air 0
          = .ok s2 ∧ Heir_invariant s2 ∧ Heir_cpu s2) ∧
    (∃ s2, _Scheduler_SMP_Schedule true (Simple_plugins Example_priority)
        Example_state_in_the_air 0 = .ok s2 ∧ Heir_invariant s2 ∧ Heir_cpu s2) := by
  have h1 := C9_heir_invariant (Simple_plugins_contract Example_priority) true
    Example_state 5 (by unfold Placement_invariant; decide)
    (by unfold Heir_invariant_during; decide) (by unfold Heir_cpu; decide)
  have h2 := C9_heir_invariant (Simple_plugins_contract Example_priority) true
    Example_state 0 (by unfold Placement_invariant; decide)
    (by unfold Heir_invariant_during; decide) (by unfold Heir_cpu; decide)
  have h3 := C9_heir_invariant (Simple_plugins_contract Example_priority_lowered) true
    Example_state_in_the_air 0 (by unfold Placement_invariant; decide)
    (by unfold Heir_invariant_during; decide) (by unfold Heir_cpu; decide)
  have h4 := C9_heir_invariant (Simple_plugins_contract Example_priority) true
    Example_state_in_the_air 0 (by unfold Placement_invariant; decide)
    (by unfold Heir_invariant_during; decide) (by unfold Heir_cpu; decide)
  refine ⟨?_, ?_, ?_, ⟨by decide, by decide, by unfold Heir_invariant; decide⟩, ?_, ?_⟩
  · obtain ⟨hr, hp⟩ := h1.1 (Or.inl (by decide))
    obtain ⟨s2, e⟩ := hr (by unfold Allocate_assertions; decide)
    exact ⟨s2, e, hp s2 e⟩
  · obtain ⟨s2, e⟩ := h2.2.2.1.1 (by unfold Allocate_assertions; decide)
      (fun _ => by decide)
    exact ⟨s2, e, h2.2.2.1.2 s2 e⟩
  · obtain ⟨s2, e⟩ := h2.2.2.2.2.1 (by unfold Allocate_assertions; decide)
    exact ⟨s2, e, h2.2.2.2.2.2 s2 e⟩
  · obtain ⟨hr, hp⟩ := h3.1 (Or.inr (by decide))
    obtain ⟨s2, e⟩ := hr (by unfold Allocate_assertions; decide)
    exact ⟨s2, e, hp s2 e⟩
  · obtain ⟨s2, e⟩ := h4.2.1.1 (by unfold Allocate_assertions; decide)
      (fun _ => by decide)
    exact ⟨s2, e, h4.2.1.2 s2 e⟩

/-- C9, counterexample to the claim as stated.  In the example every heir is
SCHEDULED, and after `_Scheduler_SMP_Extract` of A the heir of processor 0 is
not: the heir invariant does not hold on return from extract.  With
current-CPU fields that do not match the heirs the heir invariant holds on
entry to the enqueue of D and not on return: B, now READY, is still the heir of
processor 1. -/
theorem C9_heir_invariant_counterexample :
    (Heir_invariant Example_state ∧
      ¬ Heir_invariant
        (_Scheduler_SMP_Extract (Simple_plugins Example_priority) Example_state 0)) ∧
    (Heir_invariant Example_state_cpu_mismatch ∧
      ∃ s2, _Scheduler_SMP_Enqueue_ordered true (Simple_plugins Example_priority)
        Example_state_cpu_mismatch 5 = .ok s2 ∧ ¬ Heir_invariant s2) := by
  refine ⟨⟨by unfold Heir_invariant; decide, by unfold Heir_invariant; decide⟩,
    by unfold Heir_invariant; decide, ?_⟩
  have hret := Enqueue_returns (Simple_plugins_contract Example_priority) true
    Example_state_cpu_mismatch 5 (by unfold Placement_invariant; decide)
    (Or.inl (by decide)) (by unfold Allocate_assertions; decide)
  obtain ⟨s2, e⟩ := hret
  refine ⟨s2, e, ?_⟩
  intro hI3
  have hv : (_Scheduler_SMP_Enqueue_ordered true (Simple_plugins Example_priority)
      Example_state_cpu_mismatch 5).toOption.map
        (fun s => (_Scheduler_SMP_Is_processor_owned_by_us s 1,
          s.state (s.per_cpu 1).heir)) = some (true, SCHEDULER_SMP_NODE_READY) := by
    decide
  rw [e] at hv
  simp only [Except.toOption, Option.map_some', Option.some.injEq, Prod.mk.injEq] at hv
  have := hI3 1 hv.1
  rw [hv.2] at this
  cases this

/-- C10. Heir distinctness I4 is preserved by the processor allocation.  For
every state in which all processors belong to the instance, the heirs are
pairwise distinct, the current-CPU field of each heir names the processor whose
heir it is, `victim` is the heir of its current CPU and `scheduled` is the heir
of no processor: in every state `_Scheduler_SMP_Allocate_processor` returns with
the heirs are pairwise distinct, `scheduled` is the heir of exactly one
processor and `victim` is the heir of no processor; the operation returns (in a
build with `RTEMS_DEBUG`: when the transition of `scheduled` to SCHEDULED is
permitted and its assertions hold).  Hence the enqueue of a BLOCKED or
IN_THE_AIR thread and schedule preserve I4: under the placement invariant and
the ready-set contract, when the node of every heir is SCHEDULED or IN_THE_AIR
and the heirs are pairwise distinct, they are pairwise distinct in every state
these operations return with. -/
theorem C10_heir_distinct {P : Plugins Thread Cpu} (C : Ready_set_contract P)
    (dbg : Bool) (s : State Thread Cpu) :
    (∀ scheduled victim : Thread,
      (∀ p, _Scheduler_SMP_Is_processor_owned_by_us s p = true) →
      Heir_distinct s → Heir_cpu s →
      (s.per_cpu (s.cpu victim)).heir = victim →
      (∀ p, (s.per_cpu p).heir ≠ scheduled) →
      ((dbg = true → _Scheduler_SMP_Node_valid_state_changes (s.state scheduled)
            SCHEDULER_SMP_NODE_SCHEDULED = true) →
          Allocate_assertions dbg s scheduled →
          ∃ s2, _Scheduler_SMP_Allocate_processor dbg s scheduled victim = .ok s2) ∧
        ∀ s2, _Scheduler_SMP_Allocate_processor dbg s scheduled victim = .ok s2 →
          Heir_distinct s2 ∧
          (∃ p0, ∀ p, (s2.per_cpu p).heir = scheduled ↔ p = p0) ∧
          ∀ p, (s2.per_cpu p).heir ≠ victim) ∧
    (∀ t : Thread, Placement_invariant s → Heir_seated s → Heir_distinct s →
      s.state t = SCHEDULER_SMP_NODE_BLOCKED ∨
        s.state t = SCHEDULER_SMP_NODE_IN_THE_AIR →
      ∀ s2, _Scheduler_SMP_Enqueue_ordered dbg P s t = .ok s2 → Heir_distinct s2) ∧
    (∀ t : Thread, Placement_invariant s → Heir_seated s → Heir_distinct s →
      ∀ s2, _Scheduler_SMP_Schedule dbg P s t = .ok s2 → Heir_distinct s2) := by
  refine ⟨?_, ?_, ?_⟩
  · intro sch v hown hI4 _ hv hs
    constructor
    · intro hvalid ha
      exact ⟨_, Allocate_ok dbg s sch v hvalid ha⟩
    · intro s2 h
      obtain rfl := Allocate_inv dbg s s2 sch v h
      exact ⟨Allocate_heir_distinct s sch v hI4 (fun p _ => hs p),
        Allocate_heir_exchange s sch v hown hI4 hv hs⟩
  · intro t hI2 hseat hI4 hst s2 h
    exact Distinct_enqueue C dbg s s2 t hI2 hseat hI4 hst h
  · intro t hI2 hseat hI4 s2 h
    exact Distinct_schedule C dbg s s2 t hI2 hseat hI4 h

/-- C10, witness.  In the example the idle thread I, still executing on
processor 0, is given a processor at the expense of B, the heir of processor 1:
I becomes the heir of processor 0 and A moves to processor 1.  The heirs stay
distinct through the enqueue of D and through the schedule of A in the air. -/
theorem C10_heir_distinct_witness :
    (∃ s2, _Scheduler_SMP_Allocate_processor true Example_state 3 1 = .ok s2 ∧
      Heir_distinct s2 ∧
      (∃ p0, ∀ p, (s2.per_cpu p).heir = 3 ↔ p = p0) ∧
      ∀ p, (s2.per_cpu p).heir ≠ 1) ∧
    (∃ s2, _Scheduler_SMP_Enqueue_ordered true (Simple_plugins Example_priority)
        Example_state 5 = .ok s2 ∧ Heir_distinct s2) ∧
    (∃ s2, _Scheduler_SMP_Schedule true (Simple_plugins Example_priority)
        Example_state_in_the_air 0 = .ok s2 ∧ Heir_distinct s2) := by
  have h1 := C10_heir_distinct (Simple_plugins_contract Example_priority) true
    Example_state
  have h2 := C10_heir_distinct (Simple_plugins_contract Example_priority) true
    Example_state_in_the_air
  refine ⟨?_, ?_, ?_⟩
  · have h := h1.1 3 1 (by decide) (by unfold Heir_distinct; decide)
      (by unfold Heir_cpu; decide) (by decide) (by decide)
    obtain ⟨s2, e⟩ := h.1 (fun _ => by decide) (by unfold Allocate_assertions; decide)
    exact ⟨s2, e, h.2 s2 e⟩
  · obtain ⟨s2, e⟩ := Enqueue_returns (Simple_plugins_contract Example_priority) true
      Example_state 5 (by unfold Placement_invariant; decide) (Or.inl (by decide))
      (by unfold Allocate_assertions; decide)
    exact ⟨s2, e, h1.2.1 5 (by unfold Placement_invariant; decide)
      (by unfold Heir_seated; decide) (by unfold Heir_distinct; decide)
      (Or.inl (by decide)) s2 e⟩
  · obtain ⟨s2, e⟩ := Schedule_returns (Simple_plugins_contract Example_priority) true
      Example_state_in_the_air 0 (by unfold Placement_invariant; decide)
      (fun _ => by decide) (by unfold Allocate_assertions; decide)
    exact ⟨s2, e, h2.2.2 0 (by unfold Placement_invariant; decide)
      (by unfold Heir_seated; decide) (by unfold Heir_distinct; decide) s2 e⟩

/-- C11, as the code has it.  For a state that satisfies the placement
invariant, a concrete scheduler that obeys the ready-set contract and a
SCHEDULED thread `t`, `_Scheduler_SMP_Extract` of `t` followed by
`_Scheduler_SMP_Enqueue_ordered` of `t` returns, and:

* if the order function places `t` before every ready thread, the returned
  state has the same content of the scheduled set and of the ready set, the
  same processor records (so the same heir on every processor), the same
  current-CPU fields and the same node states as before;
* if the highest ready thread `H` of the state after the extract is not
  ordered after `t` (in a build with `RTEMS_DEBUG`: and the assertions of the
  processor allocation hold for `H`), then `H` takes the place of `t`: `t` is
  READY and in the ready set, `H` is SCHEDULED and in the scheduled set, every
  other node state is as before, and the heirs are the ones
  `_Scheduler_SMP_Allocate_processor` sets for `H` and the victim `t`.  When
  `H` is not executing on a processor of the instance, `H` is the heir of the
  current CPU of `t`; when `H` is executing on a processor of the instance
  whose heir is `t`, `H` is the heir of that processor; when `H` is executing
  on a processor of the instance whose heir `X` is not `t`, `X` is the heir of
  the current CPU of `t` and `H` the heir of its own processor if that is
  another one; the heirs of all other processors are as before. -/
theorem C11_extract_enqueue_round_trip {P : Plugins Thread Cpu}
    (C : Ready_set_contract P) (dbg : Bool) (s : State Thread Cpu) (t : Thread)
    (hI2 : Placement_invariant s)
    (hst : s.state t = SCHEDULER_SMP_NODE_SCHEDULED) :
    ((∀ H ∈ s.Ready, P.order t H = true) →
      ∃ s2, _Scheduler_SMP_Enqueue_ordered dbg P (_Scheduler_SMP_Extract P s t) t
          = .ok s2 ∧
        s2.Scheduled.Perm s.Scheduled ∧ s2.Ready.Perm s.Ready ∧
        s2.per_cpu = s.per_cpu ∧ s2.cpu = s.cpu ∧ s2.state = s.state) ∧
    (∀ H, P.get_highest_ready (_Scheduler_SMP_Extract P s t) = some H →
      P.order t H = false → Allocate_assertions dbg s H →
      H ∈ s.Ready ∧ H ≠ t ∧
      ∃ s2, _Scheduler_SMP_Enqueue_ordered dbg P (_Scheduler_SMP_Extract P s t) t
          = .ok s2 ∧
        s2.state = Function.update
          (Function.update s.state t SCHEDULER_SMP_NODE_READY) H
          SCHEDULER_SMP_NODE_SCHEDULED ∧
        s2.Scheduled.Perm (H :: s.Scheduled.erase t) ∧
        s2.Ready.Perm (t :: s.Ready.erase H) ∧
        (¬ (s.is_executing H = true ∧
            _Scheduler_SMP_Is_processor_owned_by_us s (s.cpu H) = true) →
          ∀ p, (s2.per_cpu p).heir =
            if p = s.cpu t then H else (s.per_cpu p).heir) ∧
        (s.is_executing H = true ∧
            _Scheduler_SMP_Is_processor_owned_by_us s (s.cpu H) = true →
          (s.per_cpu (s.cpu H)).heir = t →
          ∀ p, (s2.per_cpu p).heir =
            if p = s.cpu H then H else (s.per_cpu p).heir) ∧
        (s.is_executing H = true ∧
            _Scheduler_SMP_Is_processor_owned_by_us s (s.cpu H) = true →
          (s.per_cpu (s.cpu H)).heir ≠ t →
          ∀ p, (s2.per_cpu p).heir =
            if p = s.cpu t then (s.per_cpu (s.cpu H)).heir
            else if p = s.cpu H then H else (s.per_cpu p).heir)) :=
  ⟨fun hord => Round_trip_same C dbg s t hI2 hst hord,
    fun H hg ho ha => Round_trip_exchange C dbg s t H hI2 hst hg ho ha⟩

/-- C11, witness.  In the example A (priority 1) is ordered before the ready
threads C, I and J, and comes back to the scheduled set and to its processor.
In the example with the two idle threads of priority 5, the ready idle thread J
takes the place of the scheduled idle thread I: when J is not executing it
becomes the heir of processor 0, the processor of I; when J is executing on
processor 1 it becomes the heir of processor 1 and A, the former heir of
processor 1, becomes the heir of processor 0. -/
theorem C11_extract_enqueue_round_trip_witness :
    (∃ s2, _Scheduler_SMP_Enqueue_ordered true (Simple_plugins Example_priority)
        (_Scheduler_SMP_Extract (Simple_plugins Example_priority) Example_state 0) 0
        = .ok s2 ∧
      s2.Scheduled.Perm Example_state.Scheduled ∧
      s2.Ready.Perm Example_state.Ready ∧
      s2.per_cpu = Example_state.per_cpu ∧ s2.cpu = Example_state.cpu ∧
      s2.state = Example_state.state) ∧
    (∃ s2, _Scheduler_SMP_Enqueue_ordered true (Simple_plugins Example_priority)
        (_Scheduler_SMP_Extract (Simple_plugins Example_priority)
          Example_state_tie 3) 3 = .ok s2 ∧
      s2.state 3 = SCHEDULER_SMP_NODE_READY ∧
      s2.state 4 = SCHEDULER_SMP_NODE_SCHEDULED ∧
      s2.Scheduled.Perm [4, 0] ∧ s2.Ready.Perm [3] ∧
      (s2.per_cpu 0).heir = 4 ∧ (s2.per_cpu 1).heir = 0) ∧
    (∃ s2, _Scheduler_SMP_Enqueue_ordered true (Simple_plugins Example_priority)
        (_Scheduler_SMP_Extract (Simple_plugins Example_priority)
          Example_state_tie_executing 3) 3 = .ok s2 ∧
      s2.state 3 = SCHEDULER_SMP_NODE_READY ∧
      s2.state 4 = SCHEDULER_SMP_NODE_SCHEDULED ∧
      s2.Scheduled.Perm [4, 0] ∧ s2.Ready.Perm [3] ∧
      (s2.per_cpu 0).heir = 0 ∧ (s2.per_cpu 1).heir = 4) := by
  refine ⟨?_, ?_, ?_⟩
  · exact (C11_extract_enqueue_round_trip (Simple_plugins_contract Example_priority)
      true Example_state 0 (by unfold Placement_invariant; decide) (by decide)).1
      (by decide)
  · obtain ⟨_, _, s2, e, h1, h2, h3, h4, _, _⟩ :=
      (C11_extract_enqueue_round_trip (Simple_plugins_contract Example_priority)
        true Example_state_tie 3 (by unfold Placement_invariant; decide)
        (by decide)).2 4 (by decide) (by decide)
        (by unfold Allocate_assertions; decide)
    refine ⟨s2, e, ?_, ?_, h2, h3, ?_, ?_⟩
    · rw [h1]; decide
    · rw [h1]; decide
    · rw [h4 (by decide) 0]; decide
    · rw [h4 (by decide) 1]; decide
  · obtain ⟨_, _, s2, e, h1, h2, h3, _, _, h6⟩ :=
      (C11_extract_enqueue_round_trip (Simple_plugins_contract Example_priority)
        true Example_state_tie_executing 3 (by unfold Placement_invariant; decide)
        (by decide)).2 4 (by decide) (by decide)
        (by unfold Allocate_assertions; decide)
    refine ⟨s2, e, ?_, ?_, h2, h3, ?_, ?_⟩
    · rw [h1]; decide
    · rw [h1]; decide
    · rw [h6 (by decide) (by decide) 0]; decide
    · rw [h6 (by decide) (by decide) 1]; decide

/-- C11, counterexample to the claim as stated.  The state `Example_state_tie`
satisfies the invariants I2 to I5 and the idle thread I (priority 5) is
SCHEDULED.  Under the strict FIFO order, extract of I followed by enqueue of I,
its priority unchanged, returns a state in which the idle thread J of the same
priority has taken the place of I: I is no longer in the scheduled set, it is
in the ready set, and J is the heir of processor 0. -/
theorem C11_extract_enqueue_round_trip_counterexample :
    Placement_invariant Example_state_tie ∧ Heir_invariant Example_state_tie ∧
    Heir_distinct Example_state_tie ∧
    Scheduler_invariant Example_priority Example_state_tie ∧
    Example_state_tie.state 3 = SCHEDULER_SMP_NODE_SCHEDULED ∧
    ∃ s2, _Scheduler_SMP_Enqueue_ordered true (Simple_plugins Example_priority)
        (_Scheduler_SMP_Extract (Simple_plugins Example_priority)
          Example_state_tie 3) 3 = .ok s2 ∧
      ¬ s2.Scheduled.Perm Example_state_tie.Scheduled ∧
      ¬ s2.Ready.Perm Example_state_tie.Ready ∧
      (s2.per_cpu 0).heir = 4 ∧ (Example_state_tie.per_cpu 0).heir = 3 := by
  refine ⟨by unfold Placement_invariant; decide, by unfold Heir_invariant; decide,
    by unfold Heir_distinct; decide, by unfold Scheduler_invariant; decide,
    by decide, ?_⟩
  have hv : (_Scheduler_SMP_Enqueue_ordered true (Simple_plugins Example_priority)
      (_Scheduler_SMP_Extract (Simple_plugins Example_priority)
        Example_state_tie 3) 3).toOption.map
        (fun s => (s.Scheduled, s.Ready, (s.per_cpu 0).heir)) = some ([0, 4], [3], 4) := by
    decide
  cases h : _Scheduler_SMP_Enqueue_ordered true (Simple_plugins Example_priority)
      (_Scheduler_SMP_Extract (Simple_plugins Example_priority)
        Example_state_tie 3) 3 with
  | error f =>
    rw [h] at hv
    simp [Except.toOption] at hv
  | ok s2 =>
    rw [h] at hv
    simp only [Except.toOption, Option.map_some', Option.some.injEq,
      Prod.mk.injEq] at hv
    obtain ⟨h1, h2, h3⟩ := hv
    refine ⟨s2, rfl, ?_, ?_, h3, by decide⟩
    · rw [h1]; decide
    · rw [h2]; decide

/-- C12. Block idempotence.  For a state that satisfies the placement
invariant, a thread `t` whose node is BLOCKED and a concrete scheduler that
obeys the contract and whose `extract` removes a thread only from a set that
contains it: `_Scheduler_SMP_Block` returns the state it was given, with the
call of `extract` as the only new effect in the trace; node states, scheduled
set, ready set, processor records (heir, dispatch necessary) and current-CPU
fields are unchanged. -/
theorem C12_block_idempotent {P : Plugins Thread Cpu} (C : Ready_set_contract P)
    (hrem : ∀ (x : State Thread Cpu) (u : Thread), u ∉ x.Scheduled → u ∉ x.Ready →
      (P.extract x u).Scheduled = x.Scheduled ∧ (P.extract x u).Ready = x.Ready)
    (dbg : Bool) (s : State Thread Cpu) (t : Thread)
    (hI2 : Placement_invariant s)
    (hst : s.state t = SCHEDULER_SMP_NODE_BLOCKED) :
    _Scheduler_SMP_Block dbg P s t = .ok (s.emit (Event.call_extract t)) ∧
    (s.emit (Event.call_extract t)).state = s.state ∧
    (s.emit (Event.call_extract t)).Scheduled = s.Scheduled ∧
    (s.emit (Event.call_extract t)).Ready = s.Ready ∧
    (s.emit (Event.call_extract t)).per_cpu = s.per_cpu ∧
    (s.emit (Event.call_extract t)).cpu = s.cpu := by
  refine ⟨?_, rfl, rfl, rfl, rfl, rfl⟩
  have htS : t ∉ s.Scheduled := fun hm => by
    rw [(Placement_scheduled hI2 t).1 hm] at hst; cases hst
  have htR : t ∉ s.Ready := fun hm => by
    rw [(Placement_ready hI2 t).1 hm] at hst; cases hst
  obtain ⟨S, R, _, _, he⟩ := C.extract (s.emit (Event.call_extract t)) t
  obtain ⟨h1, h2⟩ := hrem (s.emit (Event.call_extract t)) t htS htR
  rw [he] at h1 h2
  have hS : S = s.Scheduled := h1
  have hR : R = s.Ready := h2
  have hu : Function.update s.state t (Extract_state (s.state t)) = s.state := by
    have hb : Extract_state (s.state t) = s.state t := by rw [hst]; rfl
    rw [hb]
    exact Function.update_eq_self t s.state
  have hx : P.extract (s.emit (Event.call_extract t)) t
      = s.emit (Event.call_extract t) := by
    rw [he, hS, hR]
    calc ({ s.emit (Event.call_extract t) with
            state := Function.update s.state t (Extract_state (s.state t))
            Scheduled := s.Scheduled
            Ready := s.Ready } : State Thread Cpu)
        = { s.emit (Event.call_extract t) with state := s.state } :=
          congrArg (fun f => ({ s.emit (Event.call_extract t) with state := f } :
            State Thread Cpu)) hu
      _ = s.emit (Event.call_extract t) := rfl
  rw [Block_eq]
  unfold _Scheduler_SMP_Extract
  rw [hx]
  exact Schedule_other dbg P _ t (by show s.state t ≠ _; rw [hst]; decide)

/-- C12, witness: blocking the blocked thread D of the example. -/
theorem C12_block_idempotent_witness :
    _Scheduler_SMP_Block true (Simple_plugins Example_priority) Example_state 5
      = .ok (Example_state.emit (Event.call_extract 5)) ∧
    (Example_state.emit (Event.call_extract 5)).state = Example_state.state ∧
    (Example_state.emit (Event.call_extract 5)).Scheduled = Example_state.Scheduled ∧
    (Example_state.emit (Event.call_extract 5)).Ready = Example_state.Ready ∧
    (Example_state.emit (Event.call_extract 5)).per_cpu = Example_state.per_cpu ∧
    (Example_state.emit (Event.call_extract 5)).cpu = Example_state.cpu :=
  C12_block_idempotent (Simple_plugins_contract Example_priority)
    (fun x u hS hR => ⟨List.erase_of_not_mem hS, List.erase_of_not_mem hR⟩)
    true Example_state 5 (by unfold Placement_invariant; decide) (by decide)

/-- C14. Processor slot selection in `_Scheduler_SMP_Allocate_processor`.  In
every state the operation returns with, the node of `scheduled` is SCHEDULED
(no other node state changes), and with `H` the thread that has to move and
`slot` the processor records after the slot selection: if `scheduled` is
executing on a processor owned by the instance, the heir of that processor is
`scheduled`, `H` is its previous heir and no other record has changed;
otherwise `H` is `scheduled` and no record has changed.  Then, if `H` differs
from `victim`, the current CPU of the victim has heir `H`, the current-CPU field
of `H` is that processor, and no other record and no other current-CPU field
changes; if `H` equals `victim`, the records and the current-CPU fields stay
as the slot selection left them.  The operation returns when, in a build with
`RTEMS_DEBUG`, the transition of `scheduled` is permitted and the assertions
hold. -/
theorem C14_allocate_processor (dbg : Bool) (s : State Thread Cpu)
    (scheduled victim : Thread) :
    ((dbg = true → _Scheduler_SMP_Node_valid_state_changes (s.state scheduled)
          SCHEDULER_SMP_NODE_SCHEDULED = true) →
        Allocate_assertions dbg s scheduled →
        ∃ s2, _Scheduler_SMP_Allocate_processor dbg s scheduled victim = .ok s2) ∧
    ∀ s2, _Scheduler_SMP_Allocate_processor dbg s scheduled victim = .ok s2 →
      s2.state = Function.update s.state scheduled SCHEDULER_SMP_NODE_SCHEDULED ∧
      ∃ (slot : Cpu → Per_CPU_Control Thread) (H : Thread),
        (s.is_executing scheduled = true ∧
            _Scheduler_SMP_Is_processor_owned_by_us s (s.cpu scheduled) = true →
          H = (s.per_cpu (s.cpu scheduled)).heir ∧
          (slot (s.cpu scheduled)).heir = scheduled ∧
          ∀ p, p ≠ s.cpu scheduled → slot p = s.per_cpu p) ∧
        (¬ (s.is_executing scheduled = true ∧
            _Scheduler_SMP_Is_processor_owned_by_us s (s.cpu scheduled) = true) →
          H = scheduled ∧ slot = s.per_cpu) ∧
        (H ≠ victim →
          (s2.per_cpu (s.cpu victim)).heir = H ∧ s2.cpu H = s.cpu victim ∧
          (∀ p, p ≠ s.cpu victim → s2.per_cpu p = slot p) ∧
          ∀ x, x ≠ H → s2.cpu x = s.cpu x) ∧
        (H = victim → s2.per_cpu = slot ∧ s2.cpu = s.cpu) := by
  constructor
  · intro hv ha
    exact ⟨_, Allocate_ok dbg s scheduled victim hv ha⟩
  · intro s2 h
    obtain rfl := Allocate_inv dbg s s2 scheduled victim h
    refine ⟨(Allocate_state_frame s scheduled victim).1, ?_⟩
    rw [Allocate_state_per_cpu, Allocate_state_cpu]
    by_cases hc : s.is_executing scheduled = true ∧
        _Scheduler_SMP_Is_processor_owned_by_us s (s.cpu scheduled) = true
    · rw [if_pos hc, if_pos hc]
      refine ⟨Function.update s.per_cpu (s.cpu scheduled)
          (Heir_record s (s.cpu scheduled) scheduled),
        (s.per_cpu (s.cpu scheduled)).heir, ?_, ?_, ?_, ?_⟩
      · intro _
        refine ⟨rfl, by simp [Heir_record], ?_⟩
        intro p hp
        exact Function.update_noteq hp _ _
      · intro hn
        exact absurd hc hn
      · intro hX
        rw [if_neg hX, if_neg hX]
        refine ⟨by simp, by simp, ?_, ?_⟩
        · intro p hp
          exact Function.update_noteq hp _ _
        · intro x hx
          exact Function.update_noteq hx _ _
      · intro hX
        rw [if_pos hX, if_pos hX]
        exact ⟨rfl, rfl⟩
    · rw [if_neg hc, if_neg hc]
      refine ⟨s.per_cpu, scheduled, ?_, ?_, ?_, ?_⟩
      · intro hy
        exact absurd hy hc
      · intro _
        exact ⟨rfl, rfl⟩
      · intro hsv
        rw [if_neg hsv, if_neg hsv]
        refine ⟨by simp [Heir_record], by simp, ?_, ?_⟩
        · intro p hp
          exact Function.update_noteq hp _ _
        · intro x hx
          exact Function.update_noteq hx _ _
      · intro hsv
        rw [if_pos hsv, if_pos hsv]
        exact ⟨rfl, rfl⟩

/-- C14, witness.  In the example the idle thread I, executing on processor 0,
is given a processor at the expense of B: I becomes the heir of processor 0,
and A, the previous heir of processor 0, becomes the heir of processor 1, the
processor of B, which becomes its current CPU. -/
theorem C14_allocate_processor_witness :
    ∃ s2, _Scheduler_SMP_Allocate_processor true Example_state 3 1 = .ok s2 ∧
      s2.state = Function.update Example_state.state 3 SCHEDULER_SMP_NODE_SCHEDULED ∧
      (s2.per_cpu 1).heir = 0 ∧ s2.cpu 0 = 1 ∧
      ∀ x, x ≠ 0 → s2.cpu x = Example_state.cpu x := by
  have h := C14_allocate_processor true Example_state 3 1
  obtain ⟨s2, e⟩ := h.1 (fun _ => by decide) (by unfold Allocate_assertions; decide)
  obtain ⟨hst, slot, H, h1, _, h3, _⟩ := h.2 s2 e
  obtain ⟨hH, _, _⟩ := h1 ⟨by decide, by decide⟩
  have hH0 : H = 0 := by rw [hH]; decide
  subst hH0
  obtain ⟨a, b, _, d⟩ := h3 (by decide)
  exact ⟨s2, e, hst, a, b, d⟩

/-- C15. Postcondition of `_Scheduler_SMP_Update_heir`.  Afterwards the heir of
`cpu_for_heir` is `heir` and its dispatch necessary indicator is set, and the
record of no other processor has changed.  The new effects in the trace hold
the store to the indicator exactly when it was not set before the call, and an
inter-processor interrupt (at most one, for `cpu_for_heir`) exactly when it was
not set before the call and `cpu_for_heir` is not `cpu_self`; there is no store
to the heir or the indicator of another processor. -/
theorem C15_update_heir (s : State Thread Cpu) (cpu_self cpu_for_heir : Cpu)
    (heir : Thread) :
    ((_Scheduler_SMP_Update_heir s cpu_self cpu_for_heir heir).per_cpu
      cpu_for_heir).heir = heir ∧
    ((_Scheduler_SMP_Update_heir s cpu_self cpu_for_heir heir).per_cpu
      cpu_for_heir).dispatch_necessary = true ∧
    (∀ p, p ≠ cpu_for_heir →
      (_Scheduler_SMP_Update_heir s cpu_self cpu_for_heir heir).per_cpu p
        = s.per_cpu p) ∧
    ∃ es, (_Scheduler_SMP_Update_heir s cpu_self cpu_for_heir heir).trace
        = s.trace ++ es ∧
      (Event.store_dispatch_necessary cpu_for_heir ∈ es ↔
        (s.per_cpu cpu_for_heir).dispatch_necessary = false) ∧
      (∀ p, Event.send_interrupt p ∈ es ↔
        p = cpu_for_heir ∧ (s.per_cpu cpu_for_heir).dispatch_necessary = false ∧
          cpu_for_heir ≠ cpu_self) ∧
      (∀ p, es.count (Event.send_interrupt p) ≤ 1) ∧
      (∀ p, p ≠ cpu_for_heir →
        (∀ h, Event.store_heir p h ∉ es) ∧ Event.store_dispatch_necessary p ∉ es) := by
  refine ⟨by simp [Update_heir_per_cpu, Heir_record],
    by simp [Update_heir_per_cpu, Heir_record], ?_, ?_⟩
  · intro p hp
    rw [Update_heir_per_cpu]
    exact Function.update_noteq hp _ _
  · refine ⟨_, Update_heir_trace s cpu_self cpu_for_heir heir, ?_, ?_, ?_, ?_⟩
    · unfold Update_heir_events
      cases (s.per_cpu cpu_for_heir).dispatch_necessary <;>
        by_cases hc : cpu_for_heir = cpu_self <;> simp [hc]
    · intro p
      unfold Update_heir_events
      cases (s.per_cpu cpu_for_heir).dispatch_necessary <;>
        by_cases hc : cpu_for_heir = cpu_self <;> simp [hc]
    · intro p
      unfold Update_heir_events
      by_cases hp : cpu_for_heir = p
      · subst hp
        cases (s.per_cpu cpu_for_heir).dispatch_necessary <;>
          by_cases hc : cpu_for_heir = cpu_self <;> simp [hc, List.count_cons]
      · cases (s.per_cpu cpu_for_heir).dispatch_necessary <;>
          by_cases hc : cpu_for_heir = cpu_self <;> simp [hc, hp, List.count_cons]
    · intro p hp
      unfold Update_heir_events
      by_cases hc : cpu_for_heir = cpu_self
      · subst hc
        cases (s.per_cpu cpu_for_heir).dispatch_necessary <;> simp [hp]
      · cases (s.per_cpu cpu_for_heir).dispatch_necessary <;> simp [hc, hp]

/-- C16. The heir is written before the dispatch flag.  The effects of every
`_Scheduler_SMP_Update_heir` are, in this order: the store to the heir of
`cpu_for_heir`, the fence, then, if the dispatch necessary indicator was not
set, the store to the indicator and, if `cpu_for_heir` is not `cpu_self`, the
inter-processor interrupt.  Consequently, with a concrete scheduler that obeys
the contract, in the effects of every `_Scheduler_SMP_Enqueue_ordered` and every
`_Scheduler_SMP_Schedule` that returns, every store to a dispatch necessary
indicator comes right after the store to the heir of the same processor and
the fence (so every prefix that holds the store to the indicator holds the
store to the heir), and every interrupt right after the store to the
indicator. -/
theorem C16_heir_before_dispatch {P : Plugins Thread Cpu} (C : Ready_set_contract P)
    (dbg : Bool) (s : State Thread Cpu) :
    (∀ (cpu_self cpu_for_heir : Cpu) (heir : Thread),
      (_Scheduler_SMP_Update_heir s cpu_self cpu_for_heir heir).trace =
        s.trace ++
          ([Event.store_heir cpu_for_heir heir, Event.atomic_fence] ++
            (if (s.per_cpu cpu_for_heir).dispatch_necessary = true then []
             else Event.store_dispatch_necessary cpu_for_heir ::
               (if cpu_for_heir = cpu_self then []
                else [Event.send_interrupt cpu_for_heir])))) ∧
    (∀ t s2, _Scheduler_SMP_Enqueue_ordered dbg P s t = .ok s2 →
      ∃ es, s2.trace = s.trace ++ es ∧ Heir_before_dispatch es) ∧
    (∀ t s2, _Scheduler_SMP_Schedule dbg P s t = .ok s2 →
      ∃ es, s2.trace = s.trace ++ es ∧ Heir_before_dispatch es) := by
  refine ⟨?_, ?_, ?_⟩
  · intro cself c h
    rw [Update_heir_trace]
    rfl
  · intro t s2 h
    exact ⟨_, Enqueue_trace C dbg s s2 t h, Heir_before_dispatch_Enqueue_events P s t⟩
  · intro t s2 h
    exact ⟨_, Schedule_trace C dbg s s2 t h, Heir_before_dispatch_Schedule_events P s t⟩

/-- C16, witness: the enqueue of D in the example, which gives processor 1 a
new heir, and the schedule of A in the air. -/
theorem C16_heir_before_dispatch_witness :
    (∃ s2, _Scheduler_SMP_Enqueue_ordered true (Simple_plugins Example_priority)
        Example_state 5 = .ok s2 ∧
      ∃ es, s2.trace = Example_state.trace ++ es ∧ Heir_before_dispatch es) ∧
    (∃ s2, _Scheduler_SMP_Schedule true (Simple_plugins Example_priority)
        Example_state_in_the_air 0 = .ok s2 ∧
      ∃ es, s2.trace = Example_state_in_the_air.trace ++ es ∧
        Heir_before_dispatch es) := by
  constructor
  · obtain ⟨s2, e⟩ := Enqueue_returns (Simple_plugins_contract Example_priority) true
      Example_state 5 (by unfold Placement_invariant; decide) (Or.inl (by decide))
      (by unfold Allocate_assertions; decide)
    exact ⟨s2, e, (C16_heir_before_dispatch (Simple_plugins_contract Example_priority)
      true Example_state).2.1 5 s2 e⟩
  · obtain ⟨s2, e⟩ := Schedule_returns (Simple_plugins_contract Example_priority) true
      Example_state_in_the_air 0 (by unfold Placement_invariant; decide)
      (fun _ => by decide) (by unfold Allocate_assertions; decide)
    exact ⟨s2, e, (C16_heir_before_dispatch (Simple_plugins_contract Example_priority)
      true Example_state_in_the_air).2.2 0 s2 e⟩

/-- C19. At most one inter-processor interrupt per processor and operation.
Among the effects of every `_Scheduler_SMP_Allocate_processor` that returns, and
(with a concrete scheduler that obeys the contract) of every
`_Scheduler_SMP_Enqueue_ordered` and `_Scheduler_SMP_Schedule` that returns, no
processor is sent two interrupts, at most two interrupts are sent, none to the
calling processor and none to a processor whose dispatch necessary indicator
was set before the call; this for all threads, also when the processor of
`scheduled` is the processor of `victim`. -/
theorem C19_interrupt_bound {P : Plugins Thread Cpu} (C : Ready_set_contract P)
    (dbg : Bool) (s : State Thread Cpu) :
    (∀ scheduled victim s2,
      _Scheduler_SMP_Allocate_processor dbg s scheduled victim = .ok s2 →
      ∃ es, s2.trace = s.trace ++ es ∧ Interrupt_bound s es) ∧
    (∀ t s2, _Scheduler_SMP_Enqueue_ordered dbg P s t = .ok s2 →
      ∃ es, s2.trace = s.trace ++ es ∧ Interrupt_bound s es) ∧
    (∀ t s2, _Scheduler_SMP_Schedule dbg P s t = .ok s2 →
      ∃ es, s2.trace = s.trace ++ es ∧ Interrupt_bound s es) := by
  refine ⟨?_, ?_, ?_⟩
  · intro sch v s2 h
    obtain rfl := Allocate_inv dbg s s2 sch v h
    exact ⟨_, Allocate_state_trace s sch v, Interrupt_bound_Allocate_events s sch v⟩
  · intro t s2 h
    exact ⟨_, Enqueue_trace C dbg s s2 t h, Interrupt_bound_Enqueue_events P s t⟩
  · intro t s2 h
    exact ⟨_, Schedule_trace C dbg s s2 t h, Interrupt_bound_Schedule_events P s t⟩

/-- C19, witness.  In the example the idle thread J, executing on processor 1,
is given a processor at the expense of C, whose current CPU is processor 1 as
well: processor 1 gets two heirs in a row and one interrupt.  The bound also
holds for the enqueue of D. -/
theorem C19_interrupt_bound_witness :
    (∃ s2, _Scheduler_SMP_Allocate_processor true Example_state 4 2 = .ok s2 ∧
      Example_state.cpu 4 = Example_state.cpu 2 ∧
      ∃ es, s2.trace = Example_state.trace ++ es ∧ Interrupt_bound Example_state es) ∧
    (∃ s2, _Scheduler_SMP_Enqueue_ordered true (Simple_plugins Example_priority)
        Example_state 5 = .ok s2 ∧
      ∃ es, s2.trace = Example_state.trace ++ es ∧ Interrupt_bound Example_state es) := by
  have h := C19_interrupt_bound (Simple_plugins_contract Example_priority) true
    Example_state
  constructor
  · have e := Allocate_ok true Example_state 4 2 (fun _ => by decide)
      (by unfold Allocate_assertions; decide)
    exact ⟨_, e, by decide, h.1 4 2 _ e⟩
  · obtain ⟨s2, e⟩ := Enqueue_returns (Simple_plugins_contract Example_priority) true
      Example_state 5 (by unfold Placement_invariant; decide) (Or.inl (by decide))
      (by unfold Allocate_assertions; decide)
    exact ⟨s2, e, h.2.1 5 s2 e⟩

/-- C13, as the code has it: enqueue performs only permitted transitions for a
thread whose node is BLOCKED or IN_THE_AIR.  Under I2 and with a concrete
scheduler that obeys the contract, every node-state change among the effects of
`_Scheduler_SMP_Enqueue_ordered` (the ones of its own calls of
`_Scheduler_SMP_Node_change_state` and the one inside
`_Scheduler_SMP_Allocate_processor`) is a pair of the table of permitted
transitions, and the operation returns with exactly these effects, also in a
build with `RTEMS_DEBUG` provided the other assertions of the processor
allocation hold: the assertion of the guard does not fail. -/
theorem C13_enqueue_transitions {P : Plugins Thread Cpu} (C : Ready_set_contract P)
    (s : State Thread Cpu) (t : Thread) (hI2 : Placement_invariant s)
    (hst : s.state t = SCHEDULER_SMP_NODE_BLOCKED ∨
      s.state t = SCHEDULER_SMP_NODE_IN_THE_AIR) :
    (∀ x o n, Event.node_change_state x o n ∈ Enqueue_events P s t →
      _Scheduler_SMP_Node_valid_state_changes o n = true) ∧
    (∀ dbg, (∀ x, Allocate_assertions dbg s x) →
      ∃ s2, _Scheduler_SMP_Enqueue_ordered dbg P s t = .ok s2 ∧
        s2.trace = s.trace ++ Enqueue_events P s t) := by
  refine ⟨fun x o n h => Enqueue_events_valid C s t hI2 hst x o n h, ?_⟩
  intro dbg ha
  obtain ⟨s2, e⟩ := Enqueue_returns C dbg s t hI2 hst ha
  exact ⟨s2, e, Enqueue_trace C dbg s s2 t e⟩

/-- C13, witness: the enqueue of the blocked thread D in the example. -/
theorem C13_enqueue_transitions_witness :
    Placement_invariant Example_state ∧
    Example_state.state 5 = SCHEDULER_SMP_NODE_BLOCKED ∧
    (∀ x o n, Event.node_change_state x o n ∈
        Enqueue_events (Simple_plugins Example_priority) Example_state 5 →
      _Scheduler_SMP_Node_valid_state_changes o n = true) ∧
    (∀ dbg, (∀ x, Allocate_assertions dbg Example_state x) →
      ∃ s2, _Scheduler_SMP_Enqueue_ordered dbg (Simple_plugins Example_priority)
          Example_state 5 = .ok s2 ∧
        s2.trace = Example_state.trace ++
          Enqueue_events (Simple_plugins Example_priority) Example_state 5) :=
  ⟨by unfold Placement_invariant; decide, by decide,
    C13_enqueue_transitions (Simple_plugins_contract Example_priority) Example_state 5
      (by unfold Placement_invariant; decide) (Or.inl (by decide))⟩

/-- C13, counterexample to the claim as written, which also covers a thread
whose node is READY.  The example satisfies the invariants; C is READY and, by
I5, does not displace the lowest scheduled thread B, so
`_Scheduler_SMP_Enqueue_ordered` takes the last branch and changes the node
of C from READY to READY, a pair that is not in the table: with `RTEMS_DEBUG`
the assertion of the guard fails, without it the change is made. -/
theorem C13_enqueue_transitions_counterexample :
    Placement_invariant Example_state ∧ Heir_invariant Example_state ∧
    Heir_distinct Example_state ∧
    Scheduler_invariant Example_priority Example_state ∧
    Example_state.state 2 = SCHEDULER_SMP_NODE_READY ∧
    _Scheduler_SMP_Enqueue_ordered true (Simple_plugins Example_priority)
      Example_state 2 = .error Fault.assertion_failed ∧
    (_Scheduler_SMP_Enqueue_ordered false (Simple_plugins Example_priority)
      Example_state 2).toOption.map (fun s2 => s2.trace) =
        some [Event.node_change_state 2 SCHEDULER_SMP_NODE_READY
          SCHEDULER_SMP_NODE_READY, Event.call_insert_ready 2] ∧
    (SCHEDULER_SMP_NODE_READY, SCHEDULER_SMP_NODE_READY) ∉
      [(SCHEDULER_SMP_NODE_BLOCKED, SCHEDULER_SMP_NODE_SCHEDULED),
        (SCHEDULER_SMP_NODE_BLOCKED, SCHEDULER_SMP_NODE_READY),
        (SCHEDULER_SMP_NODE_SCHEDULED, SCHEDULER_SMP_NODE_READY),
        (SCHEDULER_SMP_NODE_SCHEDULED, SCHEDULER_SMP_NODE_IN_THE_AIR),
        (SCHEDULER_SMP_NODE_READY, SCHEDULER_SMP_NODE_BLOCKED),
        (SCHEDULER_SMP_NODE_READY, SCHEDULER_SMP_NODE_SCHEDULED),
        (SCHEDULER_SMP_NODE_IN_THE_AIR, SCHEDULER_SMP_NODE_BLOCKED),
        (SCHEDULER_SMP_NODE_IN_THE_AIR, SCHEDULER_SMP_NODE_SCHEDULED),
        (SCHEDULER_SMP_NODE_IN_THE_AIR, SCHEDULER_SMP_NODE_READY)] ∧
    _Scheduler_SMP_Node_valid_state_changes SCHEDULER_SMP_NODE_READY
      SCHEDULER_SMP_NODE_READY = false :=
  ⟨by unfold Placement_invariant; decide, by unfold Heir_invariant; decide,
    by unfold Heir_distinct; decide, by unfold Scheduler_invariant; decide,
    by decide, rfl, by decide, by decide, by decide⟩

/-- C18, as the code has it: the node-state changes of enqueue, schedule, block
and the processor allocation go through the guarded primitive.  With a
concrete scheduler that obeys the contract, the effects of every
`_Scheduler_SMP_Allocate_processor`, `_Scheduler_SMP_Enqueue_ordered` and
`_Scheduler_SMP_Schedule` that returns, and of the part of
`_Scheduler_SMP_Block` that follows the extract of the concrete scheduler,
hold no direct store to a node state; the node states returned are the old
ones with the logged calls of `_Scheduler_SMP_Node_change_state` made in
order, and in a build with `RTEMS_DEBUG` each of these changes is in the table
of permitted transitions.  `_Scheduler_SMP_Start_idle` is different: it stores
the state SCHEDULED directly, without the guarded primitive. -/
theorem C18_guarded_state_changes {P : Plugins Thread Cpu} (C : Ready_set_contract P)
    (dbg : Bool) (s : State Thread Cpu) :
    (∀ scheduled victim s2,
      _Scheduler_SMP_Allocate_processor dbg s scheduled victim = .ok s2 →
      ∃ es, s2.trace = s.trace ++ es ∧ Guarded_changes dbg s.state s2.state es) ∧
    (∀ t s2, _Scheduler_SMP_Enqueue_ordered dbg P s t = .ok s2 →
      ∃ es, s2.trace = s.trace ++ es ∧ Guarded_changes dbg s.state s2.state es) ∧
    (∀ t s2, _Scheduler_SMP_Schedule dbg P s t = .ok s2 →
      ∃ es, s2.trace = s.trace ++ es ∧ Guarded_changes dbg s.state s2.state es) ∧
    (∀ t s2, _Scheduler_SMP_Block dbg P s t = .ok s2 →
      ∃ es, s2.trace = (_Scheduler_SMP_Extract P s t).trace ++ es ∧
        Guarded_changes dbg (_Scheduler_SMP_Extract P s t).state s2.state es) ∧
    (∀ t c, (_Scheduler_SMP_Start_idle s t c).trace =
        s.trace ++ [Event.node_store_state t SCHEDULER_SMP_NODE_SCHEDULED,
          Event.thread_set_cpu t c, Event.chain_append_scheduled t] ∧
      (_Scheduler_SMP_Start_idle s t c).state =
        Function.update s.state t SCHEDULER_SMP_NODE_SCHEDULED) := by
  refine ⟨?_, ?_, ?_, ?_, ?_⟩
  · intro sch v s2 h
    refine ⟨_, ?_, Guarded_changes_Allocate dbg s s2 sch v h⟩
    rw [Allocate_inv dbg s s2 sch v h]
    exact Allocate_state_trace s sch v
  · intro t s2 h
    exact ⟨_, Enqueue_trace C dbg s s2 t h, Guarded_changes_Enqueue C dbg s s2 t h⟩
  · intro t s2 h
    exact ⟨_, Schedule_trace C dbg s s2 t h, Guarded_changes_Schedule C dbg s s2 t h⟩
  · intro t s2 h
    rw [Block_eq] at h
    exact ⟨_, Schedule_trace C dbg _ s2 t h, Guarded_changes_Schedule C dbg _ s2 t h⟩
  · intro t c
    constructor
    · simp [_Scheduler_SMP_Start_idle, _Thread_Set_CPU]
    · rfl

/-- C18, witness: the block of the scheduled thread A in the example, whose
two node-state changes after the extract are made by the guarded primitive. -/
theorem C18_guarded_state_changes_witness :
    ∃ s2, _Scheduler_SMP_Block true (Simple_plugins Example_priority)
        Example_state 0 = .ok s2 ∧
      ∃ es, s2.trace = (_Scheduler_SMP_Extract (Simple_plugins Example_priority)
          Example_state 0).trace ++ es ∧
        Guarded_changes true
          (_Scheduler_SMP_Extract (Simple_plugins Example_priority)
            Example_state 0).state s2.state es := by
  obtain ⟨s2, e⟩ := Block_returns (Simple_plugins_contract Example_priority) true
    Example_state 0 (by unfold Placement_invariant; decide) (fun _ => by decide)
    (by unfold Allocate_assertions; decide)
  exact ⟨s2, e, (C18_guarded_state_changes (Simple_plugins_contract Example_priority)
    true Example_state).2.2.2.1 0 s2 e⟩

/-- C18, counterexample to the claim as written, which names start_idle among
the operations: `_Scheduler_SMP_Start_idle` of the idle thread I turns its node
from BLOCKED to SCHEDULED by a direct store.  The effects hold no call of
`_Scheduler_SMP_Node_change_state`: the logged changes leave the node BLOCKED. -/
theorem C18_guarded_state_changes_counterexample :
    Example_initial.state 3 = SCHEDULER_SMP_NODE_BLOCKED ∧
    (_Scheduler_SMP_Start_idle Example_initial 3 0).state 3 =
      SCHEDULER_SMP_NODE_SCHEDULED ∧
    (_Scheduler_SMP_Start_idle Example_initial 3 0).trace =
      [Event.node_store_state 3 SCHEDULER_SMP_NODE_SCHEDULED,
        Event.thread_set_cpu 3 0, Event.chain_append_scheduled 3] ∧
    (Replay_changes (_Scheduler_SMP_Start_idle Example_initial 3 0).trace
      Example_initial.state).map (fun st => st 3) =
        some SCHEDULER_SMP_NODE_BLOCKED ∧
    ¬ Guarded_changes true Example_initial.state
      (_Scheduler_SMP_Start_idle Example_initial 3 0).state
      (_Scheduler_SMP_Start_idle Example_initial 3 0).trace := by
  refine ⟨by decide, by decide, by decide, by decide, ?_⟩
  intro h
  exact h.1 3 SCHEDULER_SMP_NODE_SCHEDULED (by decide)

/-- C17. The two-processor scenario of the header documentation, with the
strict FIFO priority order, run on the code with and without `RTEMS_DEBUG`.
The idle threads I and J (threads 3 and 4, priority 5) are started on the
processors 0 and 1, whose heirs they are; A, B, C (threads 0, 1, 2 with
priorities 1, 2, 3) are blocked and not executing.  After the enqueue of A, C
and B the scheduled chain is [A, B] and the ready set holds C, I and J; after
the extract of A, A is IN_THE_AIR, the chain is [B] and the ready set is as
before; then the enqueue of A with priority 4 gives the chain [B, C], the
ready set A, I, J and the heirs B on processor 0 and C on processor 1, while
the schedule of A gives A BLOCKED, the chain [B, C], the ready set I, J and C
as the heir of processor 1, the former processor of A. -/
theorem C17_documented_scenario (dbg : Bool) :
    (Example_started.Scheduled = [3, 4] ∧ Example_started.Ready = [] ∧
      (Example_started.per_cpu 0).heir = 3 ∧ (Example_started.per_cpu 1).heir = 4 ∧
      Example_started.cpu 3 = 0 ∧ Example_started.cpu 4 = 1 ∧
      (∀ t : Fin 7, t = 0 ∨ t = 1 ∨ t = 2 →
        Example_started.state t = SCHEDULER_SMP_NODE_BLOCKED ∧
        Example_started.is_executing t = false)) ∧
    (Example_S3 dbg).toOption.map
        (fun s => (s.Scheduled, s.Ready, s.state 2, s.cpu 0)) =
      some ([0, 1], [2, 3, 4], SCHEDULER_SMP_NODE_READY, 1) ∧
    (Example_S4 dbg).toOption.map
        (fun s => (s.state 0, s.Scheduled, s.Ready, s.cpu 0)) =
      some (SCHEDULER_SMP_NODE_IN_THE_AIR, [1], [2, 3, 4], 1) ∧
    (Example_S5 dbg).toOption.map
        (fun s => (s.Scheduled, s.Ready, (s.per_cpu 0).heir, (s.per_cpu 1).heir)) =
      some ([1, 2], [0, 3, 4], 1, 2) ∧
    (Example_S6 dbg).toOption.map
        (fun s => (s.state 0, s.Scheduled, s.Ready, (s.per_cpu 1).heir)) =
      some (SCHEDULER_SMP_NODE_BLOCKED, [1, 2], [3, 4], 2) := by
  cases dbg <;> refine ⟨?_, ?_, ?_, ?_, ?_⟩ <;> decide

/-- C20. Slot conservation.  With a concrete scheduler that obeys the ready-set
contract and in every state that satisfies I2: the enqueue of a BLOCKED thread
leaves the length of the scheduled chain and the number of nodes IN_THE_AIR as
they are; the extract of a SCHEDULED thread takes one from the chain and adds
one node in the air; the enqueue and the schedule of an IN_THE_AIR thread add
one to the chain and take one node out of the air; so the sum of the two
numbers is unchanged by every enqueue (of a BLOCKED or IN_THE_AIR thread),
extract, schedule and block that returns, and these operations return (in a
build with `RTEMS_DEBUG`: when the assertions of the processor allocation
hold) provided the ready set is not empty when a highest ready thread is
needed.  Hence in every state reached by such operations after N calls of
`_Scheduler_SMP_Start_idle` for N different threads, starting with all nodes
BLOCKED and empty sets, the scheduled chain has exactly N members whenever no
node is IN_THE_AIR. -/
theorem C20_slot_conservation [Fintype Thread] {P : Plugins Thread Cpu}
    (C : Ready_set_contract P) (dbg : Bool) :
    (∀ s : State Thread Cpu, Placement_invariant s →
      (∀ t s2, s.state t = SCHEDULER_SMP_NODE_BLOCKED →
        _Scheduler_SMP_Enqueue_ordered dbg P s t = .ok s2 →
        s2.Scheduled.length = s.Scheduled.length ∧
          In_the_air_count s2 = In_the_air_count s) ∧
      (∀ t, s.state t = SCHEDULER_SMP_NODE_SCHEDULED →
        (_Scheduler_SMP_Extract P s t).Scheduled.length + 1 = s.Scheduled.length ∧
          In_the_air_count (_Scheduler_SMP_Extract P s t) = In_the_air_count s + 1) ∧
      (∀ t s2, s.state t = SCHEDULER_SMP_NODE_IN_THE_AIR →
        _Scheduler_SMP_Enqueue_ordered dbg P s t = .ok s2 →
        s2.Scheduled.length = s.Scheduled.length + 1 ∧
          In_the_air_count s2 + 1 = In_the_air_count s) ∧
      (∀ t s2, s.state t = SCHEDULER_SMP_NODE_IN_THE_AIR →
        _Scheduler_SMP_Schedule dbg P s t = .ok s2 →
        s2.Scheduled.length = s.Scheduled.length + 1 ∧
          In_the_air_count s2 + 1 = In_the_air_count s) ∧
      (∀ t s2, s.state t = SCHEDULER_SMP_NODE_BLOCKED ∨
          s.state t = SCHEDULER_SMP_NODE_IN_THE_AIR →
        _Scheduler_SMP_Enqueue_ordered dbg P s t = .ok s2 → Slots s2 = Slots s) ∧
      (∀ t, Slots (_Scheduler_SMP_Extract P s t) = Slots s) ∧
      (∀ t s2, _Scheduler_SMP_Schedule dbg P s t = .ok s2 → Slots s2 = Slots s) ∧
      (∀ t s2, _Scheduler_SMP_Block dbg P s t = .ok s2 → Slots s2 = Slots s) ∧
      ((∀ x, Allocate_assertions dbg s x) → ∀ t,
        (s.state t = SCHEDULER_SMP_NODE_BLOCKED ∨
            s.state t = SCHEDULER_SMP_NODE_IN_THE_AIR →
          ∃ s2, _Scheduler_SMP_Enqueue_ordered dbg P s t = .ok s2) ∧
        ((s.state t = SCHEDULER_SMP_NODE_IN_THE_AIR → s.Ready ≠ []) →
          ∃ s2, _Scheduler_SMP_Schedule dbg P s t = .ok s2) ∧
        ((s.state t = SCHEDULER_SMP_NODE_SCHEDULED ∨
            s.state t = SCHEDULER_SMP_NODE_IN_THE_AIR → s.Ready ≠ []) →
          ∃ s2, _Scheduler_SMP_Block dbg P s t = .ok s2))) ∧
    (∀ (s0 s : State Thread Cpu) (idles : List (Thread × Cpu)),
      (∀ x, s0.state x = SCHEDULER_SMP_NODE_BLOCKED) →
      s0.Scheduled = [] → s0.Ready = [] → (idles.map Prod.fst).Nodup →
      Reachable dbg P (Start_idles s0 idles) s →
      (∀ x, s.state x ≠ SCHEDULER_SMP_NODE_IN_THE_AIR) →
      s.Scheduled.length = idles.length) := by
  constructor
  · intro s hI2
    refine ⟨?_, ?_, ?_, ?_, ?_, ?_, ?_, ?_, ?_⟩
    · intro t s2 hb h
      have hair : s.state t ≠ SCHEDULER_SMP_NODE_IN_THE_AIR := by rw [hb]; decide
      have hs := Enqueue_slots C dbg s s2 t hI2 (Or.inl hb) h
      rw [if_neg hair] at hs
      exact ⟨hs.1, hs.2⟩
    · intro t hs
      have he := Extract_slots C s t hI2
      rw [if_pos hs] at he
      exact he
    · intro t s2 hair h
      have hs := Enqueue_slots C dbg s s2 t hI2 (Or.inr hair) h
      rw [if_pos hair] at hs
      exact hs
    · intro t s2 hair h
      have hs := Schedule_slots C dbg s s2 t hI2 h
      rw [if_pos hair] at hs
      exact hs
    · intro t s2 hst h
      exact Slots_enqueue C dbg s s2 t hI2 hst h
    · intro t
      exact Slots_extract C s t hI2
    · intro t s2 h
      exact Slots_schedule C dbg s s2 t hI2 h
    · intro t s2 h
      exact Slots_block C dbg s s2 t hI2 h
    · intro ha t
      exact ⟨fun hst => Enqueue_returns C dbg s t hI2 hst ha,
        fun hR => Schedule_returns C dbg s t hI2 hR ha,
        fun hR => Block_returns C dbg s t hI2 hR ha⟩
  · intro s0 s idles h0 hS hR hd hr hair
    obtain ⟨hI2, hN⟩ := Start_idles_slots s0 idles h0 hS hR hd
    obtain ⟨_, hsl⟩ := Reachable_slots C dbg _ s hI2 hr
    have hz := (In_the_air_count_zero s).2 hair
    unfold Slots at hsl hN
    omega

/-- C20, witness: after the two idle threads of the example were started and
A was enqueued no node is in the air and the scheduled chain has two
members. -/
theorem C20_slot_conservation_witness :
    (∀ x, Example_initial.state x = SCHEDULER_SMP_NODE_BLOCKED) ∧
    Example_initial.Scheduled = [] ∧ Example_initial.Ready = [] ∧
    Start_idles Example_initial [(3, 0), (4, 1)] = Example_started ∧
    ∃ s2, _Scheduler_SMP_Enqueue_ordered true (Simple_plugins Example_priority)
        Example_started 0 = .ok s2 ∧
      (∀ x, s2.state x ≠ SCHEDULER_SMP_NODE_IN_THE_AIR) ∧
      s2.Scheduled.length = 2 := by
  refine ⟨by decide, rfl, rfl, rfl, ?_⟩
  have hv : (_Scheduler_SMP_Enqueue_ordered true (Simple_plugins Example_priority)
      Example_started 0).toOption.map
        (fun s => decide (∀ x, s.state x ≠ SCHEDULER_SMP_NODE_IN_THE_AIR)) =
      some true := by
    decide
  cases h : _Scheduler_SMP_Enqueue_ordered true (Simple_plugins Example_priority)
      Example_started 0 with
  | error f =>
    rw [h] at hv
    simp [Except.toOption] at hv
  | ok s2 =>
    rw [h] at hv
    simp only [Except.toOption, Option.map_some', Option.some.injEq,
      decide_eq_true_eq] at hv
    exact ⟨s2, rfl, hv,
      (C20_slot_conservation (Simple_plugins_contract Example_priority) true).2
        Example_initial s2 [(3, 0), (4, 1)] (by decide) rfl rfl (by decide)
        (Reachable.enqueue Example_started s2 0 Reachable.start (Or.inl (by decide)) h)
        hv⟩

end Claims

end SchedulerSMP
